import Mathlib

/-!
# ld-decode: C1 CIRC stage, F2-frame-to-audio assembler and comb filter

A shallow embedding of
* `tools/ld-process-efm/Decoders/c1circ.cpp` (class `C1Circ`),
* `tools/ld-process-efm/Decoder/f2framestoaudio.cpp` (class `F2FramesToAudio`), and
* `combg2.cxx` (class `Comb` and the functions around it),
followed by the properties proved about them.

Conventions of the embedding.
* A `char` of a `QByteArray` is held as its unsigned value `0..255`, the value
  `static_cast<uchar>` yields, so the casts between `char`, `uchar` and `uint8_t`
  are the identity on the representation.
* A `QByteArray` / `QVector` / `std::vector` is a `List`; `a[i] = v` on an
  in-range index is `List.set`, a read `a[i]` is `List.getD a i 0`.
* The Reed-Solomon coder `C1RS<255,251>` (ezpwd, a header that is not part of
  these sources) is a parameter: a function from the block and the erasure
  list to the returned `int` and the block as the coder leaves it.
* The statistics counters are unbounded integers.
-/

/-- One byte, as its unsigned value. -/
abbrev Byte := Fin 256

/-- The expression `static_cast<char>(static_cast<uchar>(b) ^ 0xFF)`. -/
def xorFF (b : Byte) : Byte := ⟨(b.val ^^^ 0xFF) % 256, Nat.mod_lt _ (by decide)⟩

/-- What `C1Circ` reads of an F3 frame: `getDataSymbols()` and `getErrorSymbols()`. -/
structure F3Frame where
  getDataSymbols : List Byte
  getErrorSymbols : List Byte
deriving DecidableEq, Repr

/-- The Reed-Solomon coder: `rs.decode(data, erasures, &position)` returns `fixed`
and leaves the (possibly corrected) block in `data`. -/
abbrev RSDecode := List Byte → List Nat → Int × List Byte

namespace C1Circ

/-- The struct `C1Circ::Statistics`. -/
structure Statistics where
  c1Passed : Int
  c1Corrected : Int
  c1Failed : Int
  c1flushed : Int
deriving DecidableEq, Repr

end C1Circ

/-- The member variables of `C1Circ`. -/
structure C1Circ where
  currentF3Data : List Byte
  previousF3Data : List Byte
  currentF3Errors : List Byte
  previousF3Errors : List Byte
  interleavedC1Data : List Byte
  interleavedC1Errors : List Byte
  outputC1Data : List Byte
  outputC1Errors : List Byte
  c1BufferLevel : Int
  statistics : C1Circ.Statistics
deriving DecidableEq, Repr

namespace C1Circ

/-- Call `QByteArray::fill(0)`: every byte becomes 0, the size is kept. -/
def fill0 (a : List Byte) : List Byte := List.replicate a.length 0

/-- Method `C1Circ::resetStatistics`. -/
def resetStatistics (s : C1Circ) : C1Circ :=
  { s with statistics := { c1Passed := 0, c1Corrected := 0, c1Failed := 0, c1flushed := 0 } }

/-- Method `C1Circ::flush`. -/
def flush (s : C1Circ) : C1Circ :=
  { currentF3Data := fill0 s.currentF3Data
    previousF3Data := fill0 s.previousF3Data
    currentF3Errors := fill0 s.currentF3Errors
    previousF3Errors := fill0 s.previousF3Errors
    interleavedC1Data := fill0 s.interleavedC1Data
    interleavedC1Errors := fill0 s.interleavedC1Errors
    outputC1Data := fill0 s.outputC1Data
    outputC1Errors := fill0 s.outputC1Errors
    c1BufferLevel := 0
    statistics := { s.statistics with c1flushed := s.statistics.c1flushed + 1 } }

/-- Method `C1Circ::reset`. -/
def reset (s : C1Circ) : C1Circ := resetStatistics (flush s)

/-- The constructor `C1Circ::C1Circ()`: the eight `resize` calls, then `reset()`.
The fields the constructor leaves indeterminate before `reset()` (buffer
contents, level, statistics) are all overwritten by `reset()`. -/
def new : C1Circ :=
  reset
    { currentF3Data := List.replicate 32 0
      previousF3Data := List.replicate 32 0
      currentF3Errors := List.replicate 32 0
      previousF3Errors := List.replicate 32 0
      interleavedC1Data := List.replicate 32 0
      interleavedC1Errors := List.replicate 32 0
      outputC1Data := List.replicate 28 0
      outputC1Errors := List.replicate 28 0
      c1BufferLevel := 0
      statistics := { c1Passed := 0, c1Corrected := 0, c1Failed := 0, c1flushed := 0 } }

/-- One pass of the loop body of `C1Circ::interleave` at even index `byteC`. -/
def interleaveStep (s : C1Circ) (byteC : Nat) : C1Circ :=
  { s with
    interleavedC1Data :=
      (s.interleavedC1Data.set byteC (s.currentF3Data.getD byteC 0)).set (byteC + 1)
        (s.previousF3Data.getD (byteC + 1) 0)
    interleavedC1Errors :=
      (s.interleavedC1Errors.set byteC (s.currentF3Errors.getD byteC 0)).set (byteC + 1)
        (s.previousF3Errors.getD (byteC + 1) 0) }

/-- The statement `a[i] = static_cast<char>(static_cast<uchar>(a[i]) ^ 0xFF)`. -/
def invertAt (a : List Byte) (i : Nat) : List Byte := a.set i (xorFF (a.getD i 0))

/-- The eight inversion statements of `C1Circ::interleave` (Qm parity 12..15, then
Pm parity 28..31), in source order. -/
def invertParity (a : List Byte) : List Byte :=
  let a := invertAt a 12
  let a := invertAt a 13
  let a := invertAt a 14
  let a := invertAt a 15
  let a := invertAt a 28
  let a := invertAt a 29
  let a := invertAt a 30
  let a := invertAt a 31
  a

/-- Method `C1Circ::interleave`: the loop `for (byteC = 0; byteC < 32; byteC += 2)`, then the
parity inversion of the data (the error flags are left alone). -/
def interleave (s : C1Circ) : C1Circ :=
  let s := (List.range 16).foldl (fun s k => interleaveStep s (2 * k)) s
  { s with interleavedC1Data := invertParity s.interleavedC1Data }

/-- The first loop of `C1Circ::errorCorrect`: `data` (resized to 32) receives the
interleaved block and `erasures` receives, by `push_back`, every index whose
interleaved error flag equals 1. -/
def gatherStep (s : C1Circ) (acc : List Byte × List Nat) (byteC : Nat) : List Byte × List Nat :=
  (acc.1.set byteC (s.interleavedC1Data.getD byteC 0),
   if s.interleavedC1Errors.getD byteC 0 = 1 then acc.2 ++ [byteC] else acc.2)

/-- The arguments `errorCorrect` hands to `rs.decode`: the block, and the erasure
list after `if (erasures.size() > 4) erasures.clear()`. -/
def rsInput (s : C1Circ) : List Byte × List Nat :=
  let acc := (List.range 32).foldl (gatherStep s) (List.replicate 32 0, [])
  let erasures := if acc.2.length > 4 then [] else acc.2
  (acc.1, erasures)

/-- One pass of the copy-back loop of `C1Circ::errorCorrect`. -/
def copyStep (fixed : Int) (data : List Byte) (s : C1Circ) (byteC : Nat) : C1Circ :=
  { s with
    outputC1Data := s.outputC1Data.set byteC (data.getD byteC 0)
    outputC1Errors := s.outputC1Errors.set byteC (if fixed < 0 then 1 else 0) }

/-- The three statistics updates that close `C1Circ::errorCorrect`. -/
def updateStatistics (fixed : Int) (st : Statistics) : Statistics :=
  let st := if fixed = 0 then { st with c1Passed := st.c1Passed + 1 } else st
  let st := if fixed > 0 then { st with c1Corrected := st.c1Corrected + 1 } else st
  let st := if fixed < 0 then { st with c1Failed := st.c1Failed + 1 } else st
  st

/-- Method `C1Circ::errorCorrect`. -/
def errorCorrect (rs : RSDecode) (s : C1Circ) : C1Circ :=
  let args := rsInput s
  let r := rs args.1 args.2
  let fixed := r.1
  let data := r.2
  let s := (List.range 28).foldl (copyStep fixed data) s
  { s with statistics := updateStatistics fixed s.statistics }

/-- The first five statements of `C1Circ::pushF3Frame`: the current frame becomes the
previous one, the pushed frame becomes the current one, `c1BufferLevel++`. -/
def shiftIn (s : C1Circ) (f3Frame : F3Frame) : C1Circ :=
  let s := { s with previousF3Data := s.currentF3Data, currentF3Data := f3Frame.getDataSymbols }
  let s := { s with previousF3Errors := s.currentF3Errors, currentF3Errors := f3Frame.getErrorSymbols }
  { s with c1BufferLevel := s.c1BufferLevel + 1 }

/-- Method `C1Circ::pushF3Frame`. -/
def pushF3Frame (rs : RSDecode) (s : C1Circ) (f3Frame : F3Frame) : C1Circ :=
  let s := shiftIn s f3Frame
  if s.c1BufferLevel > 1 then
    errorCorrect rs (interleave { s with c1BufferLevel := 2 })
  else s

/-- Method `C1Circ::getDataSymbols`. -/
def getDataSymbols (s : C1Circ) : List Byte :=
  if s.c1BufferLevel > 1 then s.outputC1Data else []

/-- Method `C1Circ::getErrorSymbols`. -/
def getErrorSymbols (s : C1Circ) : List Byte :=
  if s.c1BufferLevel > 1 then s.outputC1Errors else []

/-- A run of `pushF3Frame` calls, oldest frame first, with no flush in between. -/
def pushAll (rs : RSDecode) (s : C1Circ) (frames : List F3Frame) : C1Circ :=
  frames.foldl (pushF3Frame rs) s

/-- The buffer sizes the constructor establishes and every method keeps. -/
def Sized (s : C1Circ) : Prop :=
  s.interleavedC1Data.length = 32 ∧ s.interleavedC1Errors.length = 32 ∧
  s.outputC1Data.length = 28 ∧ s.outputC1Errors.length = 28

instance (s : C1Circ) : Decidable (Sized s) := by
  unfold Sized
  infer_instance

/-- The decoders a program can hold: the constructed one, and what the public
methods make of one. -/
inductive Reachable (rs : RSDecode) : C1Circ → Prop
  | new : Reachable rs new
  | pushF3Frame (s : C1Circ) (f : F3Frame) : Reachable rs s → Reachable rs (pushF3Frame rs s f)
  | flush (s : C1Circ) : Reachable rs s → Reachable rs (flush s)
  | reset (s : C1Circ) : Reachable rs s → Reachable rs (reset s)
  | resetStatistics (s : C1Circ) : Reachable rs s → Reachable rs (resetStatistics s)

/-- The indices of the Qm (12..15) and Pm (28..31) parity symbols. -/
def isParityIndex (j : Nat) : Bool := (12 ≤ j && j ≤ 15) || (28 ≤ j && j ≤ 31)

/-- The decoder as `errorCorrect` finds it in a push that decodes: the frame shifted
in, the level set to 2 and `interleave()` done. -/
def interleaved (s : C1Circ) (f3Frame : F3Frame) : C1Circ :=
  interleave { shiftIn s f3Frame with c1BufferLevel := 2 }

/-- The total `reportStatistics` prints as "Total C1s processed". -/
def totalProcessed (s : C1Circ) : Int :=
  s.statistics.c1Passed + s.statistics.c1Corrected + s.statistics.c1Failed

/-- A coder that reports no correction and leaves the block as it is. -/
def passRS : RSDecode := fun data _ => (0, data)

/-- A coder that always reports failure. -/
def failRS : RSDecode := fun data _ => (-1, data)

/-- An F3 frame with symbols 0, 1, .., 31 and the error flag raised at index 5. -/
def frameA : F3Frame :=
  { getDataSymbols := (List.range 32).map (fun i => (Fin.ofNat i : Byte))
    getErrorSymbols := (List.replicate 32 (0 : Byte)).set 5 1 }

/-- An F3 frame with symbols 100, 101, .., 131 and the error flag raised at index 2. -/
def frameB : F3Frame :=
  { getDataSymbols := (List.range 32).map (fun i => (Fin.ofNat (100 + i) : Byte))
    getErrorSymbols := (List.replicate 32 (0 : Byte)).set 2 1 }

end C1Circ

/-- What `F2FramesToAudio` reads of an F2 frame: `getDataValid()` and `getDataSymbols()`. -/
structure F2Frame where
  getDataValid : Bool
  getDataSymbols : List Byte
deriving DecidableEq, Repr, Inhabited

/-- Modelled from the spec: the class `TrackTime` is not among the sources; the
code only calls `setTime(0, 0, 0)` on it and copies it, and the spec describes
a time as three numbers (`HH:MM:FF`). -/
structure TrackTime where
  minutes : Int
  seconds : Int
  frames : Int
deriving DecidableEq, Repr, Inhabited

/-- Method `TrackTime::setTime`. -/
def TrackTime.setTime (a b c : Int) : TrackTime := { minutes := a, seconds := b, frames := c }

namespace Section

/-- The `qControl` record of `Section::QMetadata` (the fields the code reads). -/
structure QControl where
  isAudioNotData : Bool
  isStereoNotQuad : Bool
  isNoPreempNotPreemp : Bool
  isCopyProtectedNotUnprotected : Bool
deriving DecidableEq, Repr, Inhabited

/-- The `qMode1` and `qMode4` records of `Section::QMetadata` (the fields the code reads). -/
structure QModeRecord where
  isLeadIn : Bool
  isLeadOut : Bool
  trackNumber : Int
  point : Int
  x : Int
  trackTime : TrackTime
  discTime : TrackTime
deriving DecidableEq, Repr, Inhabited

/-- The struct `Section::QMetadata`. -/
structure QMetadata where
  qControl : QControl
  qMode1 : QModeRecord
  qMode4 : QModeRecord
deriving DecidableEq, Repr, Inhabited

end Section

/-- What `F2FramesToAudio` reads of a section: `getQMode()` and `getQMetadata()`. -/
structure Section where
  getQMode : Int
  getQMetadata : Section.QMetadata
deriving DecidableEq, Repr, Inhabited

namespace F2FramesToAudio

/-- The struct `F2FramesToAudio::Metadata`. -/
structure Metadata where
  qMode : Int
  isAudio : Bool
  trackNumber : Int
  subdivision : Int
  trackTime : TrackTime
  discTime : TrackTime
  encoderRunning : Bool
  isCorrected : Bool
deriving DecidableEq, Repr, Inhabited

/-- The struct `F2FramesToAudio::Statistics`. -/
structure Statistics where
  validAudioSamples : Int
  invalidAudioSamples : Int
  sectionsProcessed : Int
  encoderRunning : Int
  encoderStopped : Int
  qModeICount : Int
  trackNumber : Int
  subdivision : Int
  discTime : TrackTime
  trackTime : TrackTime
  qMode1Count : Int
  qMode4Count : Int
deriving DecidableEq, Repr, Inhabited

end F2FramesToAudio

/-- The member variables of `F2FramesToAudio`. The audio sink behind
`outputFileHandle` is the list of the byte arrays passed to `write`, oldest first. -/
structure F2FramesToAudio where
  f2FramesIn : List F2Frame
  sectionsIn : List Section
  statistics : F2FramesToAudio.Statistics
  qMetaModeVector : List Int
  qMetaDataVector : List Section.QMetadata
  audioOut : List (List Byte)
deriving DecidableEq, Repr, Inhabited

namespace F2FramesToAudio

/-- Method `F2FramesToAudio::resetStatistics`. -/
def resetStatistics (s : F2FramesToAudio) : F2FramesToAudio :=
  { s with
    statistics :=
      { validAudioSamples := 0
        invalidAudioSamples := 0
        sectionsProcessed := 0
        encoderRunning := 0
        encoderStopped := 0
        qModeICount := 0
        trackNumber := 0
        subdivision := 0
        discTime := TrackTime.setTime 0 0 0
        trackTime := TrackTime.setTime 0 0 0
        qMode1Count := 0
        qMode4Count := 0 } }

/-- Method `F2FramesToAudio::reset`. -/
def reset (s : F2FramesToAudio) : F2FramesToAudio := resetStatistics s

/-- The constructor `F2FramesToAudio::F2FramesToAudio()`: the queues and the metadata
vectors are default-constructed (empty), nothing has been written, then `reset()`. -/
def new : F2FramesToAudio :=
  reset
    { f2FramesIn := []
      sectionsIn := []
      statistics := default
      qMetaModeVector := []
      qMetaDataVector := []
      audioOut := [] }

/-- The branch of `sectionToMeta` shared, field for field, by Q mode 1 (on
`qMetaData.qMode1`) and Q mode 4 (on `qMetaData.qMode4`): lead-in, lead-out
(paused / running) and audio (paused / running). -/
def audioModeMetadata (qMode : Int) (isAudio : Bool) (q : Section.QModeRecord) : Metadata :=
  if q.isLeadIn then
    { qMode := qMode, isAudio := isAudio
      trackNumber := q.trackNumber, subdivision := q.point
      trackTime := q.trackTime, discTime := q.discTime
      encoderRunning := false, isCorrected := false }
  else if q.isLeadOut then
    if q.x = 0 then
      { qMode := qMode, isAudio := isAudio
        trackNumber := q.trackNumber, subdivision := 0
        trackTime := q.trackTime, discTime := q.discTime
        encoderRunning := false, isCorrected := false }
    else
      { qMode := qMode, isAudio := isAudio
        trackNumber := q.trackNumber, subdivision := 0
        trackTime := q.trackTime, discTime := q.discTime
        encoderRunning := true, isCorrected := false }
  else
    if q.x = 0 then
      { qMode := qMode, isAudio := isAudio
        trackNumber := q.trackNumber, subdivision := q.x
        trackTime := q.trackTime, discTime := q.discTime
        encoderRunning := false, isCorrected := false }
    else
      { qMode := qMode, isAudio := isAudio
        trackNumber := q.trackNumber, subdivision := q.x
        trackTime := q.trackTime, discTime := q.discTime
        encoderRunning := true, isCorrected := false }

/-- Method `F2FramesToAudio::sectionToMeta`: the metadata returned and the converter
afterwards (metadata vectors appended, statistics updated). -/
def sectionToMeta (s : F2FramesToAudio) (sect : Section) : Metadata × F2FramesToAudio :=
  let isAudio : Bool := if sect.getQMetadata.qControl.isAudioNotData then true else false
  let qMode := sect.getQMode
  let qMetaData := sect.getQMetadata
  let s := { s with qMetaModeVector := s.qMetaModeVector ++ [qMode] }
  let s := { s with qMetaDataVector := s.qMetaDataVector ++ [qMetaData] }
  let ms : Metadata × F2FramesToAudio :=
    if qMode = 1 then
      (audioModeMetadata qMode isAudio qMetaData.qMode1,
       { s with statistics := { s.statistics with qMode1Count := s.statistics.qMode1Count + 1 } })
    else if qMode = 4 then
      (audioModeMetadata qMode isAudio qMetaData.qMode4,
       { s with statistics := { s.statistics with qMode4Count := s.statistics.qMode4Count + 1 } })
    else
      ({ qMode := qMode, isAudio := isAudio
         trackNumber := -1, subdivision := -1
         trackTime := TrackTime.setTime 0 0 0, discTime := TrackTime.setTime 0 0 0
         encoderRunning := true, isCorrected := false },
       { s with statistics := { s.statistics with qModeICount := s.statistics.qModeICount + 1 } })
  let metadata := ms.1
  let s := ms.2
  let s := { s with statistics := { s.statistics with
                discTime := metadata.discTime
                trackTime := metadata.trackTime
                subdivision := metadata.subdivision
                trackNumber := metadata.trackNumber } }
  let s :=
    if metadata.encoderRunning then
      { s with statistics := { s.statistics with encoderRunning := s.statistics.encoderRunning + 1 } }
    else
      { s with statistics := { s.statistics with encoderStopped := s.statistics.encoderStopped + 1 } }
  (metadata, s)

/-- Call `outputFileHandle->write(bytes)`. -/
def write (s : F2FramesToAudio) (bytes : List Byte) : F2FramesToAudio :=
  { s with audioOut := s.audioOut ++ [bytes] }

/-- The body of the inner loop of `processAudio` for F2 frame index `i`. -/
def frameStep (metadata : Metadata) (s : F2FramesToAudio) (i : Nat) : F2FramesToAudio :=
  if metadata.encoderRunning then
    let s :=
      if !(s.f2FramesIn.getD i default).getDataValid then
        { s with statistics := { s.statistics with
                    invalidAudioSamples := s.statistics.invalidAudioSamples + 6 } }
      else
        { s with statistics := { s.statistics with
                    validAudioSamples := s.statistics.validAudioSamples + 6 } }
    write s (s.f2FramesIn.getD i default).getDataSymbols
  else
    let dummy : List Byte := List.replicate 24 0
    write s dummy

/-- The inner loop of `processAudio`:
`for (i = f2FrameNumber; i < f2FrameNumber + 98; i++)`. -/
def frameLoop (metadata : Metadata) (s : F2FramesToAudio) (f2FrameNumber : Nat) :
    F2FramesToAudio :=
  (List.range 98).foldl (fun s j => frameStep metadata s (f2FrameNumber + j)) s

/-- The body of the outer loop of `processAudio` for section index `sectionNo`; the
second component is the local `f2FrameNumber`. -/
def sectionStep (st : F2FramesToAudio × Nat) (sectionNo : Nat) : F2FramesToAudio × Nat :=
  let s := st.1
  let f2FrameNumber := st.2
  let ms := sectionToMeta s (s.sectionsIn.getD sectionNo default)
  let metadata := ms.1
  let s := ms.2
  let s := frameLoop metadata s f2FrameNumber
  let f2FrameNumber := f2FrameNumber + 98
  let s := { s with statistics := { s.statistics with
                sectionsProcessed := s.statistics.sectionsProcessed + 1 } }
  (s, f2FrameNumber)

/-- The local `sectionsToProcess` of `processAudio`. -/
def sectionsToProcess (s : F2FramesToAudio) : Nat :=
  let n := s.f2FramesIn.length / 98
  if s.sectionsIn.length < n then s.sectionsIn.length else n

/-- The converter and `f2FrameNumber` after the first `k` passes of the outer loop
of `processAudio`. -/
def sectionLoop (s : F2FramesToAudio) (k : Nat) : F2FramesToAudio × Nat :=
  (List.range k).foldl sectionStep (s, 0)

/-- Method `F2FramesToAudio::processAudio`. -/
def processAudio (s : F2FramesToAudio) : F2FramesToAudio :=
  let n := sectionsToProcess s
  let s := (sectionLoop s n).1
  { s with
    f2FramesIn := s.f2FramesIn.drop (n * 98)
    sectionsIn := s.sectionsIn.drop n }

/-- Method `F2FramesToAudio::convert`. -/
def convert (s : F2FramesToAudio) (f2Frames : List F2Frame) (sections : List Section) :
    F2FramesToAudio :=
  let s := { s with f2FramesIn := s.f2FramesIn ++ f2Frames }
  let s := { s with sectionsIn := s.sectionsIn ++ sections }
  if s.f2FramesIn.length ≥ 98 ∧ s.sectionsIn.length ≥ 1 then processAudio s else s

/-- A run of `convert` calls, oldest first. -/
def convertAll (s : F2FramesToAudio) (calls : List (List F2Frame × List Section)) :
    F2FramesToAudio :=
  calls.foldl (fun s c => convert s c.1 c.2) s

/-- The `encoderRunning` flag `sectionToMeta` returns for a section; it does not
depend on the converter the call is made on. -/
def encoderRunningOf (sect : Section) : Bool := (sectionToMeta new sect).1.encoderRunning

/-- The byte array one pass of the inner loop of `processAudio` writes: the
frame's data when the encoder is running, 24 zero bytes otherwise. -/
def writeOf (running : Bool) (frame : F2Frame) : List Byte :=
  if running then frame.getDataSymbols else List.replicate 24 0

/-- All F2 frames handed over by a run of `convert` calls, in arrival order. -/
def arrivedFrames (calls : List (List F2Frame × List Section)) : List F2Frame :=
  (calls.map (fun c => c.1)).flatten

/-- All sections handed over by a run of `convert` calls, in arrival order. -/
def arrivedSections (calls : List (List F2Frame × List Section)) : List Section :=
  (calls.map (fun c => c.2)).flatten

/-- The first-in-first-out bookkeeping of the converter against everything that has
arrived so far: `N` sections have been processed, section `i` with the frames
`98 i .. 98 i + 97`, and the rest is still queued in arrival order. -/
def Fifo (s : F2FramesToAudio) (F : List F2Frame) (S : List Section) (N : Nat) : Prop :=
  98 * N ≤ F.length ∧ N ≤ S.length ∧
  s.f2FramesIn = F.drop (98 * N) ∧ s.sectionsIn = S.drop N ∧
  s.statistics.sectionsProcessed = N ∧
  s.qMetaModeVector = (List.range N).map (fun i => (S.getD i default).getQMode) ∧
  s.qMetaDataVector = (List.range N).map (fun i => (S.getD i default).getQMetadata) ∧
  s.audioOut = (List.range (98 * N)).map (fun i =>
    writeOf (encoderRunningOf (S.getD (i / 98) default)) (F.getD i default))

/-- An F2 frame with valid data 0, 1, .., 23. -/
def sampleFrame : F2Frame :=
  { getDataValid := true
    getDataSymbols := (List.range 24).map (fun i => (Fin.ofNat i : Byte)) }

/-- A Q mode 1 audio section with `x = 1` (encoder running). -/
def sampleSection : Section :=
  { getQMode := 1
    getQMetadata :=
      { qControl := default
        qMode1 := { (default : Section.QModeRecord) with x := 1 }
        qMode4 := default } }

/-- A converter holding 98 copies of `sampleFrame` and one `sampleSection`. -/
def sampleQueue : F2FramesToAudio :=
  { new with f2FramesIn := List.replicate 98 sampleFrame, sectionsIn := [sampleSection] }

/-- A Q mode 1 audio section with `x = 0` (encoder paused). -/
def pausedSection : Section :=
  { getQMode := 1
    getQMetadata := { qControl := default, qMode1 := default, qMode4 := default } }

/-- A converter holding 98 copies of `sampleFrame` and one `pausedSection`. -/
def pausedQueue : F2FramesToAudio :=
  { new with f2FramesIn := List.replicate 98 sampleFrame, sectionsIn := [pausedSection] }

/-- A Q mode 1 lead-out section (not a lead-in) with `point = 7` and `x = 1`. -/
def leadOutSection : Section :=
  { getQMode := 1
    getQMetadata :=
      { qControl := default
        qMode1 := { (default : Section.QModeRecord) with isLeadOut := true, point := 7, x := 1 }
        qMode4 := default } }

/-- The bookkeeping of the statistics at the end of a pass of the section loop:
588 samples per running section, one running-or-stopped count, one Q mode count and
one metadata record per section processed. -/
def Tally (s : F2FramesToAudio) : Prop :=
  s.statistics.validAudioSamples + s.statistics.invalidAudioSamples =
    588 * s.statistics.encoderRunning ∧
  s.statistics.sectionsProcessed = s.statistics.encoderRunning + s.statistics.encoderStopped ∧
  s.statistics.encoderRunning + s.statistics.encoderStopped =
    s.statistics.qMode1Count + s.statistics.qMode4Count + s.statistics.qModeICount ∧
  s.statistics.sectionsProcessed = (s.qMetaDataVector.length : Int) ∧
  s.qMetaModeVector.length = s.qMetaDataVector.length

end F2FramesToAudio

/-! ## The comb filter `combg2.cxx`

Conventions of the embedding.
* A `double` is an exact rational number: the arithmetic is that of the source,
  without rounding. The definitions under `Comb.Dbl` are the exception: they round
  every operation to the nearest `double` (`roundDouble`), for the properties that
  turn on the rounding.
* A `uint16_t` sample is a natural number; a frame or any other array is the
  function from its flat index to its element, and `a[i] = v` is `upd a i v`.
* The array `cbuf[525]` of lines `p[910]` is indexed flat, `cbuf[l].p[h]` at
  `l * 910 + h`, as it lies in memory.
* The class `Filter` and the coefficient tables (`deemp.h`) are not part of these
  sources: a filter is a parameter, of type `Deemp.Filter`.
* The diagnostic output on `cerr` is left out.
-/

/-- Modelled from the spec: the class `Filter` is not among the sources; the spec
describes it as a value carrying coefficients and history with an operation
`feed(sample) → sample`. The history is `hist`, and `step` (which stands for the
fixed coefficients) maps the history and a sample to the new history and the output. -/
structure Deemp.Filter where
  hist : List ℚ
  step : List ℚ → ℚ → List ℚ × ℚ

/-- Call `feed(val)`: the filter afterwards, and the value returned. -/
def Deemp.Filter.feed (f : Deemp.Filter) (val : ℚ) : Deemp.Filter × ℚ :=
  ({ f with hist := (f.step f.hist val).1 }, (f.step f.hist val).2)

/-- The assignment `a[i] = v` on an array held as a function of the index. -/
def upd {α : Type} (a : Nat → α) (i : Nat) (v : α) : Nat → α :=
  fun j => if j = i then v else a j

/-- The struct `YIQ`. -/
structure YIQ where
  y : ℚ
  i : ℚ
  q : ℚ
deriving DecidableEq, Repr, Inhabited

/-- The struct `RGB`. -/
structure RGB where
  r : ℚ
  g : ℚ
  b : ℚ
deriving DecidableEq, Repr, Inhabited

namespace Comb

/-- The global `irescale = 327.67`. -/
def irescale : ℚ := 32767 / 100

/-- The global `irebase = 1`. -/
def irebase : ℚ := 1

/-- The constant `dots_usec = dotclk / 1000000.0`, with
`dotclk = 1000000.0 * (315.0 / 88.0) * freq` and `freq = 4.0`. -/
def dots_usec : ℚ := 315 / 88 * 4

/-- The global tunables and mode flags the methods of `Comb` read, as `main` leaves
them before the first `Process` call (`nr_y` and `nr_c` already multiplied by
`irescale`). -/
structure Settings where
  pulldown_mode : Bool
  image_mode : Bool
  bw_mode : Bool
  cwide_mode : Bool
  f_oneframe : Bool
  linesout : Nat
  brightness : ℚ
  black_ire : ℚ
  nr_y : ℚ
  nr_c : ℚ
deriving DecidableEq, Repr

/-- The settings of a run without options. -/
def defaultSettings : Settings :=
  { pulldown_mode := false, image_mode := false, bw_mode := false, cwide_mode := false
    f_oneframe := false, linesout := 480, brightness := 240, black_ire := 15 / 2
    nr_y := 4 * irescale, nr_c := 0 * irescale }

/-- Function `clamp`. -/
def clamp (v low high : ℚ) : ℚ :=
  if v < low then low else if v > high then high else v

/-- The conversion of a `double` to `int`: truncation toward zero. -/
def truncInt (v : ℚ) : Int := if 0 ≤ v then ⌊v⌋ else -⌊-v⌋

/-- The conversion of a `double` to `uint16_t`: truncation toward zero; a value
outside 0..65535, for which C++ leaves the result undefined, is reduced modulo 2^16. -/
def toU16 (v : ℚ) : Nat := (truncInt v % 65536).toNat

/-- Function `u16_to_ire`, in exact arithmetic; `Dbl.u16_to_ire` is the same function
with every operation rounded to a `double`. -/
def u16_to_ire (level : Nat) : ℚ :=
  if level = 0 then -100 else -60 + ((level : ℚ) - irebase) / irescale

end Comb

/-- Method `RGB::conv` (the `#else` branch that is compiled); `_y.y` is passed to
`u16_to_ire`, whose parameter is a `uint16_t`. -/
def RGB.conv (cfg : Comb.Settings) (_y : YIQ) : RGB :=
  let y := Comb.u16_to_ire (Comb.toU16 _y.y)
  let y := (y - cfg.black_ire) * (100 / (100 - cfg.black_ire))
  let i := _y.i / Comb.irescale
  let q := _y.q / Comb.irescale
  let r := y + (113983 / 100000 * q)
  let g := y - (58060 / 100000 * q) - (i * (39465 / 100000))
  let b := y + (i * (2032 / 1000))
  let m := cfg.brightness * 256 / 100
  { r := Comb.clamp (r * m) 0 65535
    g := Comb.clamp (g * m) 0 65535
    b := Comb.clamp (b * m) 0 65535 }

/-- One call of `WriteFrame`: the frame number, the buffer handed over, the number of
16-bit samples written from its start, and whether they went to a file of their own. -/
structure WrittenFrame where
  fnum : Int
  data : Nat → Nat
  samples : Nat
  ownFile : Bool

/-- The member variables of `Comb` that its methods read or write, the global filter
`f_lpf10h`, the frames written so far (oldest first) and whether `exit(0)` has been
called. The members `linecount`, `curline`, `scount`, `fieldcount`, `frames_out`,
`frame` and the three `f_hpv` filters are set by the constructor and never used. -/
structure Comb where
  framecode : Int
  framecount : Int
  f_oddframe : Bool
  output : Nat → Nat
  obuf : Nat → Nat
  rawbuffer : Nat → Nat → Nat
  LPraw : Nat → Nat → ℚ
  K3D : Nat → ℚ
  cbuf : Nat → YIQ
  prevbuf : Nat → YIQ
  f_i : Deemp.Filter
  f_q : Deemp.Filter
  f_wi : Deemp.Filter
  f_wq : Deemp.Filter
  f_hpy : Deemp.Filter
  f_hpi : Deemp.Filter
  f_hpq : Deemp.Filter
  f_lpf10h : Deemp.Filter
  written : List WrittenFrame
  exited : Bool

namespace Comb

/-- The constructor `Comb::Comb()` of the global object `comb` (static storage, so
every array starts zeroed): the counters, the filters copied from the tables
`f_colorlp4`, `f_colorwlp4`, `f_nr`, `f_nrc`, and with them the global `f_lpf10h`. -/
def new (f_colorlp4 f_colorwlp4 f_nr f_nrc f_lpf10h : Deemp.Filter) : Comb :=
  { framecode := 0
    framecount := 0
    f_oddframe := false
    output := fun _ => 0
    obuf := fun _ => 0
    rawbuffer := fun _ _ => 0
    LPraw := fun _ _ => 0
    K3D := fun _ => 0
    cbuf := fun _ => { y := 0, i := 0, q := 0 }
    prevbuf := fun _ => { y := 0, i := 0, q := 0 }
    f_i := f_colorlp4
    f_q := f_colorlp4
    f_wi := f_colorwlp4
    f_wq := f_colorwlp4
    f_hpy := f_nr
    f_hpi := f_nrc
    f_hpq := f_nrc
    f_lpf10h := f_lpf10h
    written := []
    exited := false }

/-- Method `Comb::LPFrame`: lines 24..504, columns 32..843. -/
def LPFrame (s : Comb) (fnum : Nat) : Comb :=
  let r := (List.range' 24 481).foldl
    (fun acc l => (List.range' 32 812).foldl
      (fun acc h =>
        let fr := acc.2.feed (s.rawbuffer fnum ((l * 844) + h) : ℚ)
        (upd acc.1 ((l * 844) + h - 16) fr.2, fr.1)) acc)
    (s.LPraw fnum, s.f_lpf10h)
  { s with LPraw := upd s.LPraw fnum r.1, f_lpf10h := r.2 }

/-- The local arrays `c[3]`, `d[3]`, `v[3]` of `Comb::Split`. -/
structure CDV where
  c0 : ℚ
  c1 : ℚ
  c2 : ℚ
  d0 : ℚ
  d1 : ℚ
  d2 : ℚ
  v0 : ℚ
  v1 : ℚ
  v2 : ℚ
deriving DecidableEq, Repr

/-- The three candidates of `Comb::Split` for the pixel at line `l`, column `h`
(source lines 226..264): 3D, then 2D, then 1D. The sums and differences of samples
are `int` arithmetic, `/ 2` on a sum of samples is the integer division. The dead
stores to `d[2]`, `d[1]`, `d[0]` and `v[0]` that the next statement overwrites, and
the unused local `x`, are left out. -/
def candidates (s : Comb) (dim : Int) (f l h : Nat) : CDV :=
  let line := fun (x : Nat) => s.rawbuffer f ((l * 844) + x)
  let p3line := fun (x : Nat) => s.rawbuffer 0 ((l * 844) + x)
  let n3line := fun (x : Nat) => s.rawbuffer 2 ((l * 844) + x)
  let p2line := fun (x : Nat) => s.rawbuffer f (((l - 2) * 844) + x)
  let n2line := fun (x : Nat) => s.rawbuffer f (((l + 2) * 844) + x)
  let adr := (l * 844) + h
  let e2 : ℚ × ℚ × ℚ :=
    if dim ≥ 3 then
      let c : ℚ := (((p3line h + n3line h) / 2 : Nat) : ℚ) - (line h : ℚ)
      let d : ℚ := |(((p3line h : ℚ) - (line h : ℚ)) - ((n3line h : ℚ) - (line h : ℚ)))|
      let k := |s.LPraw 1 adr - s.LPraw 0 adr| + |s.LPraw 1 adr - s.LPraw 2 adr|
      let k := k / irescale
      (c, d, clamp (1 - ((k - 0) / 8)) 0 1)
    else (0, 0, 0)
  let e1 : ℚ × ℚ × ℚ :=
    if dim ≥ 2 ∧ l ≥ 2 ∧ l ≤ 502 then
      let c : ℚ := (((p2line h + n2line h) / 2 : Nat) : ℚ) - (line h : ℚ)
      let d : ℚ := |(((p2line h : ℚ) - (line h : ℚ)) - ((n2line h : ℚ) - (line h : ℚ)))|
      let k := |s.LPraw 1 adr - s.LPraw 1 (adr - 844)| + |s.LPraw 1 adr - s.LPraw 1 (adr + 844)|
      let k := k / irescale
      (c, d, clamp (1 - (k / 10)) 0 1)
    else (0, 0, 0)
  let c0 : ℚ := (((line (h + 2) + line (h - 2)) / 2 : Nat) : ℚ) - (line h : ℚ)
  let d0 : ℚ := |(((line (h - 2) : ℚ) - (line h : ℚ)) - ((line (h + 2) : ℚ) - (line h : ℚ)))|
  let v0 : ℚ := if c0 ≠ 0 then 1 - clamp ((|d0| / |c0|) * 1) 0 1 else 0
  { c0 := c0, c1 := e1.1, c2 := e2.1
    d0 := d0, d1 := e1.2.1, d2 := e2.2.1
    v0 := v0, v1 := e1.2.2, v2 := e2.2.2 }

/-- The two gating statements of `Comb::Split` (source lines 266..274). -/
def gate (w : CDV) : CDV :=
  let w := if (w.v1 + w.v2) ≥ 1 / 2 then { w with v0 := 0 } else w
  if (w.v0 + w.v1) > 0 then
    let v12a := 1 - w.v2
    let v12b := v12a / (w.v0 + w.v1)
    { w with v0 := w.v0 * v12b, v1 := w.v1 * v12b }
  else w

/-- The local `vtot` of `Comb::Split` as first assigned (source line 276). -/
def vtotOf (w : CDV) : ℚ := w.v0 + w.v1 + w.v2

/-- The compare-and-swap of the crude sort at index `s2` (0 or 1): when
`fabs(c[s2]) > fabs(c[s2 + 1])` the entries `s2` and `s2 + 1` of `c`, `d`, `v` are
exchanged. -/
def sortStep (w : CDV) (s2 : Nat) : CDV :=
  if s2 = 0 then
    if |w.c0| > |w.c1| then
      { w with c1 := w.c0, c0 := w.c1, d1 := w.d0, d0 := w.d1, v1 := w.v0, v0 := w.v1 }
    else w
  else
    if |w.c1| > |w.c2| then
      { w with c2 := w.c1, c1 := w.c2, d2 := w.d1, d1 := w.d2, v2 := w.v1, v1 := w.v2 }
    else w

/-- The crude sort of `Comb::Split`: `for s1 in 0..2`, `for s2 in 0..1`. -/
def crudeSort (w : CDV) : CDV :=
  (List.range 3).foldl (fun w _ => (List.range 2).foldl sortStep w) w

/-- The fallback `if (vtot <= .01)` and the three divisions by `vtot` of
`Comb::Split` (source lines 302..313). -/
def normalize (w : CDV) (vtot : ℚ) : CDV :=
  let wv : CDV × ℚ := if vtot ≤ 1 / 100 then ({ w with v1 := 1, v2 := 1 }, 2) else (w, vtot)
  { wv.1 with v0 := wv.1.v0 / wv.2, v1 := wv.1.v1 / wv.2, v2 := wv.1.v2 / wv.2 }

/-- The local `cavg` of `Comb::Split` from its first assignment to the sign flip
(source lines 315..330), in exact arithmetic; `Dbl.cavgOf` is the same with every
operation rounded to a `double`, where the order of the additions matters. -/
def cavgOf (w : CDV) (invertphase : Bool) : ℚ :=
  let cavg := w.c0 * w.v0
  let cavg := cavg + w.c1 * w.v1
  let cavg := cavg + w.c2 * w.v2
  let cavg := cavg / 2
  if !invertphase then -cavg else cavg

/-- The arrays `c`, `d`, `v` of `Comb::Split` for a pixel as the weighted average uses
them: candidates, gating, crude sort, fallback and division by `vtot`. -/
def weights (s : Comb) (dim : Int) (f l h : Nat) : CDV :=
  let w := gate (candidates s dim f l h)
  normalize (crudeSort w) (vtotOf w)

/-- The value of `cavg` that `Comb::Split` demodulates at line `l`, column `h`. -/
def cavgAt (s : Comb) (dim : Int) (f l h : Nat) : ℚ :=
  cavgOf (weights s dim f l h) (s.rawbuffer f (l * 844) == 16384)

/-- The variables the first inner loop of `Comb::Split` carries along a line. -/
structure DemodState where
  si : ℚ
  sq : ℚ
  cbuf : Nat → YIQ
  K3D : Nat → ℚ

/-- The body of the first inner loop of `Comb::Split` at column `h` of line `l`. -/
def demodStep (s : Comb) (dim : Int) (f l : Nat) (st : DemodState) (h : Nat) : DemodState :=
  let phase := h % 4
  let adr := (l * 844) + h
  let K3D := upd st.K3D adr (candidates s dim f l h).v2
  let cavg := cavgAt s dim f l h
  let si := if phase = 0 then cavg else if phase = 2 then -cavg else st.si
  let sq := if phase = 1 then -cavg else if phase = 3 then cavg else st.sq
  { si := si
    sq := sq
    cbuf := upd st.cbuf (l * 910 + h) { y := (s.rawbuffer f ((l * 844) + h) : ℚ), i := si, q := sq }
    K3D := K3D }

/-- The variables `Comb::Split` carries from line to line. -/
structure SplitState where
  cbuf : Nat → YIQ
  K3D : Nat → ℚ
  f_i : Deemp.Filter
  f_q : Deemp.Filter
  f_wi : Deemp.Filter
  f_wq : Deemp.Filter

/-- The body of the second inner loop of `Comb::Split` (chroma low-pass) at column `h`
of line `l`; in `bw_mode` the filters are not fed. -/
def chromaStep (cfg : Settings) (l : Nat) (st : SplitState) (h : Nat) : SplitState :=
  if cfg.cwide_mode then
    let ri := if cfg.bw_mode then (st.f_wi, (0 : ℚ)) else st.f_wi.feed (st.cbuf (l * 910 + h)).i
    let cbuf := upd st.cbuf (l * 910 + h - 5) { st.cbuf (l * 910 + h - 5) with i := ri.2 }
    let rq := if cfg.bw_mode then (st.f_wq, (0 : ℚ)) else st.f_wq.feed (cbuf (l * 910 + h)).q
    let cbuf := upd cbuf (l * 910 + h - 5) { cbuf (l * 910 + h - 5) with q := rq.2 }
    { st with cbuf := cbuf, f_wi := ri.1, f_wq := rq.1 }
  else
    let ri := if cfg.bw_mode then (st.f_i, (0 : ℚ)) else st.f_i.feed (st.cbuf (l * 910 + h)).i
    let cbuf := upd st.cbuf (l * 910 + h - 8) { st.cbuf (l * 910 + h - 8) with i := ri.2 }
    let rq := if cfg.bw_mode then (st.f_q, (0 : ℚ)) else st.f_q.feed (cbuf (l * 910 + h)).q
    let cbuf := upd cbuf (l * 910 + h - 8) { cbuf (l * 910 + h - 8) with q := rq.2 }
    { st with cbuf := cbuf, f_i := ri.1, f_q := rq.1 }

/-- The body of the main loop of `Comb::Split` for line `l` (24..504): the
demodulation loop over the columns 4..839, then the chroma low-pass loop. -/
def splitLine (cfg : Settings) (s : Comb) (dim : Int) (f : Nat) (st : SplitState) (l : Nat) :
    SplitState :=
  let d := (List.range' 4 836).foldl (demodStep s dim f l)
    { si := 0, sq := 0, cbuf := st.cbuf, K3D := st.K3D }
  let st := { st with cbuf := d.cbuf, K3D := d.K3D }
  (List.range' 4 836).foldl (chromaStep cfg l) st

/-- Method `Comb::Split`. -/
def Split (cfg : Settings) (s : Comb) (dim : Int) : Comb :=
  let f := if dim < 3 then 0 else 1
  let cbuf := (List.range' 0 24).foldl
    (fun cb l => (List.range' 4 836).foldl
      (fun cb h => upd cb (l * 910 + h) { y := (s.rawbuffer f ((l * 844) + h) : ℚ), i := 0, q := 0 })
      cb) s.cbuf
  let st := (List.range' 24 481).foldl (splitLine cfg s dim f)
    { cbuf := cbuf, K3D := s.K3D, f_i := s.f_i, f_q := s.f_q, f_wi := s.f_wi, f_wq := s.f_wq }
  { s with cbuf := st.cbuf, K3D := st.K3D, f_i := st.f_i, f_q := st.f_q, f_wi := st.f_wi,
           f_wq := st.f_wq }

end Comb

namespace Comb

/-- The body of the line loop of `Comb::DoCNR` for line `l`: the high-pass of the
chroma of the columns 70..821 into the local `hpline` (its elements start as
`YIQ()`), then the correction of the columns 70..813. -/
def cnrLine (cfg : Settings) (st : (Nat → YIQ) × Deemp.Filter × Deemp.Filter) (l : Nat) :
    (Nat → YIQ) × Deemp.Filter × Deemp.Filter :=
  let hp := (List.range' 70 752).foldl
    (fun (acc : (Nat → YIQ) × Deemp.Filter × Deemp.Filter) h =>
      let y := st.1 (l * 910 + h)
      let ri := acc.2.1.feed y.i
      let rq := acc.2.2.feed y.q
      (upd acc.1 h { acc.1 h with i := ri.2, q := rq.2 }, ri.1, rq.1))
    ((fun _ => { y := 0, i := 0, q := 0 }), st.2.1, st.2.2)
  let cbuf := (List.range' 70 744).foldl
    (fun (cb : Nat → YIQ) h =>
      let a := hp.1 (h + 8)
      let cb :=
        if |a.i| < cfg.nr_c then
          let hpm := a.i / cfg.nr_c
          let ai := a.i * (1 - |hpm * hpm * hpm|)
          upd cb (l * 910 + h) { cb (l * 910 + h) with i := (cb (l * 910 + h)).i - ai }
        else cb
      if |a.q| < cfg.nr_c then
        let hpm := a.q / cfg.nr_c
        let aq := a.q * (1 - |hpm * hpm * hpm|)
        upd cb (l * 910 + h) { cb (l * 910 + h) with q := (cb (l * 910 + h)).q - aq }
      else cb)
    st.1
  (cbuf, hp.2.1, hp.2.2)

/-- Method `Comb::DoCNR`. -/
def DoCNR (cfg : Settings) (s : Comb) : Comb :=
  if cfg.nr_c < 0 then s
  else
    let r := (List.range' 24 481).foldl (cnrLine cfg) (s.cbuf, s.f_hpi, s.f_hpq)
    { s with cbuf := r.1, f_hpi := r.2.1, f_hpq := r.2.2 }

/-- The body of the line loop of `Comb::DoYNR` for line `l`. -/
def ynrLine (cfg : Settings) (st : (Nat → YIQ) × Deemp.Filter) (l : Nat) :
    (Nat → YIQ) × Deemp.Filter :=
  let hp := (List.range' 70 752).foldl
    (fun (acc : (Nat → YIQ) × Deemp.Filter) h =>
      let r := acc.2.feed (st.1 (l * 910 + h)).y
      (upd acc.1 h { acc.1 h with y := r.2 }, r.1))
    ((fun _ => { y := 0, i := 0, q := 0 }), st.2)
  let cbuf := (List.range' 70 744).foldl
    (fun (cb : Nat → YIQ) h =>
      let a := hp.1 (h + 8)
      if |a.y| < cfg.nr_y then
        let hpm := a.y / cfg.nr_y
        let ay := a.y * (1 - |hpm * hpm * hpm|)
        upd cb (l * 910 + h) { cb (l * 910 + h) with y := (cb (l * 910 + h)).y - ay }
      else cb)
    st.1
  (cbuf, hp.2)

/-- Method `Comb::DoYNR`. -/
def DoYNR (cfg : Settings) (s : Comb) : Comb :=
  let firstline := if cfg.linesout = 505 then 0 else 24
  if cfg.nr_y < 0 then s
  else
    let r := (List.range' firstline (505 - firstline)).foldl (ynrLine cfg) (s.cbuf, s.f_hpy)
    { s with cbuf := r.1, f_hpy := r.2 }

/-- Method `Comb::WriteFrame`: `(744 * linesout * 3) * 2` bytes, that is
`744 * linesout * 3` samples, are written from the start of `obuf`; with
`f_oneframe` the program then ends. -/
def WriteFrame (cfg : Settings) (s : Comb) (obuf : Nat → Nat) (fnum : Int) : Comb :=
  let s := { s with written := s.written ++
    [{ fnum := fnum, data := obuf, samples := 744 * cfg.linesout * 3, ownFile := cfg.image_mode }] }
  if cfg.f_oneframe then { s with exited := true } else s

/-- Method `Comb::ReadPhillipsCode` on the line that starts at `line`. -/
def ReadPhillipsCode (line : Nat → Nat) : Nat :=
  let bitlen : ℚ := 2 * dots_usec
  let first_bit : Int := (List.range' 70 70).foldl
    (fun (fb : Int) (i : Nat) =>
      if fb = -1 ∧ u16_to_ire (line i) > 90 then truncInt ((i : ℚ) - (1 * dots_usec)) else fb)
    (-1)
  if first_bit < 0 then 0
  else
    (List.range 24).foldl
      (fun (out : Nat) (i : Nat) =>
        let lo := truncInt ((first_bit : ℚ) + (bitlen * (i : ℚ)) + dots_usec)
        let hi := truncInt ((first_bit : ℚ) + (bitlen * ((i : ℚ) + 1)))
        let val := (List.range' lo.toNat (hi - lo).toNat).foldl
          (fun (val : ℚ) h => val + u16_to_ire (line h)) 0
        if (val / dots_usec) > 50 then out ||| (1 <<< (23 - i)) else out)
      0

/-- The loops `for (i = start; i < linesout; i += 2) memcpy(&obuf[744 * 3 * i],
&output[744 * 3 * i], 744 * 3 * 2)` of `Comb::PostProcess`: the rows `start`,
`start + 2`, .. below `linesout` of `output` are copied into `obuf`. -/
def copyRows (linesout start : Nat) (obuf output : Nat → Nat) : Nat → Nat :=
  (List.range' start ((linesout + 1 - start) / 2) 2).foldl
    (fun (ob : Nat → Nat) i =>
      fun j => if 744 * 3 * i ≤ j ∧ j < 744 * 3 * i + 744 * 3 then output j else ob j)
    obuf

/-- The white-flag loop of `Comb::PostProcess` over the lines 4 and 5. -/
def whiteFlag (s : Comb) (fnum : Nat) (fstart : Int) : Int :=
  (List.range' 4 2).foldl
    (fun (fstart : Int) line =>
      let wc := (List.range 700).foldl
        (fun (wc : Nat) i => if s.rawbuffer fnum ((844 * line) + i) > 45000 then wc + 1 else wc) 0
      if wc > 500 then ((line % 2 : Nat) : Int) else fstart)
    fstart

/-- The body of the Philips-code loop of `Comb::PostProcess` for one VBI line; the
pair is `(framecode, fstart)`. -/
def philipsStep (s : Comb) (fnum : Nat) (st : Int × Int) (line : Nat) : Int × Int :=
  let new_framecode : Nat := ReadPhillipsCode (fun x => s.rawbuffer fnum (line * 844 + x))
  if (new_framecode &&& 0xf00000) = 0xf00000 ∧ new_framecode < 0xff0000 then
    let framecode : Nat := new_framecode &&& 0x0f
    let framecode := framecode + ((new_framecode &&& 0x000f0) >>> 4) * 10
    let framecode := framecode + ((new_framecode &&& 0x00f00) >>> 8) * 100
    let framecode := framecode + ((new_framecode &&& 0x0f000) >>> 12) * 1000
    let framecode := framecode + ((new_framecode &&& 0xf0000) >>> 16) * 10000
    let framecode : Int := if framecode > 80000 then (framecode : Int) - 80000 else framecode
    (framecode, ((line % 2 : Nat) : Int))
  else st

/-- Method `Comb::PostProcess`. After a `WriteFrame` that ended the program nothing
more is done. -/
def PostProcess (cfg : Settings) (s : Comb) (fnum : Nat) : Comb :=
  let fstart : Int := -1
  let sf : Comb × Int :=
    if !cfg.pulldown_mode then (s, 0)
    else if s.f_oddframe then
      let s := { s with obuf := copyRows cfg.linesout 0 s.obuf s.output }
      let s := WriteFrame cfg s s.obuf s.framecode
      (if s.exited then s else { s with f_oddframe := false }, fstart)
    else (s, fstart)
  let s := sf.1
  let fstart := sf.2
  if s.exited then s
  else
    let fstart := whiteFlag s fnum fstart
    let cf := (List.range' 16 4).foldl (philipsStep s fnum) (s.framecode, fstart)
    let s := { s with framecode := cf.1 }
    let fstart := cf.2
    if !cfg.pulldown_mode ∨ fstart = 0 then WriteFrame cfg s s.output s.framecode
    else if fstart = 1 then
      { s with obuf := copyRows cfg.linesout 1 s.obuf s.output, f_oddframe := true }
    else s

/-- The loop of `Comb::Process` that removes the colour data from the baseband
(source lines 523..545). -/
def removeColor (s : Comb) (f firstline : Nat) : Comb :=
  let cbuf := (List.range' firstline (505 - firstline)).foldl
    (fun (cb : Nat → YIQ) l =>
      let invertphase := s.rawbuffer f (l * 844) == 16384
      (List.range 760).foldl
        (fun (cb : Nat → YIQ) h =>
          let phase := h % 4
          let y := cb (l * 910 + (h + 70))
          let comp : ℚ :=
            if phase = 0 then y.i else if phase = 1 then -y.q
            else if phase = 2 then -y.i else y.q
          let comp := if invertphase then -comp else comp
          upd cb (l * 910 + (h + 70)) { y with y := y.y + comp })
        cb)
    s.cbuf
  { s with cbuf := cbuf }

/-- The loop of `Comb::Process` that converts to RGB (source lines 550..604); the
two blocks under `if (0 ...)` are left out. -/
def convertRGB (cfg : Settings) (s : Comb) (firstline : Nat) : Comb :=
  let output := (List.range' firstline (505 - firstline)).foldl
    (fun (out : Nat → Nat) l =>
      let line_output := 744 * 3 * (l - firstline)
      (List.range 752).foldl
        (fun (out : Nat → Nat) h =>
          let yiq := s.cbuf (l * 910 + (h + 74))
          let r := RGB.conv cfg yiq
          let out := upd out (line_output + (3 * h)) (toU16 r.r)
          let out := upd out (line_output + (3 * h + 1)) (toU16 r.g)
          upd out (line_output + (3 * h + 2)) (toU16 r.b))
        out)
    s.output
  { s with output := output }

/-- The six `memcpy` calls that open `Comb::Process`: the raw frames and the
low-passed frames move one slot up, `buffer` becomes raw frame 0, and `cbuf` is
saved in `prevbuf`. -/
def rotate (s : Comb) (buffer : Nat → Nat) : Comb :=
  let s := { s with rawbuffer := upd s.rawbuffer 2 (s.rawbuffer 1) }
  let s := { s with rawbuffer := upd s.rawbuffer 1 (s.rawbuffer 0) }
  let s := { s with rawbuffer := upd s.rawbuffer 0 buffer }
  let s := { s with LPraw := upd s.LPraw 2 (s.LPraw 1) }
  let s := { s with LPraw := upd s.LPraw 1 (s.LPraw 0) }
  { s with prevbuf := s.cbuf }

/-- The part of `Comb::Process` after the warm-up test: `Split`, the two noise
reductions around the removal of the colour data, the RGB conversion, `PostProcess`
and `framecount++` (not reached once the program has ended). -/
def emit (cfg : Settings) (s : Comb) (dim : Int) : Comb :=
  let firstline := if cfg.linesout = 505 then 1 else 26
  let f := if dim = 3 then 1 else 0
  let s := Split cfg s dim
  let s := DoCNR cfg s
  let s := removeColor s f firstline
  let s := DoYNR cfg s
  let s := convertRGB cfg s firstline
  let s := PostProcess cfg s f
  if s.exited then s else { s with framecount := s.framecount + 1 }

/-- Method `Comb::Process`. -/
def Process (cfg : Settings) (s : Comb) (buffer : Nat → Nat) (dim : Int) : Comb :=
  let s := rotate s buffer
  let s := LPFrame s 0
  if dim = 3 ∧ s.framecount < 2 then { s with framecount := s.framecount + 1 }
  else emit cfg s dim

/-- A run of `Process` calls, oldest first, each with its buffer and its `dim`. -/
def processAll (cfg : Settings) (s : Comb) (calls : List ((Nat → Nat) × Int)) : Comb :=
  calls.foldl (fun s c => Process cfg s c.1 c.2) s

end Comb

namespace Comb

/-- A filter without history that returns its input. -/
def passFilter : Deemp.Filter := { hist := [], step := fun hist val => (hist, val) }

/-- A freshly constructed `Comb` whose filters are all `passFilter`. -/
def freshComb : Comb := new passFilter passFilter passFilter passFilter passFilter

/-- A frame that is 0 everywhere except around line 100, column 100: the sample two
columns to the right is 4, the samples two lines above and two lines below are 10. -/
def spotFrame : Nat → Nat :=
  fun i =>
    if i = 100 * 844 + 102 then 4
    else if i = 98 * 844 + 100 ∨ i = 102 * 844 + 100 then 10
    else 0

/-- A `Comb` whose three raw frames are `spotFrame`, with a low-passed current frame
that is 0 except for 4000 one line above (line 99, column 100), and a low-passed
newest frame that is `7.96 * irescale` at line 100, column 100 and 0 elsewhere. -/
def spotComb : Comb :=
  { freshComb with
    rawbuffer := fun _ => spotFrame
    LPraw := fun k i =>
      if k = 0 ∧ i = 100 * 844 + 100 then 796 / 100 * irescale
      else if k = 1 ∧ i = 99 * 844 + 100 then 4000
      else 0 }

/-- A frame that is 0 everywhere. -/
def blankFrame : Nat → Nat := fun _ => 0

/-- The default settings with pulldown mode switched on (option `-p`). -/
def pulldownSettings : Settings := { defaultSettings with pulldown_mode := true }

end Comb

namespace Comb

/-- The three (c, d, v) triples held in the arrays `c`, `d`, `v`, index 0 first. -/
def CDV.triples (w : CDV) : List (ℚ × ℚ × ℚ) :=
  [(w.c0, w.d0, w.v0), (w.c1, w.d1, w.v1), (w.c2, w.d2, w.v2)]

/-- The first inner loop of `Comb::Split` on line `l` after its first `n` columns
(4, 5, .., 4 + n - 1), started as `splitLine` starts it: `si = 0`, `sq = 0`. With
`n = 836` it is the whole loop, and its `cbuf` holds what is stored before the chroma
low-pass. -/
def demodLoop (s : Comb) (dim : Int) (f l : Nat) (st : SplitState) (n : Nat) : DemodState :=
  (List.range' 4 n).foldl (demodStep s dim f l)
    { si := 0, sq := 0, cbuf := st.cbuf, K3D := st.K3D }

/-- The line-to-line variables of `Comb::Split` as they are when its main loop starts
on a `Comb` (the loop over the lines 0..23 left aside). -/
def splitStart (s : Comb) : SplitState :=
  { cbuf := s.cbuf, K3D := s.K3D, f_i := s.f_i, f_q := s.f_q, f_wi := s.f_wi, f_wq := s.f_wq }

/-- A `Comb` whose three raw frames are constant mid-gray, 32768. -/
def grayComb : Comb := { freshComb with rawbuffer := fun _ _ => 32768 }

/-- As `spotComb`, with the sentinel 16384 in column 0 of line 100 of raw frame 0. -/
def markedComb : Comb :=
  { spotComb with
    rawbuffer := fun k i => if k = 0 ∧ i = 100 * 844 then 16384 else spotFrame i }

/-- A VBI line that carries the 24-bit `code`, most significant bit first: the
samples of the stretch `ReadPhillipsCode` sums for a bit are 52428 (just under 100
IRE) when the bit is set and 0 otherwise; the stretches are those of a first bit
found at column 70. -/
def philipsLine (code : Nat) : Nat → Nat :=
  fun h =>
    if (List.range 24).any (fun i =>
        code.testBit (23 - i) &&
        decide (truncInt (55 + (2 * dots_usec * (i : ℚ)) + dots_usec) ≤ (h : Int)) &&
        decide ((h : Int) < truncInt (55 + (2 * dots_usec * ((i : ℚ) + 1)))))
    then 52428 else 0

/-- A fresh `Comb` whose raw frames all carry `philipsLine code` on line 16 and are
0 elsewhere. -/
def philipsComb (code : Nat) : Comb :=
  { freshComb with
    rawbuffer := fun _ i =>
      if 16 * 844 ≤ i ∧ i < 17 * 844 then philipsLine code (i - 16 * 844) else 0 }

/-- The opening of `Comb::PostProcess`, up to the white-flag loop: the state it leaves
and the value of `fstart`. -/
def flushOdd (cfg : Settings) (s : Comb) : Comb × Int :=
  if !cfg.pulldown_mode then (s, 0)
  else if s.f_oddframe then
    let s := { s with obuf := copyRows cfg.linesout 0 s.obuf s.output }
    let s := WriteFrame cfg s s.obuf s.framecode
    (if s.exited then s else { s with f_oddframe := false }, -1)
  else (s, -1)

/-- The rest of `Comb::PostProcess`, from the white-flag loop on, entered with the
given `fstart`. -/
def scanWrite (cfg : Settings) (s : Comb) (fstart : Int) (fnum : Nat) : Comb :=
  let fstart := whiteFlag s fnum fstart
  let cf := (List.range' 16 4).foldl (philipsStep s fnum) (s.framecode, fstart)
  let s := { s with framecode := cf.1 }
  let fstart := cf.2
  if !cfg.pulldown_mode ∨ fstart = 0 then WriteFrame cfg s s.output s.framecode
  else if fstart = 1 then
    { s with obuf := copyRows cfg.linesout 1 s.obuf s.output, f_oddframe := true }
  else s

end Comb

namespace Comb

/-- The column `h - 5` (wide filter) or `h - 8` (narrow filter) at which the second
inner loop of `Comb::Split` indexes `cbuf[l].p` for its write at column `h`, as the
`int` it is in the source. -/
def chromaCol (cfg : Settings) (h : Nat) : Int :=
  if cfg.cwide_mode then (h : Int) - 5 else (h : Int) - 8

/-- A `Comb` whose `cbuf` is 0 but for line 24, column 4, where `i = 7` and `q = 9`. -/
def edgeComb : Comb :=
  { freshComb with
    cbuf := fun j =>
      if j = 24 * 910 + 4 then { y := 0, i := 7, q := 9 } else { y := 0, i := 0, q := 0 } }

/-- The settings of a run with the wide chroma filter (option `-w`). -/
def wideSettings : Settings := { defaultSettings with cwide_mode := true }

/-- The body of the line loop of the RGB conversion in `Comb::Process` for line `l`:
752 pixels of three samples each, written from `line_output = 744 * 3 * (l -
firstline)` on. -/
def convertRow (cfg : Settings) (s : Comb) (firstline : Nat) (out : Nat → Nat) (l : Nat) :
    Nat → Nat :=
  let line_output := 744 * 3 * (l - firstline)
  (List.range 752).foldl
    (fun (out : Nat → Nat) h =>
      let yiq := s.cbuf (l * 910 + (h + 74))
      let r := RGB.conv cfg yiq
      let out := upd out (line_output + (3 * h)) (toU16 r.r)
      let out := upd out (line_output + (3 * h + 1)) (toU16 r.g)
      upd out (line_output + (3 * h + 2)) (toU16 r.b))
    out

/-- The array `output` after the RGB conversion of the first `n` lines, `firstline`,
.., `firstline + n - 1`. -/
def convertRows (cfg : Settings) (s : Comb) (firstline n : Nat) : Nat → Nat :=
  (List.range' firstline n).foldl (convertRow cfg s firstline) s.output

/-- The sample the RGB conversion computes for pixel `h` (0..751) of line `l`:
channel `c` is 0 for red, 1 for green, 2 for blue. -/
def rgbAt (cfg : Settings) (s : Comb) (l h c : Nat) : Nat :=
  let r := RGB.conv cfg (s.cbuf (l * 910 + (h + 74)))
  if c = 0 then toU16 r.r else if c = 1 then toU16 r.g else toU16 r.b

/-- The local `firstline` of `Comb::Process`. -/
def firstlineOf (cfg : Settings) : Nat := if cfg.linesout = 505 then 1 else 26

/-- The state of `Comb::Process` when its RGB conversion loop starts, from the state
`s` that `LPFrame` leaves: `Split`, `DoCNR`, the removal of the colour data, `DoYNR`. -/
def beforeRGB (cfg : Settings) (s : Comb) (dim : Int) : Comb :=
  let firstline := if cfg.linesout = 505 then 1 else 26
  let f := if dim = 3 then 1 else 0
  DoYNR cfg (removeColor (DoCNR cfg (Split cfg s dim)) f firstline)

end Comb

namespace Comb

/-- The value of the local `fstart` of `Comb::PostProcess` when it reaches its write
test: -1 in pulldown mode and 0 otherwise, then the white-flag loop over the lines 4
and 5, then the Philips-code loop over the lines 16..19. -/
def fstartOf (cfg : Settings) (s : Comb) (fnum : Nat) : Int :=
  ((List.range' 16 4).foldl (philipsStep s fnum)
    (s.framecode, whiteFlag s fnum (if cfg.pulldown_mode then -1 else 0))).2

/-- A frame that is 0 but for a white flag on line `line`: its first 700 samples are
50000. -/
def flagFrame (line : Nat) : Nat → Nat :=
  fun i => if 844 * line ≤ i ∧ i < 844 * line + 700 then 50000 else 0

end Comb

namespace Comb

/-! ### `double` arithmetic

Where a property turns on the rounding of `double` operations (the round trip between
levels and IRE, the order of the additions that form `cavg`), the operations are
modelled as IEEE 754 binary64 prescribes: the exact result, rounded to the nearest
`double`. -/

/-- The integer nearest to `y`, the even one of the two when `y` lies half-way. -/
def roundEven (y : ℚ) : Int :=
  let f := ⌊y⌋
  let d := y - f
  if d < 1 / 2 then f else if d > 1 / 2 then f + 1 else if f % 2 = 0 then f else f + 1

/-- The number of bits of `n` (0 for 0), by halving at most `fuel` times. -/
def bitLen : Nat → Nat → Nat
  | 0, _ => 0
  | fuel + 1, n => if n = 0 then 0 else bitLen fuel (n / 2) + 1

/-- The binary exponent of `x ≠ 0`: the `e` with `2^e ≤ |x| < 2^(e+1)`, found from
the bit lengths of numerator and denominator. -/
def binExp (x : ℚ) : Int :=
  let e0 : Int := (bitLen x.num.natAbs x.num.natAbs : Int) - (bitLen x.den x.den : Int)
  if (2 : ℚ) ^ e0 ≤ |x| then e0 else e0 - 1

/-- The `double` nearest to the real `x` (IEEE 754 binary64, round to nearest, ties
to even): 53 significant bits. The exponent is not bounded, so overflow and
subnormal numbers are not modelled. -/
def roundDouble (x : ℚ) : ℚ :=
  if x = 0 then 0
  else
    let q : ℚ := (2 : ℚ) ^ (binExp x - 52)
    (roundEven (x / q) : ℚ) * q

/-- The global `irescale = 327.67` as the `double` it is. -/
def irescaleD : ℚ := roundDouble (32767 / 100)

namespace Dbl

/-- Function `u16_to_ire` in `double` arithmetic: the subtraction, the division and
the addition are each rounded. -/
def u16_to_ire (level : Nat) : ℚ :=
  if level = 0 then -100
  else roundDouble (-60 + roundDouble (roundDouble ((level : ℚ) - irebase) / irescaleD))

/-- Function `ire_to_u16` in `double` arithmetic: the two additions and the
multiplication are each rounded, the result of `clamp` is converted to `uint16_t`. -/
def ire_to_u16 (ire : ℚ) : Nat :=
  if ire ≤ -60 then 0
  else toU16 (clamp (roundDouble (roundDouble (roundDouble (ire + 60) * irescaleD) + irebase))
    1 65535)

/-- The local `vtot` of `Comb::Split` as first assigned (source line 276), in `double`
arithmetic. -/
def vtotOf (w : CDV) : ℚ := roundDouble (roundDouble (w.v0 + w.v1) + w.v2)

/-- The fallback `if (vtot <= .01)` and the three divisions `v[k] /= vtot` of
`Comb::Split` (source lines 302..313) in `double` arithmetic; `.01` is the `double`
nearest to 1/100. -/
def normalize (w : CDV) (vtot : ℚ) : CDV :=
  let wv : CDV × ℚ :=
    if vtot ≤ roundDouble (1 / 100) then ({ w with v1 := 1, v2 := 1 }, 2) else (w, vtot)
  { wv.1 with
    v0 := roundDouble (wv.1.v0 / wv.2)
    v1 := roundDouble (wv.1.v1 / wv.2)
    v2 := roundDouble (wv.1.v2 / wv.2) }

/-- The three products `c[k] * v[k]` that `Comb::Split` adds up, index 0 first. -/
def products (w : CDV) : List ℚ :=
  [roundDouble (w.c0 * w.v0), roundDouble (w.c1 * w.v1), roundDouble (w.c2 * w.v2)]

/-- The local `cavg` of `Comb::Split` from its first assignment to the sign flip
(source lines 315..330) in `double` arithmetic: `cavg = c[0] * v[0]`, the two
`cavg += c[k] * v[k]` in index order, `cavg /= 2`, each operation rounded. -/
def cavgOf (w : CDV) (invertphase : Bool) : ℚ :=
  let cavg := roundDouble (w.c0 * w.v0)
  let cavg := roundDouble (cavg + roundDouble (w.c1 * w.v1))
  let cavg := roundDouble (cavg + roundDouble (w.c2 * w.v2))
  let cavg := roundDouble (cavg / 2)
  if !invertphase then -cavg else cavg

end Dbl

/-- Candidates -4, 1, 1 with the confidences 0.6, 0.1, 0.3 (as `double`s), which the
gating rules leave as they are: `v[1] + v[2] < .5` and `(1 - v[2]) / (v[0] + v[1])`
is 1. -/
def lastBitCDV : CDV :=
  { c0 := -4, c1 := 1, c2 := 1, d0 := 0, d1 := 0, d2 := 0
    v0 := roundDouble (6 / 10), v1 := roundDouble (1 / 10), v2 := roundDouble (3 / 10) }

end Comb

/-! ## Loops that write a buffer index by index -/

theorem foldl_set_length {α : Type} (f : Nat → α) (l : List Nat) (a : List α) :
    (l.foldl (fun a i => a.set i (f i)) a).length = a.length := by
  induction l generalizing a with
  | nil => rfl
  | cons i l ih => simp [List.foldl_cons, ih]

theorem foldl_set_range_getElem? {α : Type} (f : Nat → α) (n : Nat) (a : List α) (j : Nat) :
    ((List.range n).foldl (fun a i => a.set i (f i)) a)[j]? =
      if j < n ∧ j < a.length then some (f j) else a[j]? := by
  induction n with
  | zero => simp
  | succ n ih =>
    rw [List.range_succ, List.foldl_append]
    simp only [List.foldl_cons, List.foldl_nil]
    rw [List.getElem?_set]
    by_cases hj : n = j
    · subst hj
      simp only [foldl_set_length, lt_add_one, true_and]
      by_cases h : n < a.length
      · simp [h]
      · simp [h, List.getElem?_eq_none (Nat.le_of_not_lt h)]
    · simp only [hj, if_false, ih]
      have : (j < n + 1) ↔ j < n := by omega
      simp [this]

theorem foldl_set2_length {α : Type} (f g : Nat → α) (l : List Nat) (a : List α) :
    (l.foldl (fun a k => (a.set (2 * k) (f (2 * k))).set (2 * k + 1) (g (2 * k + 1))) a).length
      = a.length := by
  induction l generalizing a with
  | nil => rfl
  | cons i l ih => simp [List.foldl_cons, ih]

theorem foldl_set2_range_getElem? {α : Type} (f g : Nat → α) (n : Nat) (a : List α) (j : Nat) :
    ((List.range n).foldl
        (fun a k => (a.set (2 * k) (f (2 * k))).set (2 * k + 1) (g (2 * k + 1))) a)[j]? =
      if j < 2 * n ∧ j < a.length then some (if j % 2 = 0 then f j else g j) else a[j]? := by
  induction n with
  | zero => simp
  | succ n ih =>
    rw [List.range_succ, List.foldl_append]
    simp only [List.foldl_cons, List.foldl_nil]
    rw [List.getElem?_set, List.getElem?_set]
    simp only [List.length_set, foldl_set2_length, ih]
    by_cases h1 : 2 * n + 1 = j
    · subst h1
      have e1 : (2 * n + 1) % 2 = 1 := by omega
      have e2 : 2 * n + 1 < 2 * (n + 1) := by omega
      by_cases h : 2 * n + 1 < a.length
      · simp [h, e1, e2]
      · simp [h, List.getElem?_eq_none (Nat.le_of_not_lt h)]
    · by_cases h0 : 2 * n = j
      · subst h0
        have e0 : (2 * n) % 2 = 0 := by omega
        have e2 : 2 * n < 2 * (n + 1) := by omega
        by_cases h : 2 * n < a.length
        · simp [h, e0, e2]
        · simp [h, List.getElem?_eq_none (Nat.le_of_not_lt h)]
      · have : (j < 2 * (n + 1)) ↔ j < 2 * n := by omega
        simp [h1, h0, this]

theorem foldl_push_filter (p : Nat → Prop) [DecidablePred p] (n : Nat) (init : List Nat) :
    (List.range n).foldl (fun er i => if p i then er ++ [i] else er) init =
      init ++ (List.range n).filter (fun i => decide (p i)) := by
  induction n with
  | zero => simp
  | succ n ih =>
    rw [List.range_succ, List.foldl_append, ih, List.filter_append]
    by_cases h : p n <;> simp [h]

/-- A buffer of known length whose entries are all read back by index is itself. -/
theorem map_getD_range_eq {α : Type} (d : α) (a : List α) (n : Nat) (h : a.length = n) :
    (List.range n).map (fun i => a.getD i d) = a := by
  apply List.ext_getElem?
  intro j
  by_cases hj : j < n
  · simp [List.getElem?_map, List.getElem?_range hj, List.getD_eq_getElem?_getD,
      List.getElem?_eq_getElem (h ▸ hj)]
  · have h1 : n ≤ j := Nat.le_of_not_lt hj
    rw [List.getElem?_eq_none (by simpa using h1), List.getElem?_eq_none (by omega)]

namespace C1Circ

/-! ## The loops of `C1Circ`, field by field -/

theorem interleaveLoop_fields (l : List Nat) (s : C1Circ) :
    ∀ r, r = l.foldl (fun s k => interleaveStep s (2 * k)) s →
    r.currentF3Data = s.currentF3Data ∧ r.previousF3Data = s.previousF3Data ∧
    r.currentF3Errors = s.currentF3Errors ∧ r.previousF3Errors = s.previousF3Errors ∧
    r.outputC1Data = s.outputC1Data ∧ r.outputC1Errors = s.outputC1Errors ∧
    r.c1BufferLevel = s.c1BufferLevel ∧ r.statistics = s.statistics ∧
    r.interleavedC1Data =
      l.foldl (fun a k => (a.set (2 * k) (s.currentF3Data.getD (2 * k) 0)).set (2 * k + 1)
        (s.previousF3Data.getD (2 * k + 1) 0)) s.interleavedC1Data ∧
    r.interleavedC1Errors =
      l.foldl (fun a k => (a.set (2 * k) (s.currentF3Errors.getD (2 * k) 0)).set (2 * k + 1)
        (s.previousF3Errors.getD (2 * k + 1) 0)) s.interleavedC1Errors := by
  induction l generalizing s with
  | nil => intro r hr; subst hr; simp
  | cons i l ih =>
    intro r hr
    obtain ⟨h1, h2, h3, h4, h5, h6, h7, h8, h9, h10⟩ := ih (interleaveStep s (2 * i)) r hr
    refine ⟨h1, h2, h3, h4, h5, h6, h7, h8, ?_, ?_⟩
    · rw [h9]; rfl
    · rw [h10]; rfl

theorem copyLoop_fields (fixed : Int) (data : List Byte) (l : List Nat) (s : C1Circ) :
    ∀ r, r = l.foldl (copyStep fixed data) s →
    r.currentF3Data = s.currentF3Data ∧ r.previousF3Data = s.previousF3Data ∧
    r.currentF3Errors = s.currentF3Errors ∧ r.previousF3Errors = s.previousF3Errors ∧
    r.interleavedC1Data = s.interleavedC1Data ∧ r.interleavedC1Errors = s.interleavedC1Errors ∧
    r.c1BufferLevel = s.c1BufferLevel ∧ r.statistics = s.statistics ∧
    r.outputC1Data = l.foldl (fun a i => a.set i (data.getD i 0)) s.outputC1Data ∧
    r.outputC1Errors =
      l.foldl (fun a i => a.set i ((fun _ => if fixed < 0 then (1 : Byte) else 0) i))
        s.outputC1Errors := by
  induction l generalizing s with
  | nil => intro r hr; subst hr; simp
  | cons i l ih =>
    intro r hr
    obtain ⟨h1, h2, h3, h4, h5, h6, h7, h8, h9, h10⟩ := ih (copyStep fixed data s i) r hr
    refine ⟨h1, h2, h3, h4, h5, h6, h7, h8, ?_, ?_⟩
    · rw [h9]; rfl
    · rw [h10]; rfl

theorem gatherLoop_fields (s : C1Circ) (l : List Nat) (acc : List Byte × List Nat) :
    ∀ r, r = l.foldl (gatherStep s) acc →
    r.1 = l.foldl (fun a i => a.set i (s.interleavedC1Data.getD i 0)) acc.1 ∧
    r.2 = l.foldl (fun er i => if s.interleavedC1Errors.getD i 0 = 1 then er ++ [i] else er)
            acc.2 := by
  induction l generalizing acc with
  | nil => intro r hr; subst hr; simp
  | cons i l ih =>
    intro r hr
    exact ih (gatherStep s acc i) r hr

/-- The block handed to the coder is the interleaved buffer itself. -/
theorem rsInput_data (s : C1Circ) (h : s.interleavedC1Data.length = 32) :
    (rsInput s).1 = s.interleavedC1Data := by
  have hg := (gatherLoop_fields s (List.range 32) (List.replicate 32 0, []) _ rfl).1
  simp only [rsInput]
  rw [hg]
  apply List.ext_getElem?
  intro j
  rw [foldl_set_range_getElem?]
  by_cases hj : j < 32
  · simp [hj, List.getD_eq_getElem?_getD, List.getElem?_eq_getElem (h ▸ hj)]
  · simp only [hj, false_and, if_false]
    rw [List.getElem?_eq_none (by simpa using Nat.le_of_not_lt hj),
      List.getElem?_eq_none (by omega)]

/-- The erasure indices gathered by the first loop of `errorCorrect`. -/
theorem rsInput_erasures (s : C1Circ) :
    (rsInput s).2 =
      if ((List.range 32).filter (fun j => decide (s.interleavedC1Errors.getD j 0 = 1))).length > 4
      then [] else (List.range 32).filter (fun j => decide (s.interleavedC1Errors.getD j 0 = 1)) := by
  have hg := (gatherLoop_fields s (List.range 32) (List.replicate 32 0, []) _ rfl).2
  simp only [rsInput]
  rw [hg, foldl_push_filter (fun i => s.interleavedC1Errors.getD i 0 = 1)]
  simp

theorem errorCorrect_level (rs : RSDecode) (s : C1Circ) :
    (errorCorrect rs s).c1BufferLevel = s.c1BufferLevel := by
  simp only [errorCorrect]
  exact (copyLoop_fields _ _ _ s _ rfl).2.2.2.2.2.2.1

theorem errorCorrect_statistics (rs : RSDecode) (s : C1Circ) :
    (errorCorrect rs s).statistics =
      updateStatistics (rs (rsInput s).1 (rsInput s).2).1 s.statistics := by
  simp only [errorCorrect]
  rw [(copyLoop_fields _ _ _ s _ rfl).2.2.2.2.2.2.2.1]

theorem errorCorrect_outputC1Errors (rs : RSDecode) (s : C1Circ)
    (h : s.outputC1Errors.length = 28) :
    (errorCorrect rs s).outputC1Errors =
      List.replicate 28 (if (rs (rsInput s).1 (rsInput s).2).1 < 0 then 1 else 0) := by
  simp only [errorCorrect]
  rw [(copyLoop_fields _ _ _ s _ rfl).2.2.2.2.2.2.2.2.2]
  apply List.ext_getElem?
  intro j
  rw [foldl_set_range_getElem?]
  by_cases hj : j < 28
  · rw [if_pos ⟨hj, by omega⟩, List.getElem?_replicate, if_pos hj]
  · simp only [hj, false_and, if_false]
    rw [List.getElem?_eq_none (by omega), List.getElem?_eq_none (by simpa using Nat.le_of_not_lt hj)]

theorem errorCorrect_outputC1Data (rs : RSDecode) (s : C1Circ)
    (h : s.outputC1Data.length = 28) :
    (errorCorrect rs s).outputC1Data =
      (List.range 28).map (fun i => (rs (rsInput s).1 (rsInput s).2).2.getD i 0) := by
  simp only [errorCorrect]
  rw [(copyLoop_fields _ _ _ s _ rfl).2.2.2.2.2.2.2.2.1]
  apply List.ext_getElem?
  intro j
  rw [foldl_set_range_getElem?]
  by_cases hj : j < 28
  · simp [hj, h, List.getElem?_map, List.getElem?_range hj]
  · simp only [hj, false_and, if_false]
    rw [List.getElem?_eq_none (by omega), List.getElem?_eq_none (by simpa using Nat.le_of_not_lt hj)]

theorem errorCorrect_lengths (rs : RSDecode) (s : C1Circ) :
    (errorCorrect rs s).outputC1Data.length = s.outputC1Data.length ∧
    (errorCorrect rs s).outputC1Errors.length = s.outputC1Errors.length ∧
    (errorCorrect rs s).interleavedC1Data = s.interleavedC1Data ∧
    (errorCorrect rs s).interleavedC1Errors = s.interleavedC1Errors := by
  simp only [errorCorrect]
  have h := copyLoop_fields (rs (rsInput s).1 (rsInput s).2).1 (rs (rsInput s).1 (rsInput s).2).2
    (List.range 28) s _ rfl
  obtain ⟨-, -, -, -, h5, h6, -, -, h9, h10⟩ := h
  refine ⟨?_, ?_, h5, h6⟩
  · rw [h9, foldl_set_length]
  · rw [h10, foldl_set_length]

end C1Circ

/-! ## Parity inversion and interleave -/

set_option maxRecDepth 100000 in
theorem xorFF_xorFF (b : Byte) : xorFF (xorFF b) = b := by
  revert b
  decide

namespace C1Circ

theorem invertAt_length (a : List Byte) (i : Nat) : (invertAt a i).length = a.length := by
  simp [invertAt]

theorem invertAt_getD (a : List Byte) (i j : Nat) :
    (invertAt a i).getD j 0 = if i = j ∧ i < a.length then xorFF (a.getD i 0) else a.getD j 0 := by
  simp only [invertAt, List.getD_eq_getElem?_getD, List.getElem?_set]
  by_cases h : i = j
  · subst h
    by_cases h2 : i < a.length
    · simp [h2]
    · simp [h2, List.getElem?_eq_none (Nat.le_of_not_lt h2)]
  · simp [h]

theorem invertParity_length (a : List Byte) : (invertParity a).length = a.length := by
  simp [invertParity, invertAt_length]

theorem invertParity_getD (a : List Byte) (j : Nat) :
    (invertParity a).getD j 0 =
      if isParityIndex j = true ∧ j < a.length then xorFF (a.getD j 0) else a.getD j 0 := by
  by_cases hp : isParityIndex j = true
  · have hj : j = 12 ∨ j = 13 ∨ j = 14 ∨ j = 15 ∨ j = 28 ∨ j = 29 ∨ j = 30 ∨ j = 31 := by
      simp [isParityIndex] at hp; omega
    by_cases hl : j < a.length
    · rw [if_pos ⟨hp, hl⟩]
      rcases hj with h | h | h | h | h | h | h | h <;> subst h <;>
        simp only [invertParity, invertAt_getD, invertAt_length, hl, and_true, and_false,
          false_and, if_true, if_false, Nat.reduceEqDiff]
    · rw [if_neg (fun h => hl h.2)]
      have hn : a.length ≤ j := Nat.le_of_not_lt hl
      rw [List.getD_eq_default _ _ (by rw [invertParity_length]; exact hn),
        List.getD_eq_default _ _ hn]
  · rw [if_neg (fun h => hp h.1)]
    have hj : j ≠ 12 ∧ j ≠ 13 ∧ j ≠ 14 ∧ j ≠ 15 ∧ j ≠ 28 ∧ j ≠ 29 ∧ j ≠ 30 ∧ j ≠ 31 := by
      simp [isParityIndex] at hp; omega
    obtain ⟨h1, h2, h3, h4, h5, h6, h7, h8⟩ := hj
    simp only [invertParity, invertAt_getD, Ne.symm h1, Ne.symm h2, Ne.symm h3, Ne.symm h4,
      Ne.symm h5, Ne.symm h6, Ne.symm h7, Ne.symm h8, false_and, if_false]

/-- Two buffers of one length that read alike at every index are equal. -/
theorem ext_getD (a b : List Byte) (hl : a.length = b.length)
    (h : ∀ j, j < a.length → a.getD j 0 = b.getD j 0) : a = b := by
  apply List.ext_getElem hl
  intro j h1 h2
  have := h j h1
  simpa [List.getD_eq_getElem?_getD, List.getElem?_eq_getElem h1,
    List.getElem?_eq_getElem h2] using this

end C1Circ

namespace C1Circ

theorem interleave_fields (s : C1Circ) :
    (interleave s).currentF3Data = s.currentF3Data ∧
    (interleave s).previousF3Data = s.previousF3Data ∧
    (interleave s).currentF3Errors = s.currentF3Errors ∧
    (interleave s).previousF3Errors = s.previousF3Errors ∧
    (interleave s).outputC1Data = s.outputC1Data ∧
    (interleave s).outputC1Errors = s.outputC1Errors ∧
    (interleave s).c1BufferLevel = s.c1BufferLevel ∧
    (interleave s).statistics = s.statistics ∧
    (interleave s).interleavedC1Data.length = s.interleavedC1Data.length ∧
    (interleave s).interleavedC1Errors.length = s.interleavedC1Errors.length := by
  obtain ⟨h1, h2, h3, h4, h5, h6, h7, h8, h9, h10⟩ :=
    interleaveLoop_fields (List.range 16) s _ rfl
  simp only [interleave, invertParity_length]
  refine ⟨h1, h2, h3, h4, h5, h6, h7, h8, ?_, ?_⟩
  · rw [h9]
    exact foldl_set2_length (fun i => s.currentF3Data.getD i 0)
      (fun i => s.previousF3Data.getD i 0) _ _
  · rw [h10]
    exact foldl_set2_length (fun i => s.currentF3Errors.getD i 0)
      (fun i => s.previousF3Errors.getD i 0) _ _

/-- The interleaved error flags: the current frame at even, the previous frame at
odd indices. -/
theorem interleave_errors_getD (s : C1Circ) (h : s.interleavedC1Errors.length = 32) (j : Nat)
    (hj : j < 32) :
    (interleave s).interleavedC1Errors.getD j 0 =
      if j % 2 = 0 then s.currentF3Errors.getD j 0 else s.previousF3Errors.getD j 0 := by
  have h10 := (interleaveLoop_fields (List.range 16) s _ rfl).2.2.2.2.2.2.2.2.2
  simp only [interleave]
  rw [h10, List.getD_eq_getElem?_getD,
    foldl_set2_range_getElem? (fun i => s.currentF3Errors.getD i 0)
      (fun i => s.previousF3Errors.getD i 0), if_pos ⟨by omega, by omega⟩]
  rfl

/-- The interleaved data before the parity inversion. -/
theorem interleaveLoop_data_getD (s : C1Circ) (h : s.interleavedC1Data.length = 32) (j : Nat)
    (hj : j < 32) :
    ((List.range 16).foldl (fun s k => interleaveStep s (2 * k)) s).interleavedC1Data.getD j 0 =
      if j % 2 = 0 then s.currentF3Data.getD j 0 else s.previousF3Data.getD j 0 := by
  have h9 := (interleaveLoop_fields (List.range 16) s _ rfl).2.2.2.2.2.2.2.2.1
  rw [h9, List.getD_eq_getElem?_getD,
    foldl_set2_range_getElem? (fun i => s.currentF3Data.getD i 0)
      (fun i => s.previousF3Data.getD i 0), if_pos ⟨by omega, by omega⟩]
  rfl

/-- The interleaved data: the current frame at even, the previous frame at odd
indices, complemented at the parity indices and nowhere else. -/
theorem interleave_data_getD (s : C1Circ) (h : s.interleavedC1Data.length = 32) (j : Nat)
    (hj : j < 32) :
    (interleave s).interleavedC1Data.getD j 0 =
      if isParityIndex j = true then
        xorFF (if j % 2 = 0 then s.currentF3Data.getD j 0 else s.previousF3Data.getD j 0)
      else (if j % 2 = 0 then s.currentF3Data.getD j 0 else s.previousF3Data.getD j 0) := by
  have h9 := (interleaveLoop_fields (List.range 16) s _ rfl).2.2.2.2.2.2.2.2.1
  have hlen : ((List.range 16).foldl (fun s k => interleaveStep s (2 * k)) s).interleavedC1Data.length
      = 32 := by
    rw [h9, ← h]
    exact foldl_set2_length (fun i => s.currentF3Data.getD i 0)
      (fun i => s.previousF3Data.getD i 0) _ _
  simp only [interleave]
  rw [invertParity_getD, interleaveLoop_data_getD s h j hj, hlen]
  simp [hj]

theorem sized_flush (s : C1Circ) (h : Sized s) : Sized (flush s) := by
  obtain ⟨h1, h2, h3, h4⟩ := h
  simp [Sized, flush, fill0, h1, h2, h3, h4]

theorem sized_resetStatistics (s : C1Circ) (h : Sized s) : Sized (resetStatistics s) := h

theorem sized_new : Sized new := by
  simp [Sized, new, reset, resetStatistics, flush, fill0]

theorem sized_interleave (s : C1Circ) (h : Sized s) : Sized (interleave s) := by
  obtain ⟨h1, h2, h3, h4⟩ := h
  obtain ⟨-, -, -, -, e5, e6, -, -, e9, e10⟩ := interleave_fields s
  exact ⟨by rw [e9, h1], by rw [e10, h2], by rw [e5, h3], by rw [e6, h4]⟩

theorem sized_errorCorrect (rs : RSDecode) (s : C1Circ) (h : Sized s) :
    Sized (errorCorrect rs s) := by
  obtain ⟨h1, h2, h3, h4⟩ := h
  obtain ⟨e1, e2, e3, e4⟩ := errorCorrect_lengths rs s
  exact ⟨by rw [e3, h1], by rw [e4, h2], by rw [e1, h3], by rw [e2, h4]⟩

theorem sized_pushF3Frame (rs : RSDecode) (s : C1Circ) (f : F3Frame) (h : Sized s) :
    Sized (pushF3Frame rs s f) := by
  have hs : Sized (shiftIn s f) := h
  simp only [pushF3Frame]
  split
  · exact sized_errorCorrect rs _ (sized_interleave _ hs)
  · exact hs

theorem pushF3Frame_level (rs : RSDecode) (s : C1Circ) (f : F3Frame) :
    (pushF3Frame rs s f).c1BufferLevel =
      if s.c1BufferLevel + 1 > 1 then 2 else s.c1BufferLevel + 1 := by
  have hl : (shiftIn s f).c1BufferLevel = s.c1BufferLevel + 1 := rfl
  simp only [pushF3Frame, hl]
  split
  · rw [errorCorrect_level, (interleave_fields _).2.2.2.2.2.2.1]
  · exact hl

/-- Every decoder a program can hold has the constructor's buffer sizes and a level
of 0, 1 or 2. -/
theorem reachable_sized (rs : RSDecode) (s : C1Circ) (h : Reachable rs s) :
    Sized s ∧ 0 ≤ s.c1BufferLevel ∧ s.c1BufferLevel ≤ 2 := by
  induction h with
  | new => exact ⟨sized_new, by decide, by decide⟩
  | pushF3Frame s f _ ih =>
    refine ⟨sized_pushF3Frame rs s f ih.1, ?_, ?_⟩
    · rw [pushF3Frame_level]; split <;> omega
    · rw [pushF3Frame_level]; split <;> omega
  | flush s _ ih => exact ⟨sized_flush s ih.1, by simp [flush], by simp [flush]⟩
  | reset s _ ih =>
    exact ⟨sized_resetStatistics _ (sized_flush s ih.1), by simp [reset, resetStatistics, flush],
      by simp [reset, resetStatistics, flush]⟩
  | resetStatistics s _ ih => exact ⟨sized_resetStatistics s ih.1, ih.2.1, ih.2.2⟩

theorem updateStatistics_total (fixed : Int) (st : Statistics) :
    (updateStatistics fixed st).c1Passed + (updateStatistics fixed st).c1Corrected +
      (updateStatistics fixed st).c1Failed = st.c1Passed + st.c1Corrected + st.c1Failed + 1 ∧
    (updateStatistics fixed st).c1flushed = st.c1flushed := by
  rcases lt_trichotomy fixed 0 with h | h | h
  · have h1 : ¬ fixed = 0 := by omega
    have h2 : ¬ fixed > 0 := by omega
    simp only [updateStatistics, h, h1, h2, if_true, if_false]
    constructor
    · omega
    · trivial
  · subst h
    simp only [updateStatistics, if_true, gt_iff_lt, lt_self_iff_false, if_false]
    constructor
    · omega
    · trivial
  · have h1 : ¬ fixed = 0 := by omega
    have h2 : ¬ fixed < 0 := by omega
    simp only [updateStatistics, h1, h2, gt_iff_lt, h, if_true, if_false]
    constructor
    · omega
    · trivial

theorem totalProcessed_pushF3Frame (rs : RSDecode) (s : C1Circ) (f : F3Frame) :
    totalProcessed (pushF3Frame rs s f) =
      if s.c1BufferLevel + 1 > 1 then totalProcessed s + 1 else totalProcessed s := by
  have hl : (shiftIn s f).c1BufferLevel = s.c1BufferLevel + 1 := rfl
  have hst : (shiftIn s f).statistics = s.statistics := rfl
  simp only [pushF3Frame, hl]
  split
  · simp only [totalProcessed]
    rw [errorCorrect_statistics, (interleave_fields _).2.2.2.2.2.2.2.1]
    exact (updateStatistics_total _ _).1
  · simp only [totalProcessed, hst]

end C1Circ

namespace C1Circ

/-! ## Runs of pushes -/

theorem pushF3Frame_decodes (rs : RSDecode) (s : C1Circ) (f : F3Frame)
    (hl : 1 ≤ s.c1BufferLevel) :
    pushF3Frame rs s f = errorCorrect rs (interleaved s f) := by
  have h : (shiftIn s f).c1BufferLevel = s.c1BufferLevel + 1 := rfl
  simp only [pushF3Frame, interleaved, h]
  rw [if_pos (by omega)]

theorem pushF3Frame_warmup (rs : RSDecode) (s : C1Circ) (f : F3Frame)
    (hl : s.c1BufferLevel = 0) :
    pushF3Frame rs s f = shiftIn s f := by
  have h : (shiftIn s f).c1BufferLevel = s.c1BufferLevel + 1 := rfl
  simp only [pushF3Frame, h]
  rw [if_neg (by omega)]

theorem sized_pushAll (rs : RSDecode) (frames : List F3Frame) (s : C1Circ) (h : Sized s) :
    Sized (pushAll rs s frames) := by
  induction frames generalizing s with
  | nil => exact h
  | cons f rest ih => exact ih _ (sized_pushF3Frame rs s f h)

theorem pushAll_level_two (rs : RSDecode) (rest : List F3Frame) (s : C1Circ) (f : F3Frame)
    (hl : 1 ≤ s.c1BufferLevel) : (pushAll rs s (f :: rest)).c1BufferLevel = 2 := by
  induction rest generalizing s f with
  | nil =>
    simp only [pushAll, List.foldl_cons, List.foldl_nil]
    rw [pushF3Frame_level, if_pos (by omega)]
  | cons g rest ih =>
    have h1 : 1 ≤ (pushF3Frame rs s f).c1BufferLevel := by
      rw [pushF3Frame_level, if_pos (by omega)]; decide
    exact ih (pushF3Frame rs s f) g h1

theorem pushAll_total (rs : RSDecode) (frames : List F3Frame) (s : C1Circ)
    (hl : 1 ≤ s.c1BufferLevel) :
    totalProcessed (pushAll rs s frames) = totalProcessed s + frames.length := by
  induction frames generalizing s with
  | nil => simp [pushAll]
  | cons f rest ih =>
    have h1 : 1 ≤ (pushF3Frame rs s f).c1BufferLevel := by
      rw [pushF3Frame_level, if_pos (by omega)]; decide
    have h2 := ih (pushF3Frame rs s f) h1
    simp only [pushAll, List.foldl_cons] at h2 ⊢
    rw [h2, totalProcessed_pushF3Frame, if_pos (by omega)]
    simp only [List.length_cons, Nat.cast_add, Nat.cast_one]
    omega

/-- From level 0: no output up to the first push, 28 + 28 bytes after any later one. -/
theorem warmup_from_level_zero (rs : RSDecode) (s : C1Circ) (frames : List F3Frame)
    (hs : Sized s) (hl : s.c1BufferLevel = 0) :
    (frames.length ≤ 1 →
      getDataSymbols (pushAll rs s frames) = [] ∧ getErrorSymbols (pushAll rs s frames) = []) ∧
    (2 ≤ frames.length →
      (getDataSymbols (pushAll rs s frames)).length = 28 ∧
      (getErrorSymbols (pushAll rs s frames)).length = 28) := by
  match frames with
  | [] =>
    refine ⟨fun _ => ?_, fun h => absurd h (by simp)⟩
    simp [pushAll, getDataSymbols, getErrorSymbols, hl]
  | [f] =>
    refine ⟨fun _ => ?_, fun h => absurd h (by simp)⟩
    have h1 : (pushF3Frame rs s f).c1BufferLevel = 1 := by
      rw [pushF3Frame_level, hl]; decide
    simp [pushAll, getDataSymbols, getErrorSymbols, h1]
  | f :: g :: rest =>
    refine ⟨fun h => absurd h (by simp), fun _ => ?_⟩
    have h1 : 1 ≤ (pushF3Frame rs s f).c1BufferLevel := by
      rw [pushF3Frame_level, hl]; decide
    have h2 : (pushAll rs s (f :: g :: rest)).c1BufferLevel = 2 :=
      pushAll_level_two rs rest (pushF3Frame rs s f) g h1
    obtain ⟨-, -, h3, h4⟩ := sized_pushAll rs (f :: g :: rest) s hs
    simp only [getDataSymbols, getErrorSymbols, h2]
    exact ⟨h3, h4⟩

theorem take_eq_map_getD (a : List Byte) (n : Nat) (h : n ≤ a.length) :
    (List.range n).map (fun i => a.getD i 0) = a.take n := by
  apply List.ext_getElem?
  intro j
  by_cases hj : j < n
  · simp [List.getElem?_map, List.getElem?_range hj, List.getElem?_take, hj,
      List.getD_eq_getElem?_getD, List.getElem?_eq_getElem (show j < a.length by omega)]
  · rw [List.getElem?_eq_none (by simpa using Nat.le_of_not_lt hj),
      List.getElem?_eq_none (by simp; omega)]

end C1Circ

namespace C1Circ

theorem errorCorrect_current (rs : RSDecode) (s : C1Circ) :
    (errorCorrect rs s).currentF3Data = s.currentF3Data ∧
    (errorCorrect rs s).currentF3Errors = s.currentF3Errors := by
  simp only [errorCorrect]
  obtain ⟨h1, -, h3, -⟩ := copyLoop_fields (rs (rsInput s).1 (rsInput s).2).1
    (rs (rsInput s).1 (rsInput s).2).2 (List.range 28) s _ rfl
  exact ⟨h1, h3⟩

theorem pushF3Frame_current (rs : RSDecode) (s : C1Circ) (f : F3Frame) :
    (pushF3Frame rs s f).currentF3Data = f.getDataSymbols ∧
    (pushF3Frame rs s f).currentF3Errors = f.getErrorSymbols := by
  simp only [pushF3Frame]
  split
  · rw [(errorCorrect_current rs _).1, (errorCorrect_current rs _).2,
      (interleave_fields _).1, (interleave_fields _).2.2.1]
    exact ⟨rfl, rfl⟩
  · exact ⟨rfl, rfl⟩

theorem interleaved_data_getD (s : C1Circ) (f : F3Frame) (h : s.interleavedC1Data.length = 32)
    (j : Nat) (hj : j < 32) :
    (interleaved s f).interleavedC1Data.getD j 0 =
      if isParityIndex j = true then
        xorFF (if j % 2 = 0 then f.getDataSymbols.getD j 0 else s.currentF3Data.getD j 0)
      else (if j % 2 = 0 then f.getDataSymbols.getD j 0 else s.currentF3Data.getD j 0) :=
  interleave_data_getD { shiftIn s f with c1BufferLevel := 2 } h j hj

theorem interleaved_errors_getD (s : C1Circ) (f : F3Frame)
    (h : s.interleavedC1Errors.length = 32) (j : Nat) (hj : j < 32) :
    (interleaved s f).interleavedC1Errors.getD j 0 =
      if j % 2 = 0 then f.getErrorSymbols.getD j 0 else s.currentF3Errors.getD j 0 :=
  interleave_errors_getD { shiftIn s f with c1BufferLevel := 2 } h j hj

/-! ## The claims about `C1Circ` -/

/-- C1: starting from a freshly constructed decoder, or from one that has just been
flushed, `getDataSymbols()` and `getErrorSymbols()` are both empty after zero pushes
and after exactly one push, and both are exactly 28 bytes long after every push
beyond the first (no flush in between). -/
theorem c1_warmup_then_28_bytes (rs : RSDecode) (s0 : C1Circ) (frames : List F3Frame)
    (h0 : s0 = new ∨ ∃ s, Reachable rs s ∧ s0 = flush s) :
    (frames.length ≤ 1 →
      getDataSymbols (pushAll rs s0 frames) = [] ∧ getErrorSymbols (pushAll rs s0 frames) = []) ∧
    (2 ≤ frames.length →
      (getDataSymbols (pushAll rs s0 frames)).length = 28 ∧
      (getErrorSymbols (pushAll rs s0 frames)).length = 28) := by
  rcases h0 with h | ⟨s, hr, h⟩
  · subst h
    exact warmup_from_level_zero rs new frames sized_new rfl
  · subst h
    exact warmup_from_level_zero rs (flush s) frames (sized_flush s (reachable_sized rs s hr).1) rfl

theorem c1_warmup_then_28_bytes_witness :
    (new = new ∨ ∃ s, Reachable passRS s ∧ new = flush s) ∧
    ((([frameA, frameB] : List F3Frame).length ≤ 1 →
      getDataSymbols (pushAll passRS new [frameA, frameB]) = [] ∧
      getErrorSymbols (pushAll passRS new [frameA, frameB]) = []) ∧
    (2 ≤ ([frameA, frameB] : List F3Frame).length →
      (getDataSymbols (pushAll passRS new [frameA, frameB])).length = 28 ∧
      (getErrorSymbols (pushAll passRS new [frameA, frameB])).length = 28)) :=
  ⟨Or.inl rfl, c1_warmup_then_28_bytes passRS new [frameA, frameB] (Or.inl rfl)⟩

/-- C2: for every n >= 1 and every n F3 frames pushed into a freshly constructed
decoder with no flush in between, c1Passed + c1Corrected + c1Failed = n - 1,
whatever the Reed-Solomon coder returns. -/
theorem c2_statistics_total (rs : RSDecode) (frames : List F3Frame) (hn : 1 ≤ frames.length) :
    (pushAll rs new frames).statistics.c1Passed + (pushAll rs new frames).statistics.c1Corrected +
      (pushAll rs new frames).statistics.c1Failed = (frames.length : Int) - 1 := by
  match frames, hn with
  | f :: rest, _ =>
    have h1 : 1 ≤ (pushF3Frame rs new f).c1BufferLevel := by
      rw [pushF3Frame_level]; decide
    have h2 := pushAll_total rs rest (pushF3Frame rs new f) h1
    have h3 : totalProcessed (pushF3Frame rs new f) = 0 := by
      rw [totalProcessed_pushF3Frame]; decide
    rw [h3] at h2
    simp only [totalProcessed, pushAll] at h2
    simp only [pushAll, List.foldl_cons, List.length_cons, Nat.cast_add, Nat.cast_one]
    rw [h2]
    omega

theorem c2_statistics_total_witness :
    1 ≤ ([frameA, frameB, frameA] : List F3Frame).length ∧
    (pushAll failRS new [frameA, frameB, frameA]).statistics.c1Passed +
      (pushAll failRS new [frameA, frameB, frameA]).statistics.c1Corrected +
      (pushAll failRS new [frameA, frameB, frameA]).statistics.c1Failed =
      ((([frameA, frameB, frameA] : List F3Frame).length : Nat) : Int) - 1 :=
  ⟨by decide, c2_statistics_total failRS [frameA, frameB, frameA] (by decide)⟩

set_option maxRecDepth 100000 in
/-- The complement `^ 0xFF` of a byte, as a number: every bit flipped, that is 255
minus the value. -/
theorem xorFF_val (b : Byte) : (xorFF b).val = b.val ^^^ 0xFF ∧ (xorFF b).val = 255 - b.val := by
  revert b
  decide

/-- C3: when F3 frame A and then F3 frame B are the two most recent pushes, the push
of B decodes, and the block it hands to the coder has 32 symbols with, at every index
j in 0..31, B[j] for even j and A[j] for odd j, complemented (XOR 0xFF, that is 255
minus the value) exactly at the indices 12..15 and 28..31 and unchanged elsewhere; the
interleaved error flag at j is the flag of B for even j and of A for odd j, never
inverted. -/
theorem c3_interleaved_block (rs : RSDecode) (s : C1Circ) (A B : F3Frame)
    (hr : Reachable rs s) :
    pushF3Frame rs (pushF3Frame rs s A) B =
      errorCorrect rs (interleaved (pushF3Frame rs s A) B) ∧
    (rsInput (interleaved (pushF3Frame rs s A) B)).1.length = 32 ∧
    ∀ j, j < 32 →
      (((12 ≤ j ∧ j ≤ 15) ∨ (28 ≤ j ∧ j ≤ 31)) →
        ((rsInput (interleaved (pushF3Frame rs s A) B)).1.getD j 0).val =
          (if j % 2 = 0 then B.getDataSymbols.getD j 0
            else A.getDataSymbols.getD j 0).val ^^^ 0xFF ∧
        ((rsInput (interleaved (pushF3Frame rs s A) B)).1.getD j 0).val =
          255 - (if j % 2 = 0 then B.getDataSymbols.getD j 0
            else A.getDataSymbols.getD j 0).val) ∧
      (¬ ((12 ≤ j ∧ j ≤ 15) ∨ (28 ≤ j ∧ j ≤ 31)) →
        (rsInput (interleaved (pushF3Frame rs s A) B)).1.getD j 0 =
          (if j % 2 = 0 then B.getDataSymbols.getD j 0 else A.getDataSymbols.getD j 0)) ∧
      (interleaved (pushF3Frame rs s A) B).interleavedC1Errors.getD j 0 =
        (if j % 2 = 0 then B.getErrorSymbols.getD j 0 else A.getErrorSymbols.getD j 0) := by
  obtain ⟨hs, hl0, -⟩ := reachable_sized rs s hr
  have hsA : Sized (pushF3Frame rs s A) := sized_pushF3Frame rs s A hs
  have hlA : 1 ≤ (pushF3Frame rs s A).c1BufferLevel := by
    rw [pushF3Frame_level]; split <;> omega
  obtain ⟨hcd, hce⟩ := pushF3Frame_current rs s A
  have hsI : Sized (interleaved (pushF3Frame rs s A) B) := sized_interleave _ hsA
  have hdata := rsInput_data _ hsI.1
  refine ⟨pushF3Frame_decodes rs _ B hlA, ?_, ?_⟩
  · rw [hdata]; exact hsI.1
  · intro j hj
    have hpar : isParityIndex j = true ↔ ((12 ≤ j ∧ j ≤ 15) ∨ (28 ≤ j ∧ j ≤ 31)) := by
      simp [isParityIndex]
    rw [hdata]
    rw [interleaved_data_getD _ B hsA.1 j hj, interleaved_errors_getD _ B hsA.2.1 j hj, hcd, hce]
    refine ⟨fun hp => ?_, fun hp => ?_, rfl⟩
    · rw [if_pos (hpar.mpr hp)]
      exact xorFF_val _
    · rw [if_neg (fun c => hp (hpar.mp c))]

theorem c3_interleaved_block_witness :
    Reachable passRS new ∧
    (rsInput (interleaved (pushF3Frame passRS new frameA) frameB)).1.length = 32 ∧
    ((rsInput (interleaved (pushF3Frame passRS new frameA) frameB)).1.getD 12 0).val = 143 ∧
    ((rsInput (interleaved (pushF3Frame passRS new frameA) frameB)).1.getD 13 0).val = 242 ∧
    (rsInput (interleaved (pushF3Frame passRS new frameA) frameB)).1.getD 10 0 = 110 ∧
    (rsInput (interleaved (pushF3Frame passRS new frameA) frameB)).1.getD 11 0 = 11 ∧
    (interleaved (pushF3Frame passRS new frameA) frameB).interleavedC1Errors.getD 2 0 = 1 ∧
    (interleaved (pushF3Frame passRS new frameA) frameB).interleavedC1Errors.getD 5 0 = 1 ∧
    (interleaved (pushF3Frame passRS new frameA) frameB).interleavedC1Errors.getD 12 0 = 0 :=
  ⟨Reachable.new,
    (c3_interleaved_block passRS new frameA frameB Reachable.new).2.1,
    (((c3_interleaved_block passRS new frameA frameB Reachable.new).2.2 12 (by decide)).1
      (by decide)).1.trans (by decide),
    (((c3_interleaved_block passRS new frameA frameB Reachable.new).2.2 13 (by decide)).1
      (by decide)).2.trans (by decide),
    (((c3_interleaved_block passRS new frameA frameB Reachable.new).2.2 10 (by decide)).2.1
      (by decide)).trans (by decide),
    (((c3_interleaved_block passRS new frameA frameB Reachable.new).2.2 11 (by decide)).2.1
      (by decide)).trans (by decide),
    (((c3_interleaved_block passRS new frameA frameB Reachable.new).2.2 2 (by decide)).2.2).trans
      (by decide),
    (((c3_interleaved_block passRS new frameA frameB Reachable.new).2.2 5 (by decide)).2.2).trans
      (by decide),
    (((c3_interleaved_block passRS new frameA frameB Reachable.new).2.2 12 (by decide)).2.2).trans
      (by decide)⟩

end C1Circ

namespace C1Circ

/-- C4: after a C1 decode the 28 output error flags are all 1 if the coder returned a
negative value and all 0 otherwise; so two decodes whose coder results have the same
sign leave the same output flags, whatever the incoming error flags were. -/
theorem c4_output_flags (rs : RSDecode) (s : C1Circ) (hs : Sized s) :
    (errorCorrect rs s).outputC1Errors =
      List.replicate 28 (if (rs (rsInput s).1 (rsInput s).2).1 < 0 then 1 else 0) ∧
    ∀ (rs2 : RSDecode) (s2 : C1Circ), Sized s2 →
      ((rs (rsInput s).1 (rsInput s).2).1 < 0 ↔ (rs2 (rsInput s2).1 (rsInput s2).2).1 < 0) →
      (errorCorrect rs s).outputC1Errors = (errorCorrect rs2 s2).outputC1Errors := by
  refine ⟨errorCorrect_outputC1Errors rs s hs.2.2.2, ?_⟩
  intro rs2 s2 hs2 hiff
  rw [errorCorrect_outputC1Errors rs s hs.2.2.2, errorCorrect_outputC1Errors rs2 s2 hs2.2.2.2]
  by_cases h : (rs (rsInput s).1 (rsInput s).2).1 < 0
  · rw [if_pos h, if_pos (hiff.mp h)]
  · rw [if_neg h, if_neg (fun h2 => h (hiff.mpr h2))]

theorem c4_output_flags_witness :
    Sized (interleaved (pushF3Frame failRS new frameA) frameB) ∧
    ((errorCorrect failRS (interleaved (pushF3Frame failRS new frameA) frameB)).outputC1Errors =
      List.replicate 28
        (if (failRS (rsInput (interleaved (pushF3Frame failRS new frameA) frameB)).1
              (rsInput (interleaved (pushF3Frame failRS new frameA) frameB)).2).1 < 0
         then 1 else 0) ∧
    ∀ (rs2 : RSDecode) (s2 : C1Circ), Sized s2 →
      ((failRS (rsInput (interleaved (pushF3Frame failRS new frameA) frameB)).1
          (rsInput (interleaved (pushF3Frame failRS new frameA) frameB)).2).1 < 0 ↔
        (rs2 (rsInput s2).1 (rsInput s2).2).1 < 0) →
      (errorCorrect failRS (interleaved (pushF3Frame failRS new frameA) frameB)).outputC1Errors =
        (errorCorrect rs2 s2).outputC1Errors) :=
  ⟨by decide, c4_output_flags failRS (interleaved (pushF3Frame failRS new frameA) frameB)
    (by decide)⟩

/-- C5: the C1 output data is the first 28 symbols of the block the coder returns;
and when the coder reports 0 corrections and leaves the block unchanged, the output
data is bytes 0..27 of the interleaved (parity-inverted) block, c1Passed grows by
exactly 1 and c1Corrected and c1Failed keep their values. -/
theorem c5_output_data (rs : RSDecode) (s : C1Circ) (hs : Sized s) :
    (28 ≤ (rs (rsInput s).1 (rsInput s).2).2.length →
      (errorCorrect rs s).outputC1Data = (rs (rsInput s).1 (rsInput s).2).2.take 28) ∧
    (rs (rsInput s).1 (rsInput s).2 = (0, (rsInput s).1) →
      (errorCorrect rs s).outputC1Data = s.interleavedC1Data.take 28 ∧
      (errorCorrect rs s).statistics.c1Passed = s.statistics.c1Passed + 1 ∧
      (errorCorrect rs s).statistics.c1Corrected = s.statistics.c1Corrected ∧
      (errorCorrect rs s).statistics.c1Failed = s.statistics.c1Failed) := by
  constructor
  · intro hlen
    rw [errorCorrect_outputC1Data rs s hs.2.2.1]
    exact take_eq_map_getD _ 28 hlen
  · intro hpass
    rw [errorCorrect_outputC1Data rs s hs.2.2.1, errorCorrect_statistics, hpass,
      rsInput_data s hs.1]
    refine ⟨take_eq_map_getD _ 28 (by rw [hs.1]; decide), ?_, ?_, ?_⟩ <;>
      simp [updateStatistics]

theorem c5_output_data_witness :
    Sized (interleaved (pushF3Frame passRS new frameA) frameB) ∧
    ((28 ≤ (passRS (rsInput (interleaved (pushF3Frame passRS new frameA) frameB)).1
            (rsInput (interleaved (pushF3Frame passRS new frameA) frameB)).2).2.length →
      (errorCorrect passRS (interleaved (pushF3Frame passRS new frameA) frameB)).outputC1Data =
        (passRS (rsInput (interleaved (pushF3Frame passRS new frameA) frameB)).1
          (rsInput (interleaved (pushF3Frame passRS new frameA) frameB)).2).2.take 28) ∧
    (passRS (rsInput (interleaved (pushF3Frame passRS new frameA) frameB)).1
        (rsInput (interleaved (pushF3Frame passRS new frameA) frameB)).2 =
        (0, (rsInput (interleaved (pushF3Frame passRS new frameA) frameB)).1) →
      (errorCorrect passRS (interleaved (pushF3Frame passRS new frameA) frameB)).outputC1Data =
        (interleaved (pushF3Frame passRS new frameA) frameB).interleavedC1Data.take 28 ∧
      (errorCorrect passRS
          (interleaved (pushF3Frame passRS new frameA) frameB)).statistics.c1Passed =
        (interleaved (pushF3Frame passRS new frameA) frameB).statistics.c1Passed + 1 ∧
      (errorCorrect passRS
          (interleaved (pushF3Frame passRS new frameA) frameB)).statistics.c1Corrected =
        (interleaved (pushF3Frame passRS new frameA) frameB).statistics.c1Corrected ∧
      (errorCorrect passRS
          (interleaved (pushF3Frame passRS new frameA) frameB)).statistics.c1Failed =
        (interleaved (pushF3Frame passRS new frameA) frameB).statistics.c1Failed)) :=
  ⟨by decide, c5_output_data passRS (interleaved (pushF3Frame passRS new frameA) frameB)
    (by decide)⟩

/-- C6: the erasure list handed to the coder is the ascending list of the indices j
in 0..31 whose interleaved error flag equals 1 when there are at most 4 of them, and
the empty list when there are more than 4. -/
theorem c6_erasure_list (rs : RSDecode) (s : C1Circ) :
    errorCorrect rs s =
      { (List.range 28).foldl
          (copyStep (rs (rsInput s).1 (rsInput s).2).1 (rs (rsInput s).1 (rsInput s).2).2) s with
        statistics := updateStatistics (rs (rsInput s).1 (rsInput s).2).1 s.statistics } ∧
    List.Sorted (· < ·)
      ((List.range 32).filter (fun j => decide (s.interleavedC1Errors.getD j 0 = 1))) ∧
    (∀ j, j ∈ (List.range 32).filter (fun j => decide (s.interleavedC1Errors.getD j 0 = 1)) ↔
      (j < 32 ∧ s.interleavedC1Errors.getD j 0 = 1)) ∧
    (((List.range 32).filter (fun j => decide (s.interleavedC1Errors.getD j 0 = 1))).length ≤ 4 →
      (rsInput s).2 =
        (List.range 32).filter (fun j => decide (s.interleavedC1Errors.getD j 0 = 1))) ∧
    (4 < ((List.range 32).filter (fun j => decide (s.interleavedC1Errors.getD j 0 = 1))).length →
      (rsInput s).2 = []) := by
  refine ⟨?_, ?_, ?_, ?_, ?_⟩
  · simp only [errorCorrect]
    rw [(copyLoop_fields _ _ _ s _ rfl).2.2.2.2.2.2.2.1]
  · exact List.Sorted.filter _ (List.sorted_lt_range 32)
  · intro j
    simp [List.mem_filter]
  · intro h
    rw [rsInput_erasures, if_neg (by omega)]
  · intro h
    rw [rsInput_erasures, if_pos (by omega)]

/-- C7: `flush` sets every delay, interleave and output buffer to all zeros (sizes
kept), returns the decoder to the warm-up state, so that neither the flushed decoder
nor the next push yields output, increments c1flushed by exactly 1 and leaves
c1Passed, c1Corrected and c1Failed unchanged. -/
theorem c7_flush (rs : RSDecode) (s : C1Circ) (f : F3Frame) :
    (flush s).currentF3Data = List.replicate s.currentF3Data.length 0 ∧
    (flush s).previousF3Data = List.replicate s.previousF3Data.length 0 ∧
    (flush s).currentF3Errors = List.replicate s.currentF3Errors.length 0 ∧
    (flush s).previousF3Errors = List.replicate s.previousF3Errors.length 0 ∧
    (flush s).interleavedC1Data = List.replicate s.interleavedC1Data.length 0 ∧
    (flush s).interleavedC1Errors = List.replicate s.interleavedC1Errors.length 0 ∧
    (flush s).outputC1Data = List.replicate s.outputC1Data.length 0 ∧
    (flush s).outputC1Errors = List.replicate s.outputC1Errors.length 0 ∧
    getDataSymbols (flush s) = [] ∧ getErrorSymbols (flush s) = [] ∧
    getDataSymbols (pushF3Frame rs (flush s) f) = [] ∧
    getErrorSymbols (pushF3Frame rs (flush s) f) = [] ∧
    (flush s).statistics.c1flushed = s.statistics.c1flushed + 1 ∧
    (flush s).statistics.c1Passed = s.statistics.c1Passed ∧
    (flush s).statistics.c1Corrected = s.statistics.c1Corrected ∧
    (flush s).statistics.c1Failed = s.statistics.c1Failed := by
  have h1 : (pushF3Frame rs (flush s) f).c1BufferLevel = 1 := by
    rw [pushF3Frame_level]; rfl
  refine ⟨rfl, rfl, rfl, rfl, rfl, rfl, rfl, rfl, rfl, rfl, ?_, ?_, rfl, rfl, rfl, rfl⟩
  · simp [getDataSymbols, h1]
  · simp [getErrorSymbols, h1]

/-- C8: the C1 parity inversion (XOR 0xFF at the indices 12..15 and 28..31 of a block)
is an involution: applied twice to any block it returns the block. -/
theorem c8_parity_inversion_involution (block : List Byte) :
    invertParity (invertParity block) = block := by
  apply ext_getD
  · simp [invertParity_length]
  · intro j _
    rw [invertParity_getD, invertParity_getD, invertParity_length]
    by_cases h : isParityIndex j = true ∧ j < block.length
    · simp [h, xorFF_xorFF]
    · simp [h]

end C1Circ

namespace F2FramesToAudio

/-! ## The loops of `processAudio` -/

theorem sectionToMeta_fields (s : F2FramesToAudio) (sect : Section) :
    (sectionToMeta s sect).2.f2FramesIn = s.f2FramesIn ∧
    (sectionToMeta s sect).2.sectionsIn = s.sectionsIn ∧
    (sectionToMeta s sect).2.audioOut = s.audioOut ∧
    (sectionToMeta s sect).2.qMetaModeVector = s.qMetaModeVector ++ [sect.getQMode] ∧
    (sectionToMeta s sect).2.qMetaDataVector = s.qMetaDataVector ++ [sect.getQMetadata] ∧
    (sectionToMeta s sect).2.statistics.sectionsProcessed = s.statistics.sectionsProcessed ∧
    (sectionToMeta s sect).1.encoderRunning = encoderRunningOf sect := by
  simp only [sectionToMeta, encoderRunningOf]
  split_ifs <;> simp

theorem frameStep_fields (m : Metadata) (s : F2FramesToAudio) (i : Nat) :
    (frameStep m s i).f2FramesIn = s.f2FramesIn ∧
    (frameStep m s i).sectionsIn = s.sectionsIn ∧
    (frameStep m s i).qMetaModeVector = s.qMetaModeVector ∧
    (frameStep m s i).qMetaDataVector = s.qMetaDataVector ∧
    (frameStep m s i).statistics.sectionsProcessed = s.statistics.sectionsProcessed ∧
    (frameStep m s i).audioOut =
      s.audioOut ++ [writeOf m.encoderRunning (s.f2FramesIn.getD i default)] := by
  simp only [frameStep, writeOf, write]
  split_ifs <;> simp

theorem frameLoop_fields (m : Metadata) (b : Nat) (l : List Nat) (s : F2FramesToAudio) :
    ∀ r, r = l.foldl (fun s j => frameStep m s (b + j)) s →
    r.f2FramesIn = s.f2FramesIn ∧ r.sectionsIn = s.sectionsIn ∧
    r.qMetaModeVector = s.qMetaModeVector ∧ r.qMetaDataVector = s.qMetaDataVector ∧
    r.statistics.sectionsProcessed = s.statistics.sectionsProcessed ∧
    r.audioOut =
      s.audioOut ++ l.map (fun j => writeOf m.encoderRunning (s.f2FramesIn.getD (b + j) default)) := by
  induction l generalizing s with
  | nil => intro r hr; subst hr; simp
  | cons j l ih =>
    intro r hr
    obtain ⟨h1, h2, h3, h4, h5, h6⟩ := ih (frameStep m s (b + j)) r hr
    obtain ⟨e1, e2, e3, e4, e5, e6⟩ := frameStep_fields m s (b + j)
    refine ⟨h1.trans e1, h2.trans e2, h3.trans e3, h4.trans e4, h5.trans e5, ?_⟩
    rw [h6, e6, e1]
    simp

theorem sectionStep_eq (s : F2FramesToAudio) (b k : Nat) :
    sectionStep (s, b) k =
      ({ frameLoop (sectionToMeta s (s.sectionsIn.getD k default)).1
            (sectionToMeta s (s.sectionsIn.getD k default)).2 b with
          statistics :=
            { (frameLoop (sectionToMeta s (s.sectionsIn.getD k default)).1
                (sectionToMeta s (s.sectionsIn.getD k default)).2 b).statistics with
              sectionsProcessed :=
                (frameLoop (sectionToMeta s (s.sectionsIn.getD k default)).1
                  (sectionToMeta s (s.sectionsIn.getD k default)).2
                  b).statistics.sectionsProcessed + 1 } },
        b + 98) := rfl

/-- One pass of the outer loop: 98 writes, one per frame of the section. -/
theorem sectionStep_fields (s : F2FramesToAudio) (b k : Nat) :
    (sectionStep (s, b) k).2 = b + 98 ∧
    (sectionStep (s, b) k).1.f2FramesIn = s.f2FramesIn ∧
    (sectionStep (s, b) k).1.sectionsIn = s.sectionsIn ∧
    (sectionStep (s, b) k).1.qMetaModeVector =
      s.qMetaModeVector ++ [(s.sectionsIn.getD k default).getQMode] ∧
    (sectionStep (s, b) k).1.qMetaDataVector =
      s.qMetaDataVector ++ [(s.sectionsIn.getD k default).getQMetadata] ∧
    (sectionStep (s, b) k).1.statistics.sectionsProcessed = s.statistics.sectionsProcessed + 1 ∧
    (sectionStep (s, b) k).1.audioOut =
      s.audioOut ++ (List.range 98).map (fun j =>
        writeOf (encoderRunningOf (s.sectionsIn.getD k default))
          (s.f2FramesIn.getD (b + j) default)) := by
  obtain ⟨e1, e2, e3, e4, e5, e6, e7⟩ := sectionToMeta_fields s (s.sectionsIn.getD k default)
  obtain ⟨h1, h2, h3, h4, h5, h6⟩ :=
    frameLoop_fields (sectionToMeta s (s.sectionsIn.getD k default)).1 b (List.range 98)
      (sectionToMeta s (s.sectionsIn.getD k default)).2
      (frameLoop (sectionToMeta s (s.sectionsIn.getD k default)).1
        (sectionToMeta s (s.sectionsIn.getD k default)).2 b) (by rw [frameLoop])
  rw [sectionStep_eq]
  dsimp only
  rw [h1, h2, h3, h4, h5, h6, e1, e2, e3, e4, e5, e6, e7]
  exact ⟨rfl, rfl, rfl, rfl, rfl, rfl, rfl⟩

theorem sectionLoop_succ (s : F2FramesToAudio) (k : Nat) :
    sectionLoop s (k + 1) = sectionStep (sectionLoop s k) k := by
  simp [sectionLoop, List.range_succ, List.foldl_append]

/-- The first `k` passes of the outer loop: write number `i` is decided by section
`i / 98` and frame `i` of the queues. -/
theorem sectionLoop_fields (s : F2FramesToAudio) (k : Nat) :
    (sectionLoop s k).2 = 98 * k ∧
    (sectionLoop s k).1.f2FramesIn = s.f2FramesIn ∧
    (sectionLoop s k).1.sectionsIn = s.sectionsIn ∧
    (sectionLoop s k).1.qMetaModeVector =
      s.qMetaModeVector ++ (List.range k).map (fun i => (s.sectionsIn.getD i default).getQMode) ∧
    (sectionLoop s k).1.qMetaDataVector =
      s.qMetaDataVector ++
        (List.range k).map (fun i => (s.sectionsIn.getD i default).getQMetadata) ∧
    (sectionLoop s k).1.statistics.sectionsProcessed = s.statistics.sectionsProcessed + k ∧
    (sectionLoop s k).1.audioOut =
      s.audioOut ++ (List.range (98 * k)).map (fun i =>
        writeOf (encoderRunningOf (s.sectionsIn.getD (i / 98) default))
          (s.f2FramesIn.getD i default)) := by
  induction k with
  | zero => simp [sectionLoop]
  | succ k ih =>
    obtain ⟨h1, h2, h3, h4, h5, h6, h7⟩ := ih
    have hpair : sectionLoop s k = ((sectionLoop s k).1, (sectionLoop s k).2) := rfl
    rw [sectionLoop_succ, hpair]
    obtain ⟨e1, e2, e3, e4, e5, e6, e7⟩ :=
      sectionStep_fields (sectionLoop s k).1 (sectionLoop s k).2 k
    refine ⟨?_, e2.trans h2, e3.trans h3, ?_, ?_, ?_, ?_⟩
    · rw [e1, h1]; ring
    · rw [e4, h4, h3, List.range_succ, List.map_append, List.append_assoc]; rfl
    · rw [e5, h5, h3, List.range_succ, List.map_append, List.append_assoc]; rfl
    · rw [e6, h6]; push_cast; ring
    · rw [e7, h7, h3, h2, h1, List.append_assoc]
      congr 1
      have hr : 98 * (k + 1) = 98 * k + 98 := by ring
      rw [hr, List.range_add, List.map_append, List.map_map]
      congr 1
      apply List.map_congr_left
      intro j hj
      have hj98 : j < 98 := List.mem_range.mp hj
      have hdiv : (98 * k + j) / 98 = k := by omega
      simp only [Function.comp, hdiv]

end F2FramesToAudio

theorem getD_drop_eq {α : Type} (l : List α) (a i : Nat) (d : α) :
    (l.drop a).getD i d = l.getD (a + i) d := by
  simp [List.getD_eq_getElem?_getD, List.getElem?_drop]

theorem getD_append_left {α : Type} (l l2 : List α) (i : Nat) (d : α) (h : i < l.length) :
    (l ++ l2).getD i d = l.getD i d := by
  simp [List.getD_eq_getElem?_getD, List.getElem?_append_left h]

theorem length_flatten_of_const {α : Type} (c : Nat) (L : List (List α))
    (h : ∀ w ∈ L, w.length = c) : L.flatten.length = c * L.length := by
  induction L with
  | nil => simp
  | cons w L ih =>
    have hw : w.length = c := h w (List.mem_cons_self _ _)
    have hL : ∀ v ∈ L, v.length = c := fun v hv => h v (List.mem_cons_of_mem _ hv)
    simp only [List.flatten_cons, List.length_append, List.length_cons, ih hL, hw]
    ring

namespace F2FramesToAudio

theorem sectionsToProcess_le (s : F2FramesToAudio) :
    98 * sectionsToProcess s ≤ s.f2FramesIn.length ∧ sectionsToProcess s ≤ s.sectionsIn.length := by
  simp only [sectionsToProcess]
  split <;> omega

theorem processAudio_eq (s : F2FramesToAudio) :
    processAudio s =
      { (sectionLoop s (sectionsToProcess s)).1 with
        f2FramesIn := (sectionLoop s (sectionsToProcess s)).1.f2FramesIn.drop
          (sectionsToProcess s * 98)
        sectionsIn := (sectionLoop s (sectionsToProcess s)).1.sectionsIn.drop
          (sectionsToProcess s) } := rfl

theorem processAudio_fields (s : F2FramesToAudio) :
    (processAudio s).f2FramesIn = s.f2FramesIn.drop (sectionsToProcess s * 98) ∧
    (processAudio s).sectionsIn = s.sectionsIn.drop (sectionsToProcess s) ∧
    (processAudio s).qMetaModeVector =
      s.qMetaModeVector ++
        (List.range (sectionsToProcess s)).map (fun i => (s.sectionsIn.getD i default).getQMode) ∧
    (processAudio s).qMetaDataVector =
      s.qMetaDataVector ++
        (List.range (sectionsToProcess s)).map
          (fun i => (s.sectionsIn.getD i default).getQMetadata) ∧
    (processAudio s).statistics.sectionsProcessed =
      s.statistics.sectionsProcessed + sectionsToProcess s ∧
    (processAudio s).audioOut =
      s.audioOut ++ (List.range (98 * sectionsToProcess s)).map (fun i =>
        writeOf (encoderRunningOf (s.sectionsIn.getD (i / 98) default))
          (s.f2FramesIn.getD i default)) := by
  obtain ⟨-, h2, h3, h4, h5, h6, h7⟩ := sectionLoop_fields s (sectionsToProcess s)
  rw [processAudio_eq]
  dsimp only
  rw [h2, h3, h4, h5, h6, h7]
  exact ⟨rfl, rfl, rfl, rfl, rfl, rfl⟩

end F2FramesToAudio

namespace F2FramesToAudio

/-! ## First in, first out across `convert` calls -/

theorem fifo_new : Fifo new [] [] 0 := by
  simp [Fifo, new, reset, resetStatistics]

theorem fifo_append (s : F2FramesToAudio) (F : List F2Frame) (S : List Section) (N : Nat)
    (F2 : List F2Frame) (S2 : List Section) (h : Fifo s F S N) :
    Fifo { s with f2FramesIn := s.f2FramesIn ++ F2, sectionsIn := s.sectionsIn ++ S2 }
      (F ++ F2) (S ++ S2) N := by
  obtain ⟨hF, hS, hf, hs, hp, hm, hd, ho⟩ := h
  refine ⟨?_, ?_, ?_, ?_, hp, ?_, ?_, ?_⟩
  · rw [List.length_append]; omega
  · rw [List.length_append]; omega
  · show s.f2FramesIn ++ F2 = _
    rw [hf, List.drop_append_of_le_length hF]
  · show s.sectionsIn ++ S2 = _
    rw [hs, List.drop_append_of_le_length hS]
  · show s.qMetaModeVector = _
    rw [hm]
    apply List.map_congr_left
    intro i hi
    rw [getD_append_left S S2 i default (by have := List.mem_range.mp hi; omega)]
  · show s.qMetaDataVector = _
    rw [hd]
    apply List.map_congr_left
    intro i hi
    rw [getD_append_left S S2 i default (by have := List.mem_range.mp hi; omega)]
  · show s.audioOut = _
    rw [ho]
    apply List.map_congr_left
    intro i hi
    have hi2 : i < 98 * N := List.mem_range.mp hi
    rw [getD_append_left S S2 (i / 98) default (by omega),
      getD_append_left F F2 i default (by omega)]

theorem fifo_processAudio (s : F2FramesToAudio) (F : List F2Frame) (S : List Section) (N : Nat)
    (h : Fifo s F S N) : Fifo (processAudio s) F S (N + sectionsToProcess s) := by
  obtain ⟨hF, hS, hf, hs, hp, hm, hd, ho⟩ := h
  obtain ⟨b1, b2⟩ := sectionsToProcess_le s
  rw [hf, List.length_drop] at b1
  rw [hs, List.length_drop] at b2
  obtain ⟨e1, e2, e3, e4, e5, e6⟩ := processAudio_fields s
  refine ⟨by omega, by omega, ?_, ?_, ?_, ?_, ?_, ?_⟩
  · rw [e1, hf, List.drop_drop]
    congr 1
    ring
  · rw [e2, hs, List.drop_drop]
  · rw [e5, hp]
    push_cast
    ring
  · rw [e3, hm, hs, List.range_add, List.map_append, List.map_map]
    congr 1
    apply List.map_congr_left
    intro i _
    simp only [Function.comp, getD_drop_eq]
  · rw [e4, hd, hs, List.range_add, List.map_append, List.map_map]
    congr 1
    apply List.map_congr_left
    intro i _
    simp only [Function.comp, getD_drop_eq]
  · have hr : 98 * (N + sectionsToProcess s) = 98 * N + 98 * sectionsToProcess s := by ring
    rw [e6, ho, hs, hf, hr, List.range_add, List.map_append, List.map_map]
    congr 1
    apply List.map_congr_left
    intro i _
    have hdiv : (98 * N + i) / 98 = N + i / 98 := by omega
    simp only [Function.comp, getD_drop_eq, hdiv]

theorem convert_eq (s : F2FramesToAudio) (F2 : List F2Frame) (S2 : List Section) :
    convert s F2 S2 =
      if (s.f2FramesIn ++ F2).length ≥ 98 ∧ (s.sectionsIn ++ S2).length ≥ 1 then
        processAudio { s with f2FramesIn := s.f2FramesIn ++ F2, sectionsIn := s.sectionsIn ++ S2 }
      else { s with f2FramesIn := s.f2FramesIn ++ F2, sectionsIn := s.sectionsIn ++ S2 } := rfl

theorem fifo_convert (s : F2FramesToAudio) (F : List F2Frame) (S : List Section) (N : Nat)
    (F2 : List F2Frame) (S2 : List Section) (h : Fifo s F S N) :
    ∃ N2, Fifo (convert s F2 S2) (F ++ F2) (S ++ S2) N2 := by
  have h1 := fifo_append s F S N F2 S2 h
  rw [convert_eq]
  split
  · exact ⟨_, fifo_processAudio _ _ _ _ h1⟩
  · exact ⟨N, h1⟩

theorem fifo_convertAll (calls : List (List F2Frame × List Section)) (s : F2FramesToAudio)
    (F : List F2Frame) (S : List Section) (N : Nat) (h : Fifo s F S N) :
    ∃ N2, Fifo (convertAll s calls) (F ++ arrivedFrames calls) (S ++ arrivedSections calls) N2 := by
  induction calls generalizing s F S N with
  | nil => exact ⟨N, by simpa [convertAll, arrivedFrames, arrivedSections] using h⟩
  | cons c rest ih =>
    obtain ⟨N1, h1⟩ := fifo_convert s F S N c.1 c.2 h
    obtain ⟨N2, h2⟩ := ih (convert s c.1 c.2) (F ++ c.1) (S ++ c.2) N1 h1
    refine ⟨N2, ?_⟩
    have ef : arrivedFrames (c :: rest) = c.1 ++ arrivedFrames rest := by
      simp [arrivedFrames]
    have es : arrivedSections (c :: rest) = c.2 ++ arrivedSections rest := by
      simp [arrivedSections]
    rw [ef, es, ← List.append_assoc, ← List.append_assoc]
    exact h2

end F2FramesToAudio

namespace F2FramesToAudio

theorem writeOf_length (running : Bool) (frames : List F2Frame) (i : Nat)
    (h24 : ∀ f ∈ frames, f.getDataSymbols.length = 24) (hi : i < frames.length) :
    (writeOf running (frames.getD i default)).length = 24 := by
  cases running
  · simp [writeOf]
  · have hmem : frames.getD i default ∈ frames := by
      rw [List.getD_eq_getElem _ _ hi]
      exact List.getElem_mem hi
    simpa [writeOf] using h24 _ hmem

/-! ## The claims about `F2FramesToAudio` -/

/-- C9: for every section `processAudio` processes, whatever its Q mode and encoder
state, that pass of the section loop makes exactly 98 writes of 24 bytes each, 2352
bytes in all, provided the data of every queued F2 frame is 24 bytes long; and the
sink after `processAudio` is the sink after the last pass. -/
theorem c9_section_writes_2352_bytes (s : F2FramesToAudio)
    (h24 : ∀ f ∈ s.f2FramesIn, f.getDataSymbols.length = 24) :
    (processAudio s).audioOut = (sectionLoop s (sectionsToProcess s)).1.audioOut ∧
    ∀ k, k < sectionsToProcess s →
      ∃ W : List (List Byte),
        (sectionLoop s (k + 1)).1.audioOut = (sectionLoop s k).1.audioOut ++ W ∧
        W.length = 98 ∧ (∀ w ∈ W, w.length = 24) ∧ W.flatten.length = 2352 := by
  constructor
  · rw [processAudio_eq]
  · intro k hk
    obtain ⟨b1, -⟩ := sectionsToProcess_le s
    obtain ⟨h1, h2, h3, -, -, -, -⟩ := sectionLoop_fields s k
    have hpair : sectionLoop s k = ((sectionLoop s k).1, (sectionLoop s k).2) := rfl
    obtain ⟨-, -, -, -, -, -, e7⟩ := sectionStep_fields (sectionLoop s k).1 (sectionLoop s k).2 k
    rw [← hpair, ← sectionLoop_succ] at e7
    have hall : ∀ w ∈ (List.range 98).map (fun j =>
        writeOf (encoderRunningOf ((sectionLoop s k).1.sectionsIn.getD k default))
          ((sectionLoop s k).1.f2FramesIn.getD ((sectionLoop s k).2 + j) default)),
        w.length = 24 := by
      intro w hw
      obtain ⟨j, hj, rfl⟩ := List.mem_map.mp hw
      have hj98 : j < 98 := List.mem_range.mp hj
      rw [h2, h1]
      exact writeOf_length _ _ _ h24 (by omega)
    refine ⟨_, e7, by simp, hall, ?_⟩
    rw [length_flatten_of_const 24 _ hall]
    simp

theorem c9_section_writes_2352_bytes_witness :
    (∀ f ∈ sampleQueue.f2FramesIn, f.getDataSymbols.length = 24) ∧
    ((processAudio sampleQueue).audioOut =
        (sectionLoop sampleQueue (sectionsToProcess sampleQueue)).1.audioOut ∧
    ∀ k, k < sectionsToProcess sampleQueue →
      ∃ W : List (List Byte),
        (sectionLoop sampleQueue (k + 1)).1.audioOut =
          (sectionLoop sampleQueue k).1.audioOut ++ W ∧
        W.length = 98 ∧ (∀ w ∈ W, w.length = 24) ∧ W.flatten.length = 2352) :=
  ⟨fun f hf => by rw [List.eq_of_mem_replicate hf]; rfl,
   c9_section_writes_2352_bytes sampleQueue
    (fun f hf => by rw [List.eq_of_mem_replicate hf]; rfl)⟩

/-- C10: after any run of `convert` calls on a fresh converter, with N the number of
sections processed: the k-th section processed (k < N) is the k-th section that
arrived, it is paired with the arrived frames 98k .. 98k+97, the rest of both queues
is kept in arrival order, and when `encoderRunning` holds for that section the 98
byte arrays written for it are exactly the data of those 98 frames, in order (so the
bytes written are their concatenation). -/
theorem c10_fifo_verbatim (calls : List (List F2Frame × List Section)) :
    ∃ N : Nat,
      (convertAll new calls).statistics.sectionsProcessed = N ∧
      98 * N ≤ (arrivedFrames calls).length ∧ N ≤ (arrivedSections calls).length ∧
      (convertAll new calls).f2FramesIn = (arrivedFrames calls).drop (98 * N) ∧
      (convertAll new calls).sectionsIn = (arrivedSections calls).drop N ∧
      (convertAll new calls).qMetaModeVector =
        ((arrivedSections calls).take N).map (fun sect => sect.getQMode) ∧
      (convertAll new calls).qMetaDataVector =
        ((arrivedSections calls).take N).map (fun sect => sect.getQMetadata) ∧
      (convertAll new calls).audioOut.length = 98 * N ∧
      ∀ k, k < N → encoderRunningOf ((arrivedSections calls).getD k default) = true →
        ((convertAll new calls).audioOut.drop (98 * k)).take 98 =
          (((arrivedFrames calls).drop (98 * k)).take 98).map (fun f => f.getDataSymbols) ∧
        (((convertAll new calls).audioOut.drop (98 * k)).take 98).flatten =
          ((((arrivedFrames calls).drop (98 * k)).take 98).map
            (fun f => f.getDataSymbols)).flatten := by
  obtain ⟨N, hF, hS, hf, hs, hp, hm, hd, ho⟩ := fifo_convertAll calls new [] [] 0 fifo_new
  simp only [List.nil_append] at hF hS hf hs hm hd ho
  have hmap : ∀ {β : Type} (g : Section → β),
      (List.range N).map (fun i => g ((arrivedSections calls).getD i default)) =
        ((arrivedSections calls).take N).map g := by
    intro β g
    apply List.ext_getElem?
    intro j
    by_cases hj : j < N
    · simp [List.getElem?_map, List.getElem?_range hj, List.getElem?_take, hj,
        List.getD_eq_getElem?_getD,
        List.getElem?_eq_getElem (show j < (arrivedSections calls).length by omega)]
    · rw [List.getElem?_eq_none (by simpa using Nat.le_of_not_lt hj),
        List.getElem?_eq_none (by simp; omega)]
  have hwrites : ∀ k, k < N →
      encoderRunningOf ((arrivedSections calls).getD k default) = true →
      ((convertAll new calls).audioOut.drop (98 * k)).take 98 =
        (((arrivedFrames calls).drop (98 * k)).take 98).map (fun f => f.getDataSymbols) := by
    intro k hk hrun
    rw [ho]
    apply List.ext_getElem?
    intro j
    by_cases hj : j < 98
    · have hdiv : (98 * k + j) / 98 = k := by omega
      have hlt : 98 * k + j < 98 * N := by omega
      have hrun2 : encoderRunningOf ((arrivedSections calls)[k]?.getD default) = true := by
        simpa [List.getD_eq_getElem?_getD] using hrun
      simp [List.getElem?_take, hj, List.getElem?_drop, List.getElem?_map,
        List.getElem?_range hlt, hdiv, hrun2, writeOf, List.getD_eq_getElem?_getD,
        List.getElem?_eq_getElem (show 98 * k + j < (arrivedFrames calls).length by omega)]
    · rw [List.getElem?_eq_none (by simp; omega), List.getElem?_eq_none (by simp; omega)]
  refine ⟨N, hp, hF, hS, hf, hs, ?_, ?_, ?_, ?_⟩
  · rw [hm]; exact hmap (fun sect => sect.getQMode)
  · rw [hd]; exact hmap (fun sect => sect.getQMetadata)
  · rw [ho]; simp
  · intro k hk hrun
    exact ⟨hwrites k hk hrun, by rw [hwrites k hk hrun]⟩

end F2FramesToAudio

namespace F2FramesToAudio

/-! ## Sample counters, buffering and the metadata of a section -/

theorem sectionToMeta_samples (s : F2FramesToAudio) (sect : Section) :
    (sectionToMeta s sect).2.statistics.validAudioSamples = s.statistics.validAudioSamples ∧
    (sectionToMeta s sect).2.statistics.invalidAudioSamples =
      s.statistics.invalidAudioSamples := by
  simp only [sectionToMeta]
  split_ifs <;> simp

theorem frameLoop_samples_stopped (m : Metadata) (hm : m.encoderRunning = false) (b : Nat)
    (l : List Nat) (s : F2FramesToAudio) :
    ∀ r, r = l.foldl (fun s j => frameStep m s (b + j)) s →
    r.statistics.validAudioSamples = s.statistics.validAudioSamples ∧
    r.statistics.invalidAudioSamples = s.statistics.invalidAudioSamples := by
  induction l generalizing s with
  | nil => intro r hr; subst hr; simp
  | cons j l ih =>
    intro r hr
    obtain ⟨h1, h2⟩ := ih (frameStep m s (b + j)) r hr
    have e : frameStep m s (b + j) = write s (List.replicate 24 0) := by
      simp [frameStep, hm]
    rw [e] at h1 h2
    exact ⟨h1, h2⟩

theorem sectionStep_samples_stopped (s : F2FramesToAudio) (b k : Nat)
    (hstop : encoderRunningOf (s.sectionsIn.getD k default) = false) :
    (sectionStep (s, b) k).1.statistics.validAudioSamples = s.statistics.validAudioSamples ∧
    (sectionStep (s, b) k).1.statistics.invalidAudioSamples =
      s.statistics.invalidAudioSamples := by
  obtain ⟨e1, e2⟩ := sectionToMeta_samples s (s.sectionsIn.getD k default)
  have hm : (sectionToMeta s (s.sectionsIn.getD k default)).1.encoderRunning = false := by
    rw [(sectionToMeta_fields s (s.sectionsIn.getD k default)).2.2.2.2.2.2, hstop]
  obtain ⟨h1, h2⟩ :=
    frameLoop_samples_stopped (sectionToMeta s (s.sectionsIn.getD k default)).1 hm b
      (List.range 98) (sectionToMeta s (s.sectionsIn.getD k default)).2
      (frameLoop (sectionToMeta s (s.sectionsIn.getD k default)).1
        (sectionToMeta s (s.sectionsIn.getD k default)).2 b) (by rw [frameLoop])
  rw [sectionStep_eq]
  dsimp only
  rw [h1, h2, e1, e2]
  exact ⟨rfl, rfl⟩

/-- C11: when `encoderRunning` is false for a section, the pass of the section loop
that handles it writes 98 arrays of 24 zero bytes, 2352 zero bytes in all, whatever
the queued F2 frames hold and whether their data is valid, and neither
validAudioSamples nor invalidAudioSamples changes. -/
theorem c11_stopped_section_writes_zeros (s : F2FramesToAudio) (k : Nat)
    (hstop : encoderRunningOf (s.sectionsIn.getD k default) = false) :
    (sectionLoop s (k + 1)).1.audioOut =
      (sectionLoop s k).1.audioOut ++ List.replicate 98 (List.replicate 24 0) ∧
    (List.replicate 98 (List.replicate 24 (0 : Byte))).flatten = List.replicate 2352 0 ∧
    (sectionLoop s (k + 1)).1.statistics.validAudioSamples =
      (sectionLoop s k).1.statistics.validAudioSamples ∧
    (sectionLoop s (k + 1)).1.statistics.invalidAudioSamples =
      (sectionLoop s k).1.statistics.invalidAudioSamples := by
  obtain ⟨-, -, h3, -, -, -, -⟩ := sectionLoop_fields s k
  have hpair : sectionLoop s k = ((sectionLoop s k).1, (sectionLoop s k).2) := rfl
  have hstop2 : encoderRunningOf ((sectionLoop s k).1.sectionsIn.getD k default) = false := by
    rw [h3]; exact hstop
  obtain ⟨-, -, -, -, -, -, e7⟩ := sectionStep_fields (sectionLoop s k).1 (sectionLoop s k).2 k
  obtain ⟨g1, g2⟩ := sectionStep_samples_stopped (sectionLoop s k).1 (sectionLoop s k).2 k hstop2
  rw [← hpair, ← sectionLoop_succ] at e7 g1 g2
  refine ⟨?_, by simp, g1, g2⟩
  rw [e7, hstop2]
  congr 1

theorem c11_stopped_section_writes_zeros_witness :
    encoderRunningOf (pausedQueue.sectionsIn.getD 0 default) = false ∧
    ((sectionLoop pausedQueue (0 + 1)).1.audioOut =
      (sectionLoop pausedQueue 0).1.audioOut ++ List.replicate 98 (List.replicate 24 0) ∧
    (List.replicate 98 (List.replicate 24 (0 : Byte))).flatten = List.replicate 2352 0 ∧
    (sectionLoop pausedQueue (0 + 1)).1.statistics.validAudioSamples =
      (sectionLoop pausedQueue 0).1.statistics.validAudioSamples ∧
    (sectionLoop pausedQueue (0 + 1)).1.statistics.invalidAudioSamples =
      (sectionLoop pausedQueue 0).1.statistics.invalidAudioSamples) :=
  ⟨by decide, c11_stopped_section_writes_zeros pausedQueue 0 (by decide)⟩

end F2FramesToAudio

namespace F2FramesToAudio

theorem sectionsToProcess_eq_min (s : F2FramesToAudio) :
    sectionsToProcess s = min (s.f2FramesIn.length / 98) s.sectionsIn.length := by
  simp only [sectionsToProcess]
  split <;> omega

theorem map_getD_range_eq_take {β : Type} (S : List Section) (g : Section → β) (n : Nat)
    (hn : n ≤ S.length) :
    (List.range n).map (fun i => g (S.getD i default)) = (S.take n).map g := by
  apply List.ext_getElem?
  intro j
  by_cases hj : j < n
  · simp [List.getElem?_map, List.getElem?_range hj, List.getElem?_take, hj,
      List.getD_eq_getElem?_getD, List.getElem?_eq_getElem (show j < S.length by omega)]
  · rw [List.getElem?_eq_none (by simpa using Nat.le_of_not_lt hj),
      List.getElem?_eq_none (by simp; omega)]

/-- C12: a `convert` call that, after appending its inputs, has F queued frames and
S queued sections processes exactly min(F / 98, S) sections, namely the first ones
in queue order, removes exactly those sections and 98 frames per section from the
fronts of the queues and keeps the rest in order; so after the call it is never the
case that at least 98 frames and at least 1 section both remain queued. -/
theorem c12_section_buffering (s : F2FramesToAudio) (f2Frames : List F2Frame)
    (sections : List Section) :
    (convert s f2Frames sections).statistics.sectionsProcessed =
      s.statistics.sectionsProcessed +
        (min ((s.f2FramesIn ++ f2Frames).length / 98) (s.sectionsIn ++ sections).length : Nat) ∧
    (convert s f2Frames sections).qMetaDataVector =
      s.qMetaDataVector ++
        ((s.sectionsIn ++ sections).take
          (min ((s.f2FramesIn ++ f2Frames).length / 98) (s.sectionsIn ++ sections).length)).map
          (fun sect => sect.getQMetadata) ∧
    (convert s f2Frames sections).audioOut.length =
      s.audioOut.length +
        98 * min ((s.f2FramesIn ++ f2Frames).length / 98) (s.sectionsIn ++ sections).length ∧
    (convert s f2Frames sections).f2FramesIn =
      (s.f2FramesIn ++ f2Frames).drop
        (98 * min ((s.f2FramesIn ++ f2Frames).length / 98) (s.sectionsIn ++ sections).length) ∧
    (convert s f2Frames sections).sectionsIn =
      (s.sectionsIn ++ sections).drop
        (min ((s.f2FramesIn ++ f2Frames).length / 98) (s.sectionsIn ++ sections).length) ∧
    ¬ (98 ≤ (convert s f2Frames sections).f2FramesIn.length ∧
        1 ≤ (convert s f2Frames sections).sectionsIn.length) := by
  have hmin := sectionsToProcess_eq_min
    { s with f2FramesIn := s.f2FramesIn ++ f2Frames, sectionsIn := s.sectionsIn ++ sections }
  obtain ⟨e1, e2, -, e4, e5, e6⟩ := processAudio_fields
    { s with f2FramesIn := s.f2FramesIn ++ f2Frames, sectionsIn := s.sectionsIn ++ sections }
  dsimp only at hmin e1 e2 e4 e5 e6
  rw [hmin] at e1 e2 e4 e5 e6
  rw [convert_eq]
  split
  · rw [e1, e2, e4, e5, e6]
    refine ⟨rfl, ?_, ?_, ?_, rfl, ?_⟩
    · rw [map_getD_range_eq_take _ _ _ (Nat.min_le_right _ _)]
    · simp
    · congr 1
      ring
    · simp only [List.length_drop]
      omega
  · rename_i hcond
    have h0 : min ((s.f2FramesIn ++ f2Frames).length / 98) (s.sectionsIn ++ sections).length
        = 0 := by omega
    rw [h0]
    dsimp only
    refine ⟨by simp, by simp, by simp, by simp, by simp, ?_⟩
    omega

/-- C13: for every section, the `encoderRunning` flag `sectionToMeta` returns is
false exactly when the Q mode is 1 or 4 and the matching record (qMode1, qMode4) is
a lead-in or has x = 0; in every other case, every Q mode other than 1 and 4
included, it is true. -/
theorem c13_encoderRunning (s : F2FramesToAudio) (sect : Section) :
    ((sectionToMeta s sect).1.encoderRunning = false ↔
      (sect.getQMode = 1 ∧
        (sect.getQMetadata.qMode1.isLeadIn = true ∨ sect.getQMetadata.qMode1.x = 0)) ∨
      (sect.getQMode = 4 ∧
        (sect.getQMetadata.qMode4.isLeadIn = true ∨ sect.getQMetadata.qMode4.x = 0))) ∧
    ((sect.getQMode ≠ 1 ∧ sect.getQMode ≠ 4) → (sectionToMeta s sect).1.encoderRunning = true) := by
  simp only [sectionToMeta, audioModeMetadata]
  constructor
  · split_ifs <;> simp_all
  · rintro ⟨h1, h4⟩
    simp [h1, h4]

/-- The subdivision `sectionToMeta` computes from a Q mode 1 or Q mode 4 record. -/
theorem audioModeMetadata_subdivision (qMode : Int) (isAudio : Bool) (q : Section.QModeRecord) :
    (audioModeMetadata qMode isAudio q).subdivision =
      if q.isLeadIn = true then q.point else if q.isLeadOut = true then 0 else q.x := by
  simp only [audioModeMetadata]
  split_ifs <;> rfl

/-- C14, as the code has it: for every section with Q mode 1 or 4 the subdivision
`sectionToMeta` computes is the `point` of the matching record when it is a lead-in,
0 when it is a lead-out that is not a lead-in, and its `x` otherwise. -/
theorem c14_subdivision_amended (s : F2FramesToAudio) (sect : Section) :
    (sect.getQMode = 1 →
      (sectionToMeta s sect).1.subdivision =
        if sect.getQMetadata.qMode1.isLeadIn = true then sect.getQMetadata.qMode1.point
        else if sect.getQMetadata.qMode1.isLeadOut = true then 0
        else sect.getQMetadata.qMode1.x) ∧
    (sect.getQMode = 4 →
      (sectionToMeta s sect).1.subdivision =
        if sect.getQMetadata.qMode4.isLeadIn = true then sect.getQMetadata.qMode4.point
        else if sect.getQMetadata.qMode4.isLeadOut = true then 0
        else sect.getQMetadata.qMode4.x) := by
  constructor
  · intro h1
    simp only [sectionToMeta, h1, if_true]
    exact audioModeMetadata_subdivision _ _ _
  · intro h4
    have h1 : ¬ sect.getQMode = 1 := by omega
    simp only [sectionToMeta, h1, h4, if_true, if_false]
    exact audioModeMetadata_subdivision _ _ _

/-- C14, as stated, fails: `leadOutSection` has Q mode 1, is not a lead-in and has
x = 1, yet the subdivision computed for it is 0. -/
theorem c14_subdivision_counterexample :
    leadOutSection.getQMode = 1 ∧ leadOutSection.getQMetadata.qMode1.isLeadIn = false ∧
    leadOutSection.getQMetadata.qMode1.x = 1 ∧
    (sectionToMeta new leadOutSection).1.subdivision = 0 ∧
    (sectionToMeta new leadOutSection).1.subdivision ≠ leadOutSection.getQMetadata.qMode1.x := by
  decide

end F2FramesToAudio

namespace Comb

/-! ## Level conversions and `RGB::conv` -/

theorem clamp_mem (v low high : ℚ) (h : low ≤ high) :
    low ≤ clamp v low high ∧ clamp v low high ≤ high := by
  simp only [clamp]
  split_ifs with h1 h2
  · exact ⟨le_refl _, h⟩
  · exact ⟨h, le_refl _⟩
  · exact ⟨not_lt.mp h1, not_lt.mp h2⟩

/-- Within 0..65535 the conversion to `uint16_t` is the floor: nothing wraps. -/
theorem toU16_of_mem (v : ℚ) (h0 : 0 ≤ v) (h1 : v ≤ 65535) :
    ((toU16 v : Nat) : Int) = ⌊v⌋ ∧ toU16 v ≤ 65535 := by
  have hf0 : 0 ≤ ⌊v⌋ := Int.floor_nonneg.mpr h0
  have hf1 : ⌊v⌋ ≤ 65535 := by
    have : ⌊v⌋ ≤ ⌊(65535 : ℚ)⌋ := Int.floor_le_floor h1
    simpa using this
  have hmod : ⌊v⌋ % 65536 = ⌊v⌋ := Int.emod_eq_of_lt hf0 (by omega)
  simp only [toU16, truncInt, h0, if_true, hmod]
  constructor
  · exact Int.toNat_of_nonneg hf0
  · omega

theorem toU16_natCast (u : Nat) (h : u ≤ 65535) : toU16 (u : ℚ) = u := by
  have h0 : (0 : ℚ) ≤ (u : ℚ) := Nat.cast_nonneg u
  have h1 : (u : ℚ) ≤ 65535 := by exact_mod_cast h
  have := (toU16_of_mem (u : ℚ) h0 h1).1
  rw [Int.floor_natCast] at this
  exact_mod_cast this

/-- C15: for every YIQ input and every brightness and black-level setting,
`RGB::conv` yields r, g and b each within [0, 65535] (arithmetic over the
rationals), and the value then stored as `uint16_t` is the floor of the component,
at most 65535: nothing wraps around. -/
theorem c15_rgb_in_range (cfg : Settings) (yiq : YIQ) :
    (0 ≤ (RGB.conv cfg yiq).r ∧ (RGB.conv cfg yiq).r ≤ 65535) ∧
    (0 ≤ (RGB.conv cfg yiq).g ∧ (RGB.conv cfg yiq).g ≤ 65535) ∧
    (0 ≤ (RGB.conv cfg yiq).b ∧ (RGB.conv cfg yiq).b ≤ 65535) ∧
    (((toU16 (RGB.conv cfg yiq).r : Nat) : Int) = ⌊(RGB.conv cfg yiq).r⌋ ∧
      toU16 (RGB.conv cfg yiq).r ≤ 65535) ∧
    (((toU16 (RGB.conv cfg yiq).g : Nat) : Int) = ⌊(RGB.conv cfg yiq).g⌋ ∧
      toU16 (RGB.conv cfg yiq).g ≤ 65535) ∧
    (((toU16 (RGB.conv cfg yiq).b : Nat) : Int) = ⌊(RGB.conv cfg yiq).b⌋ ∧
      toU16 (RGB.conv cfg yiq).b ≤ 65535) := by
  have hr : 0 ≤ (RGB.conv cfg yiq).r ∧ (RGB.conv cfg yiq).r ≤ 65535 :=
    clamp_mem _ 0 65535 (by norm_num)
  have hg : 0 ≤ (RGB.conv cfg yiq).g ∧ (RGB.conv cfg yiq).g ≤ 65535 :=
    clamp_mem _ 0 65535 (by norm_num)
  have hb : 0 ≤ (RGB.conv cfg yiq).b ∧ (RGB.conv cfg yiq).b ≤ 65535 :=
    clamp_mem _ 0 65535 (by norm_num)
  exact ⟨hr, hg, hb, toU16_of_mem _ hr.1 hr.2, toU16_of_mem _ hg.1 hg.2,
    toU16_of_mem _ hb.1 hb.2⟩

/-! ## Rounding to `double` -/

theorem roundEven_err (y : ℚ) : |(roundEven y : ℚ) - y| ≤ 1 / 2 := by
  have h1 : (⌊y⌋ : ℚ) ≤ y := Int.floor_le y
  have h2 : y < (⌊y⌋ : ℚ) + 1 := Int.lt_floor_add_one y
  simp only [roundEven]
  split_ifs with a b c
  · rw [abs_le]; constructor <;> linarith
  · rw [abs_le]; push_cast; constructor <;> linarith
  · rw [abs_le]; constructor <;> linarith
  · rw [abs_le]; push_cast; constructor <;> linarith

theorem bitLen_zero (fuel : Nat) : bitLen fuel 0 = 0 := by
  cases fuel <;> simp [bitLen]

/-- With enough fuel `bitLen` is the bit length: `2^(len - 1) ≤ n < 2^len`. -/
theorem bitLen_spec (fuel : Nat) : ∀ n, n ≤ fuel → n ≠ 0 →
    n < 2 ^ bitLen fuel n ∧ 2 ^ bitLen fuel n ≤ 2 * n := by
  induction fuel with
  | zero => intro n h hn; omega
  | succ f ih =>
    intro n h hn
    simp only [bitLen, hn, if_false]
    by_cases h2 : n / 2 = 0
    · rw [h2, bitLen_zero]
      have : n = 1 := by omega
      subst this
      decide
    · obtain ⟨i1, i2⟩ := ih (n / 2) (by omega) h2
      rw [pow_succ]
      constructor <;> omega

/-- The exponent `binExp` finds is the binary exponent. -/
theorem binExp_spec (x : ℚ) (hx : x ≠ 0) :
    (2 : ℚ) ^ binExp x ≤ |x| ∧ |x| < (2 : ℚ) ^ (binExp x + 1) := by
  have hnum : x.num.natAbs ≠ 0 := by
    simpa using (Rat.num_ne_zero.mpr hx)
  have hden : x.den ≠ 0 := x.den_nz
  obtain ⟨p1, p2⟩ := bitLen_spec x.num.natAbs x.num.natAbs (le_refl _) hnum
  obtain ⟨d1, d2⟩ := bitLen_spec x.den x.den (le_refl _) hden
  simp only [binExp]
  generalize bitLen x.num.natAbs x.num.natAbs = a at p1 p2 ⊢
  generalize bitLen x.den x.den = b at d1 d2 ⊢
  have ha1 : ((2 : ℚ) ^ (a : Int)) ≤ 2 * (x.num.natAbs : ℚ) := by
    rw [zpow_natCast]
    exact_mod_cast p2
  have ha2 : (x.num.natAbs : ℚ) < (2 : ℚ) ^ (a : Int) := by
    rw [zpow_natCast]
    exact_mod_cast p1
  have hb1 : ((2 : ℚ) ^ (b : Int)) ≤ 2 * (x.den : ℚ) := by
    rw [zpow_natCast]
    exact_mod_cast d2
  have hb2 : (x.den : ℚ) < (2 : ℚ) ^ (b : Int) := by
    rw [zpow_natCast]
    exact_mod_cast d1
  have hdpos : (0 : ℚ) < (x.den : ℚ) := by exact_mod_cast Nat.pos_of_ne_zero hden
  have habs : |x| = (x.num.natAbs : ℚ) / (x.den : ℚ) := by
    conv_lhs => rw [← Rat.num_div_den x]
    rw [abs_div, abs_of_pos hdpos, Nat.cast_natAbs]
    simp
  have h2 : (0 : ℚ) < 2 := by norm_num
  have h2ne : (2 : ℚ) ≠ 0 := by norm_num
  split_ifs with c
  · refine ⟨c, ?_⟩
    rw [habs, div_lt_iff₀ hdpos]
    have e : (2 : ℚ) ^ ((a : Int) - (b : Int) + 1) * (2 : ℚ) ^ (b : Int) = 2 * (2 : ℚ) ^ (a : Int) := by
      rw [← zpow_add₀ h2ne, show (a : Int) - (b : Int) + 1 + (b : Int) = (a : Int) + 1 by ring,
        zpow_add₀ h2ne, zpow_one]
      ring
    have hpos : (0 : ℚ) < (2 : ℚ) ^ ((a : Int) - (b : Int) + 1) := zpow_pos h2 _
    nlinarith [mul_le_mul_of_nonneg_left hb1 (le_of_lt hpos)]
  · refine ⟨?_, ?_⟩
    · rw [habs, le_div_iff₀ hdpos]
      have e : (2 : ℚ) ^ ((a : Int) - (b : Int) - 1) * (2 : ℚ) ^ (b : Int) = (2 : ℚ) ^ (a : Int) / 2 := by
        rw [← zpow_add₀ h2ne, show (a : Int) - (b : Int) - 1 + (b : Int) = (a : Int) - 1 by ring,
          zpow_sub₀ h2ne, zpow_one]
      have hpos : (0 : ℚ) < (2 : ℚ) ^ ((a : Int) - (b : Int) - 1) := zpow_pos h2 _
      nlinarith [mul_le_mul_of_nonneg_left (le_of_lt hb2) (le_of_lt hpos)]
    · rw [show (a : Int) - (b : Int) - 1 + 1 = (a : Int) - (b : Int) by ring]
      exact not_le.mp c

/-- The standard model of a rounded operation: the relative error of `roundDouble`
is at most 2^-53. -/
theorem roundDouble_err (x : ℚ) : |roundDouble x - x| ≤ |x| / 2 ^ 53 := by
  by_cases hx : x = 0
  · simp [roundDouble, hx]
  · have hlog2 : (2 : ℚ) ^ binExp x ≤ |x| := (binExp_spec x hx).1
    have hq : (0 : ℚ) < (2 : ℚ) ^ (binExp x - 52) := by positivity
    have hr := roundEven_err (x / (2 : ℚ) ^ (binExp x - 52))
    simp only [roundDouble, hx, if_false]
    have e1 : (roundEven (x / (2 : ℚ) ^ (binExp x - 52)) : ℚ) * (2 : ℚ) ^ (binExp x - 52) - x =
        ((roundEven (x / (2 : ℚ) ^ (binExp x - 52)) : ℚ) - x / (2 : ℚ) ^ (binExp x - 52)) *
          (2 : ℚ) ^ (binExp x - 52) := by
      field_simp
    rw [e1, abs_mul, abs_of_pos hq]
    have e2 : (2 : ℚ) ^ (binExp x - 52) = (2 : ℚ) ^ binExp x / 2 ^ 52 := by
      rw [zpow_sub₀ (by norm_num : (2 : ℚ) ≠ 0)]
      norm_num
    calc |(roundEven (x / (2 : ℚ) ^ (binExp x - 52)) : ℚ) - x / (2 : ℚ) ^ (binExp x - 52)| *
            (2 : ℚ) ^ (binExp x - 52)
        ≤ 1 / 2 * (2 : ℚ) ^ (binExp x - 52) :=
          mul_le_mul_of_nonneg_right hr (le_of_lt hq)
      _ = (2 : ℚ) ^ binExp x / 2 ^ 53 := by rw [e2]; ring
      _ ≤ |x| / 2 ^ 53 := div_le_div_of_nonneg_right hlog2 (by positivity)

theorem roundDouble_zero : roundDouble 0 = 0 := by simp [roundDouble]

theorem roundDouble_abs (x B : ℚ) (h : |x| ≤ B) :
    roundDouble x - x ≤ B / 2 ^ 53 ∧ -(B / 2 ^ 53) ≤ roundDouble x - x := by
  have h1 := roundDouble_err x
  have h2 : |x| / 2 ^ 53 ≤ B / 2 ^ 53 := div_le_div_of_nonneg_right h (by positivity)
  have h3 := abs_le.mp (h1.trans h2)
  exact ⟨h3.2, h3.1⟩

/-- The `double` that the literal `327.67` denotes. -/
theorem irescaleD_eq : irescaleD = 5764431601173791 / 17592186044416 := by decide!

/-- In `double` arithmetic the round trip of a level 2..65535 passes the test
`ire <= -60` and ends within 2^-34 of the level, before the conversion to
`uint16_t`. -/
theorem round_trip_near (u : Nat) (h2 : 2 ≤ u) (h3 : u ≤ 65535) :
    -60 < Dbl.u16_to_ire u ∧
    |roundDouble (roundDouble (roundDouble (Dbl.u16_to_ire u + 60) * irescaleD) + irebase) -
      (u : ℚ)| ≤ 1 / 2 ^ 34 := by
  have hu0 : u ≠ 0 := by omega
  have hA1 : (1 : ℚ) ≤ (u : ℚ) - 1 := by
    have : (2 : ℚ) ≤ (u : ℚ) := by exact_mod_cast h2
    linarith
  have hA2 : (u : ℚ) - 1 ≤ 65534 := by
    have : (u : ℚ) ≤ 65535 := by exact_mod_cast h3
    linarith
  simp only [Dbl.u16_to_ire, hu0, if_false, irebase, irescaleD_eq]
  obtain ⟨a1, a2⟩ := roundDouble_abs ((u : ℚ) - 1) 65534 (abs_le.mpr ⟨by linarith, hA2⟩)
  generalize roundDouble ((u : ℚ) - 1) = a at a1 a2 ⊢
  obtain ⟨b1, b2⟩ := roundDouble_abs (a / (5764431601173791 / 17592186044416)) 201
    (abs_le.mpr ⟨by norm_num at a1 a2 ⊢; linarith, by norm_num at a1 a2 ⊢; linarith⟩)
  generalize roundDouble (a / (5764431601173791 / 17592186044416)) = b at b1 b2 ⊢
  obtain ⟨c1, c2⟩ := roundDouble_abs (-60 + b) 262
    (abs_le.mpr ⟨by norm_num at a1 a2 b1 b2 ⊢; linarith, by norm_num at a1 a2 b1 b2 ⊢; linarith⟩)
  generalize roundDouble (-60 + b) = c at c1 c2 ⊢
  obtain ⟨d1, d2⟩ := roundDouble_abs (c + 60) 263
    (abs_le.mpr ⟨by norm_num at a1 a2 b1 b2 c1 c2 ⊢; linarith,
      by norm_num at a1 a2 b1 b2 c1 c2 ⊢; linarith⟩)
  generalize roundDouble (c + 60) = d at d1 d2 ⊢
  obtain ⟨e1, e2⟩ := roundDouble_abs (d * (5764431601173791 / 17592186044416)) 65536
    (abs_le.mpr ⟨by norm_num at a1 a2 b1 b2 c1 c2 d1 d2 ⊢; linarith,
      by norm_num at a1 a2 b1 b2 c1 c2 d1 d2 ⊢; linarith⟩)
  generalize roundDouble (d * (5764431601173791 / 17592186044416)) = e at e1 e2 ⊢
  obtain ⟨g1, g2⟩ := roundDouble_abs (e + 1) 65538
    (abs_le.mpr ⟨by norm_num at a1 a2 b1 b2 c1 c2 d1 d2 e1 e2 ⊢; linarith,
      by norm_num at a1 a2 b1 b2 c1 c2 d1 d2 e1 e2 ⊢; linarith⟩)
  generalize roundDouble (e + 1) = g at g1 g2 ⊢
  constructor
  · norm_num at a1 a2 b1 b2 c1 c2 ⊢; linarith
  · rw [abs_le]
    constructor
    · norm_num at a1 a2 b1 b2 c1 c2 d1 d2 e1 e2 g1 g2 ⊢; linarith
    · norm_num at a1 a2 b1 b2 c1 c2 d1 d2 e1 e2 g1 g2 ⊢; linarith

/-- In `double` arithmetic the round trip of a level 2..65535 returns the level or
the level below it. -/
theorem round_trip_cases (u : Nat) (h2 : 2 ≤ u) (h3 : u ≤ 65535) :
    Dbl.ire_to_u16 (Dbl.u16_to_ire u) = u ∨ Dbl.ire_to_u16 (Dbl.u16_to_ire u) + 1 = u := by
  obtain ⟨hgt, hnear⟩ := round_trip_near u h2 h3
  have hq2 : (2 : ℚ) ≤ (u : ℚ) := by exact_mod_cast h2
  have hq3 : (u : ℚ) ≤ 65535 := by exact_mod_cast h3
  simp only [Dbl.ire_to_u16]
  rw [if_neg (not_le.mpr hgt)]
  generalize roundDouble (roundDouble (roundDouble (Dbl.u16_to_ire u + 60) * irescaleD) +
    irebase) = g at hnear ⊢
  obtain ⟨n1, n2⟩ := abs_le.mp hnear
  have hc1 : (u : ℚ) - 1 / 2 ^ 34 ≤ clamp g 1 65535 ∧ clamp g 1 65535 ≤ (u : ℚ) + 1 / 2 ^ 34 ∧
      1 ≤ clamp g 1 65535 ∧ clamp g 1 65535 ≤ 65535 := by
    simp only [clamp]
    split_ifs with x y
    · norm_num at n1 n2 ⊢; refine ⟨by linarith, by linarith⟩
    · norm_num at n1 n2 ⊢; refine ⟨by linarith, by linarith⟩
    · refine ⟨by linarith, by linarith, not_lt.mp x, not_lt.mp y⟩
  obtain ⟨k1, k2, k3, k4⟩ := hc1
  obtain ⟨hfl, -⟩ := toU16_of_mem (clamp g 1 65535) (by linarith) k4
  have lo : ((u : Int) - 1) ≤ ⌊clamp g 1 65535⌋ := by
    rw [Int.le_floor]
    push_cast
    norm_num at k1 ⊢
    linarith
  have hi : ⌊clamp g 1 65535⌋ < (u : Int) + 1 := by
    rw [Int.floor_lt]
    push_cast
    norm_num at k2 ⊢
    linarith
  rw [← hfl] at lo hi
  omega

/-- C16: in `double` arithmetic, for every 16-bit level u with irebase <= u <= 65535,
`ire_to_u16(u16_to_ire(u))` is u or u - 1, so it differs from u by at most 1; and
`u16_to_ire(0) = -100`. -/
theorem c16_ire_round_trip (u : Nat) (h1 : irebase ≤ (u : ℚ)) (h2 : u ≤ 65535) :
    (Dbl.ire_to_u16 (Dbl.u16_to_ire u) = u ∨ Dbl.ire_to_u16 (Dbl.u16_to_ire u) + 1 = u) ∧
    Int.natAbs ((Dbl.ire_to_u16 (Dbl.u16_to_ire u) : Int) - (u : Int)) ≤ 1 ∧
    Dbl.u16_to_ire 0 = -100 ∧ u16_to_ire 0 = -100 := by
  have hu1 : 1 ≤ u := by
    simp only [irebase] at h1
    exact_mod_cast h1
  have hc : Dbl.ire_to_u16 (Dbl.u16_to_ire u) = u ∨ Dbl.ire_to_u16 (Dbl.u16_to_ire u) + 1 = u := by
    rcases Nat.lt_or_ge u 2 with hlt | hge
    · have hu : u = 1 := by omega
      subst hu
      exact Or.inr (by decide!)
    · exact round_trip_cases u hge h2
  refine ⟨hc, ?_, by simp [Dbl.u16_to_ire], by simp [u16_to_ire]⟩
  rcases hc with h | h
  · rw [h]; simp
  · omega

theorem c16_ire_round_trip_witness :
    (irebase ≤ ((1000 : Nat) : ℚ) ∧ (1000 : Nat) ≤ 65535) ∧
    Dbl.ire_to_u16 (Dbl.u16_to_ire 1000) = 999 ∧
    Int.natAbs ((Dbl.ire_to_u16 (Dbl.u16_to_ire 1000) : Int) - ((1000 : Nat) : Int)) ≤ 1 ∧
    Dbl.ire_to_u16 (Dbl.u16_to_ire 32768) = 32768 ∧
    Dbl.ire_to_u16 (Dbl.u16_to_ire 1) = 0 :=
  ⟨⟨by norm_num [irebase], by decide⟩, by decide!,
    (c16_ire_round_trip 1000 (by norm_num [irebase]) (by decide)).2.1, by decide!, by decide!⟩

end Comb

namespace Comb

/-! ## The weights of `Comb::Split` and the crude sort -/

theorem crudeSort_eq (w : CDV) :
    crudeSort w =
      sortStep (sortStep (sortStep (sortStep (sortStep (sortStep w 0) 1) 0) 1) 0) 1 := by
  simp only [crudeSort, List.range, List.range.loop, List.foldl]

/-- A compare-and-swap keeps the sum of the three confidences and the weighted sum
of the candidates. -/
theorem sortStep_sums (w : CDV) (s2 : Nat) (t : ℚ) :
    (sortStep w s2).v0 + (sortStep w s2).v1 + (sortStep w s2).v2 = w.v0 + w.v1 + w.v2 ∧
    (sortStep w s2).c0 * ((sortStep w s2).v0 / t) + (sortStep w s2).c1 * ((sortStep w s2).v1 / t) +
        (sortStep w s2).c2 * ((sortStep w s2).v2 / t) =
      w.c0 * (w.v0 / t) + w.c1 * (w.v1 / t) + w.c2 * (w.v2 / t) := by
  simp only [sortStep]
  split_ifs
  · exact ⟨by ring, by ring⟩
  · exact ⟨rfl, rfl⟩
  · exact ⟨by ring, by ring⟩
  · exact ⟨rfl, rfl⟩

theorem crudeSort_sums (w : CDV) (t : ℚ) :
    (crudeSort w).v0 + (crudeSort w).v1 + (crudeSort w).v2 = w.v0 + w.v1 + w.v2 ∧
    (crudeSort w).c0 * ((crudeSort w).v0 / t) + (crudeSort w).c1 * ((crudeSort w).v1 / t) +
        (crudeSort w).c2 * ((crudeSort w).v2 / t) =
      w.c0 * (w.v0 / t) + w.c1 * (w.v1 / t) + w.c2 * (w.v2 / t) := by
  rw [crudeSort_eq]
  constructor
  · rw [(sortStep_sums _ 1 t).1, (sortStep_sums _ 0 t).1, (sortStep_sums _ 1 t).1,
      (sortStep_sums _ 0 t).1, (sortStep_sums _ 1 t).1, (sortStep_sums _ 0 t).1]
  · rw [(sortStep_sums _ 1 t).2, (sortStep_sums _ 0 t).2, (sortStep_sums _ 1 t).2,
      (sortStep_sums _ 0 t).2, (sortStep_sums _ 1 t).2, (sortStep_sums _ 0 t).2]

theorem normalize_of_gt (w : CDV) (t : ℚ) (ht : t > 1 / 100) :
    normalize w t = { w with v0 := w.v0 / t, v1 := w.v1 / t, v2 := w.v2 / t } := by
  simp only [normalize]
  rw [if_neg (not_le.mpr ht)]

theorem cavgOf_normalize_of_gt (w : CDV) (t : ℚ) (ht : t > 1 / 100) (ip : Bool) :
    cavgOf (normalize w t) ip =
      if !ip then -((w.c0 * (w.v0 / t) + w.c1 * (w.v1 / t) + w.c2 * (w.v2 / t)) / 2)
      else (w.c0 * (w.v0 / t) + w.c1 * (w.v1 / t) + w.c2 * (w.v2 / t)) / 2 := by
  rw [normalize_of_gt _ _ ht]
  rfl

/-- Without the fallback (`vtot > .01`) the three weights used sum to 1. -/
theorem weights_sum_of_vtot_gt (s : Comb) (dim : Int) (f l h : Nat)
    (hv : vtotOf (gate (candidates s dim f l h)) > 1 / 100) :
    (weights s dim f l h).v0 + (weights s dim f l h).v1 + (weights s dim f l h).v2 = 1 := by
  have hne : vtotOf (gate (candidates s dim f l h)) ≠ 0 := by
    intro h0
    rw [h0] at hv
    norm_num at hv
  simp only [weights]
  rw [normalize_of_gt _ _ hv]
  dsimp only
  rw [← add_div, ← add_div, (crudeSort_sums _ 1).1]
  exact div_self hne

/-- C17 fails at line 100, column 100 of `spotComb` with `dim = 3`: there `vtot` is
1/200, the crude sort moves the 3D confidence 1/200 to index 0, the fallback sets
`v[1] = v[2] = 1` and `vtot = 2`, and the three weights used are 1/400, 1/2 and 1/2,
whose sum is 401/400 and not 1. -/
theorem c17_weights_sum_at_spot :
    vtotOf (gate (candidates spotComb 3 1 100 100)) = 1 / 200 ∧
    (crudeSort (gate (candidates spotComb 3 1 100 100))).v0 = 1 / 200 ∧
    (weights spotComb 3 1 100 100).v0 = 1 / 400 ∧
    (weights spotComb 3 1 100 100).v1 = 1 / 2 ∧
    (weights spotComb 3 1 100 100).v2 = 1 / 2 ∧
    (weights spotComb 3 1 100 100).v0 + (weights spotComb 3 1 100 100).v1 +
      (weights spotComb 3 1 100 100).v2 = 401 / 400 ∧
    (weights spotComb 3 1 100 100).v0 + (weights spotComb 3 1 100 100).v1 +
      (weights spotComb 3 1 100 100).v2 ≠ 1 := by
  decide!

end Comb

namespace Comb

/-! ## What the stages of `Comb::Process` leave alone -/

theorem LPFrame_control (s : Comb) (fnum : Nat) :
    (LPFrame s fnum).rawbuffer = s.rawbuffer ∧ (LPFrame s fnum).framecount = s.framecount ∧
    (LPFrame s fnum).framecode = s.framecode ∧ (LPFrame s fnum).f_oddframe = s.f_oddframe ∧
    (LPFrame s fnum).written = s.written ∧ (LPFrame s fnum).exited = s.exited :=
  ⟨rfl, rfl, rfl, rfl, rfl, rfl⟩

theorem Split_control (cfg : Settings) (s : Comb) (dim : Int) :
    (Split cfg s dim).rawbuffer = s.rawbuffer ∧ (Split cfg s dim).framecount = s.framecount ∧
    (Split cfg s dim).framecode = s.framecode ∧ (Split cfg s dim).f_oddframe = s.f_oddframe ∧
    (Split cfg s dim).written = s.written ∧ (Split cfg s dim).exited = s.exited := by
  refine ⟨?_, ?_, ?_, ?_, ?_, ?_⟩ <;> simp only [Split]

theorem DoCNR_control (cfg : Settings) (s : Comb) :
    (DoCNR cfg s).rawbuffer = s.rawbuffer ∧ (DoCNR cfg s).framecount = s.framecount ∧
    (DoCNR cfg s).framecode = s.framecode ∧ (DoCNR cfg s).f_oddframe = s.f_oddframe ∧
    (DoCNR cfg s).written = s.written ∧ (DoCNR cfg s).exited = s.exited := by
  simp only [DoCNR]
  split
  · exact ⟨rfl, rfl, rfl, rfl, rfl, rfl⟩
  · exact ⟨rfl, rfl, rfl, rfl, rfl, rfl⟩

theorem removeColor_control (s : Comb) (f firstline : Nat) :
    (removeColor s f firstline).rawbuffer = s.rawbuffer ∧
    (removeColor s f firstline).framecount = s.framecount ∧
    (removeColor s f firstline).framecode = s.framecode ∧
    (removeColor s f firstline).f_oddframe = s.f_oddframe ∧
    (removeColor s f firstline).written = s.written ∧
    (removeColor s f firstline).exited = s.exited :=
  ⟨rfl, rfl, rfl, rfl, rfl, rfl⟩

theorem DoYNR_control (cfg : Settings) (s : Comb) :
    (DoYNR cfg s).rawbuffer = s.rawbuffer ∧ (DoYNR cfg s).framecount = s.framecount ∧
    (DoYNR cfg s).framecode = s.framecode ∧ (DoYNR cfg s).f_oddframe = s.f_oddframe ∧
    (DoYNR cfg s).written = s.written ∧ (DoYNR cfg s).exited = s.exited := by
  simp only [DoYNR]
  split
  · exact ⟨rfl, rfl, rfl, rfl, rfl, rfl⟩
  · exact ⟨rfl, rfl, rfl, rfl, rfl, rfl⟩

theorem convertRGB_control (cfg : Settings) (s : Comb) (firstline : Nat) :
    (convertRGB cfg s firstline).rawbuffer = s.rawbuffer ∧
    (convertRGB cfg s firstline).framecount = s.framecount ∧
    (convertRGB cfg s firstline).framecode = s.framecode ∧
    (convertRGB cfg s firstline).f_oddframe = s.f_oddframe ∧
    (convertRGB cfg s firstline).written = s.written ∧
    (convertRGB cfg s firstline).exited = s.exited :=
  ⟨rfl, rfl, rfl, rfl, rfl, rfl⟩

/-- The pixel stages of `Process` between `LPFrame` and `PostProcess`. -/
theorem pixelStages_control (cfg : Settings) (s : Comb) (dim : Int) (f firstline : Nat) :
    ∀ t, t = convertRGB cfg (DoYNR cfg (removeColor (DoCNR cfg (Split cfg s dim)) f firstline))
          firstline →
    t.rawbuffer = s.rawbuffer ∧ t.framecount = s.framecount ∧ t.framecode = s.framecode ∧
    t.f_oddframe = s.f_oddframe ∧ t.written = s.written ∧ t.exited = s.exited := by
  intro t ht
  subst ht
  obtain ⟨a1, a2, a3, a4, a5, a6⟩ := Split_control cfg s dim
  obtain ⟨b1, b2, b3, b4, b5, b6⟩ := DoCNR_control cfg (Split cfg s dim)
  obtain ⟨c1, c2, c3, c4, c5, c6⟩ := removeColor_control (DoCNR cfg (Split cfg s dim)) f firstline
  obtain ⟨d1, d2, d3, d4, d5, d6⟩ :=
    DoYNR_control cfg (removeColor (DoCNR cfg (Split cfg s dim)) f firstline)
  obtain ⟨e1, e2, e3, e4, e5, e6⟩ := convertRGB_control cfg
    (DoYNR cfg (removeColor (DoCNR cfg (Split cfg s dim)) f firstline)) firstline
  exact ⟨e1.trans (d1.trans (c1.trans (b1.trans a1))), e2.trans (d2.trans (c2.trans (b2.trans a2))),
    e3.trans (d3.trans (c3.trans (b3.trans a3))), e4.trans (d4.trans (c4.trans (b4.trans a4))),
    e5.trans (d5.trans (c5.trans (b5.trans a5))), e6.trans (d6.trans (c6.trans (b6.trans a6)))⟩

theorem WriteFrame_control (cfg : Settings) (s : Comb) (obuf : Nat → Nat) (fnum : Int) :
    (WriteFrame cfg s obuf fnum).rawbuffer = s.rawbuffer ∧
    (WriteFrame cfg s obuf fnum).framecount = s.framecount ∧
    (WriteFrame cfg s obuf fnum).written =
      s.written ++ [{ fnum := fnum, data := obuf, samples := 744 * cfg.linesout * 3,
                      ownFile := cfg.image_mode }] := by
  simp only [WriteFrame]
  split
  · exact ⟨rfl, rfl, rfl⟩
  · exact ⟨rfl, rfl, rfl⟩

theorem PostProcess_rawbuffer (cfg : Settings) (s : Comb) (fnum : Nat) :
    (PostProcess cfg s fnum).rawbuffer = s.rawbuffer ∧
    (PostProcess cfg s fnum).framecount = s.framecount := by
  simp only [PostProcess]
  split_ifs <;>
    first
      | exact ⟨rfl, rfl⟩
      | exact ⟨(WriteFrame_control _ _ _ _).1, (WriteFrame_control _ _ _ _).2.1⟩
      | exact ⟨((WriteFrame_control _ _ _ _).1).trans (WriteFrame_control _ _ _ _).1,
          ((WriteFrame_control _ _ _ _).2.1).trans (WriteFrame_control _ _ _ _).2.1⟩

end Comb

namespace Comb

/-! ## `Comb::Process`: ring rotation and warm-up -/

theorem rotate_control (s : Comb) (buffer : Nat → Nat) :
    (rotate s buffer).rawbuffer 0 = buffer ∧ (rotate s buffer).rawbuffer 1 = s.rawbuffer 0 ∧
    (rotate s buffer).rawbuffer 2 = s.rawbuffer 1 ∧
    (rotate s buffer).framecount = s.framecount ∧ (rotate s buffer).framecode = s.framecode ∧
    (rotate s buffer).f_oddframe = s.f_oddframe ∧ (rotate s buffer).written = s.written ∧
    (rotate s buffer).exited = s.exited := by
  refine ⟨?_, ?_, ?_, rfl, rfl, rfl, rfl, rfl⟩ <;> simp [rotate, upd]

/-- With pulldown mode off `PostProcess` writes exactly one frame. -/
theorem PostProcess_written_no_pulldown (cfg : Settings) (s : Comb) (fnum : Nat)
    (hp : cfg.pulldown_mode = false) (hex : s.exited = false) :
    (PostProcess cfg s fnum).written.length = s.written.length + 1 := by
  simp only [PostProcess, hp, hex]
  rw [if_neg (by simp [hex])]
  simp [(WriteFrame_control _ _ _ _).2.2]

theorem emit_control (cfg : Settings) (s : Comb) (dim : Int) :
    (emit cfg s dim).rawbuffer = s.rawbuffer ∧
    (cfg.pulldown_mode = false → s.exited = false →
      (emit cfg s dim).written.length = s.written.length + 1) := by
  simp only [emit]
  generalize (if dim = 3 then 1 else 0) = f
  generalize (if cfg.linesout = 505 then 1 else 26) = firstline
  have hst := pixelStages_control cfg s dim f firstline _ rfl
  have hr := (PostProcess_rawbuffer cfg
    (convertRGB cfg (DoYNR cfg (removeColor (DoCNR cfg (Split cfg s dim)) f firstline))
      firstline) f).1
  constructor
  · split
    · exact hr.trans hst.1
    · exact hr.trans hst.1
  · intro hp hex
    have hw := PostProcess_written_no_pulldown cfg _ f hp (hst.2.2.2.2.2.trans hex)
    rw [hst.2.2.2.2.1] at hw
    split
    · exact hw
    · exact hw

theorem Process_eq (cfg : Settings) (s : Comb) (buffer : Nat → Nat) (dim : Int) :
    Process cfg s buffer dim =
      if dim = 3 ∧ (LPFrame (rotate s buffer) 0).framecount < 2 then
        { LPFrame (rotate s buffer) 0 with
          framecount := (LPFrame (rotate s buffer) 0).framecount + 1 }
      else emit cfg (LPFrame (rotate s buffer) 0) dim := by
  simp only [Process]

/-- The raw frames after a `Process` call are those the six `memcpy` calls leave. -/
theorem Process_rawbuffer (cfg : Settings) (s : Comb) (buffer : Nat → Nat) (dim : Int) :
    (Process cfg s buffer dim).rawbuffer = (rotate s buffer).rawbuffer := by
  rw [Process_eq]
  split
  · rfl
  · rw [(emit_control _ _ _).1]
    rfl

/-- A `Process` call with `dim = 3` while `framecount < 2` writes nothing and counts
the frame. -/
theorem Process_warmup (cfg : Settings) (s : Comb) (buffer : Nat → Nat)
    (h : s.framecount < 2) :
    (Process cfg s buffer 3).written = s.written ∧
    (Process cfg s buffer 3).framecount = s.framecount + 1 ∧
    (Process cfg s buffer 3).exited = s.exited := by
  rw [Process_eq, if_pos ⟨rfl, h⟩]
  exact ⟨rfl, rfl, rfl⟩

/-- With pulldown mode off, a `Process` call past the warm-up writes exactly one
frame. -/
theorem Process_written_no_pulldown (cfg : Settings) (s : Comb) (buffer : Nat → Nat) (dim : Int)
    (hp : cfg.pulldown_mode = false) (hex : s.exited = false)
    (h : ¬ (dim = 3 ∧ s.framecount < 2)) :
    (Process cfg s buffer dim).written.length = s.written.length + 1 := by
  have h2 : ¬ (dim = 3 ∧ (LPFrame (rotate s buffer) 0).framecount < 2) := h
  rw [Process_eq, if_neg h2]
  exact (emit_control cfg _ dim).2 hp hex

end Comb

namespace Comb

/-- C19: after every `Process(buffer, dim)` call, whatever `dim` is and also during
the 3D warm-up, `rawbuffer[0]` is the supplied buffer, `rawbuffer[1]` the previous
`rawbuffer[0]` and `rawbuffer[2]` the previous `rawbuffer[1]`; so after any run of
calls that ends with three calls, the three slots hold the last three supplied
frames, newest first. -/
theorem c19_ring_rotation (cfg : Settings) (s : Comb) (buffer : Nat → Nat) (dim : Int) :
    ((Process cfg s buffer dim).rawbuffer 0 = buffer ∧
      (Process cfg s buffer dim).rawbuffer 1 = s.rawbuffer 0 ∧
      (Process cfg s buffer dim).rawbuffer 2 = s.rawbuffer 1) ∧
    ∀ (earlier : List ((Nat → Nat) × Int)) (b3 b2 b1 : Nat → Nat) (d3 d2 d1 : Int),
      (processAll cfg s (earlier ++ [(b3, d3), (b2, d2), (b1, d1)])).rawbuffer 0 = b1 ∧
      (processAll cfg s (earlier ++ [(b3, d3), (b2, d2), (b1, d1)])).rawbuffer 1 = b2 ∧
      (processAll cfg s (earlier ++ [(b3, d3), (b2, d2), (b1, d1)])).rawbuffer 2 = b3 := by
  have step : ∀ (t : Comb) (b : Nat → Nat) (d : Int),
      (Process cfg t b d).rawbuffer 0 = b ∧ (Process cfg t b d).rawbuffer 1 = t.rawbuffer 0 ∧
      (Process cfg t b d).rawbuffer 2 = t.rawbuffer 1 := by
    intro t b d
    rw [Process_rawbuffer]
    exact ⟨(rotate_control t b).1, (rotate_control t b).2.1, (rotate_control t b).2.2.1⟩
  refine ⟨step s buffer dim, ?_⟩
  intro earlier b3 b2 b1 d3 d2 d1
  simp only [processAll, List.foldl_append, List.foldl_cons, List.foldl_nil]
  obtain ⟨h10, h11, h12⟩ := step
    (Process cfg (Process cfg (List.foldl (fun s c => Process cfg s c.1 c.2) s earlier) b3 d3)
      b2 d2) b1 d1
  obtain ⟨h20, h21, -⟩ := step
    (Process cfg (List.foldl (fun s c => Process cfg s c.1 c.2) s earlier) b3 d3) b2 d2
  obtain ⟨h30, -, -⟩ := step (List.foldl (fun s c => Process cfg s c.1 c.2) s earlier) b3 d3
  exact ⟨h10, h11.trans h20, h12.trans (h21.trans h30)⟩

/-- C20, as the code has it: with `dim = 3` on a freshly constructed `Comb` the first
two `Process` calls write no output frame, whatever the settings; and with pulldown
mode off the third `Process` call writes exactly one. -/
theorem c20_3d_warmup_amended (cfg : Settings)
    (f_colorlp4 f_colorwlp4 f_nr f_nrc f_lpf10h : Deemp.Filter) (b1 b2 b3 : Nat → Nat) :
    (processAll cfg (new f_colorlp4 f_colorwlp4 f_nr f_nrc f_lpf10h) [(b1, 3)]).written = [] ∧
    (processAll cfg (new f_colorlp4 f_colorwlp4 f_nr f_nrc f_lpf10h)
      [(b1, 3), (b2, 3)]).written = [] ∧
    (cfg.pulldown_mode = false →
      (processAll cfg (new f_colorlp4 f_colorwlp4 f_nr f_nrc f_lpf10h)
        [(b1, 3), (b2, 3), (b3, 3)]).written.length = 1) := by
  simp only [processAll, List.foldl_cons, List.foldl_nil]
  obtain ⟨w1, c1, e1⟩ := Process_warmup cfg (new f_colorlp4 f_colorwlp4 f_nr f_nrc f_lpf10h) b1
    (by show (0 : Int) < 2; decide)
  have hc1 : (Process cfg (new f_colorlp4 f_colorwlp4 f_nr f_nrc f_lpf10h) b1 3).framecount = 1 :=
    c1
  obtain ⟨w2, c2, e2⟩ := Process_warmup cfg
    (Process cfg (new f_colorlp4 f_colorwlp4 f_nr f_nrc f_lpf10h) b1 3) b2 (by rw [hc1]; decide)
  refine ⟨w1, w2.trans w1, ?_⟩
  intro hp
  have hc2 : (Process cfg (Process cfg (new f_colorlp4 f_colorwlp4 f_nr f_nrc f_lpf10h) b1 3)
      b2 3).framecount = 2 := by rw [c2, hc1]; rfl
  have hw := Process_written_no_pulldown cfg
    (Process cfg (Process cfg (new f_colorlp4 f_colorwlp4 f_nr f_nrc f_lpf10h) b1 3) b2 3) b3 3
    hp (e2.trans e1) (by rw [hc2]; decide)
  rw [hw, w2, w1]
  rfl

/-- C20, as stated, fails in pulldown mode: three `Process` calls with `dim = 3` on a
freshly constructed `Comb`, each with a blank frame (no white flag, no Philips code),
write no frame at all, the third call included. -/
theorem c20_3d_warmup_counterexample :
    (processAll pulldownSettings freshComb
      [(blankFrame, 3), (blankFrame, 3), (blankFrame, 3)]).written.length = 0 := by
  decide!

end Comb

namespace F2FramesToAudio

/-! ## `reset` and the statistics of the converter -/

/-- C29 fails on the code: `reset()` only calls `resetStatistics()`. On `sampleQueue`
(98 frames and one section queued) the queues are as before, and after a
`processAudio` the one metadata record is still there; only the statistics are
zeroed. -/
theorem c29_reset_keeps_queues :
    (reset sampleQueue).f2FramesIn = sampleQueue.f2FramesIn ∧
    (reset sampleQueue).f2FramesIn.length = 98 ∧
    (reset sampleQueue).sectionsIn.length = 1 ∧
    (reset (processAudio sampleQueue)).qMetaDataVector.length = 1 ∧
    (reset (processAudio sampleQueue)).qMetaModeVector.length = 1 ∧
    (reset (processAudio sampleQueue)).statistics = new.statistics ∧
    (processAudio sampleQueue).statistics.sectionsProcessed = 1 := by
  decide!

theorem sectionToMeta_counters (s : F2FramesToAudio) (sect : Section) :
    (sectionToMeta s sect).2.statistics.encoderRunning =
      s.statistics.encoderRunning + (if encoderRunningOf sect = true then 1 else 0) ∧
    (sectionToMeta s sect).2.statistics.encoderStopped =
      s.statistics.encoderStopped + (if encoderRunningOf sect = true then 0 else 1) ∧
    (sectionToMeta s sect).2.statistics.qMode1Count +
        (sectionToMeta s sect).2.statistics.qMode4Count +
        (sectionToMeta s sect).2.statistics.qModeICount =
      s.statistics.qMode1Count + s.statistics.qMode4Count + s.statistics.qModeICount + 1 := by
  simp only [sectionToMeta, encoderRunningOf]
  split_ifs <;> simp <;> omega

theorem frameStep_counters (m : Metadata) (s : F2FramesToAudio) (i : Nat) :
    (frameStep m s i).statistics.encoderRunning = s.statistics.encoderRunning ∧
    (frameStep m s i).statistics.encoderStopped = s.statistics.encoderStopped ∧
    (frameStep m s i).statistics.qMode1Count = s.statistics.qMode1Count ∧
    (frameStep m s i).statistics.qMode4Count = s.statistics.qMode4Count ∧
    (frameStep m s i).statistics.qModeICount = s.statistics.qModeICount ∧
    (frameStep m s i).statistics.validAudioSamples =
      s.statistics.validAudioSamples +
        (if m.encoderRunning = true ∧ (s.f2FramesIn.getD i default).getDataValid = true
          then 6 else 0) ∧
    (frameStep m s i).statistics.invalidAudioSamples =
      s.statistics.invalidAudioSamples +
        (if m.encoderRunning = true ∧ (s.f2FramesIn.getD i default).getDataValid = false
          then 6 else 0) := by
  simp only [frameStep, write]
  split_ifs <;> simp_all

theorem frameLoop_counters (m : Metadata) (b : Nat) (l : List Nat) (s : F2FramesToAudio) :
    ∀ r, r = l.foldl (fun s j => frameStep m s (b + j)) s →
    r.statistics.encoderRunning = s.statistics.encoderRunning ∧
    r.statistics.encoderStopped = s.statistics.encoderStopped ∧
    r.statistics.qMode1Count = s.statistics.qMode1Count ∧
    r.statistics.qMode4Count = s.statistics.qMode4Count ∧
    r.statistics.qModeICount = s.statistics.qModeICount ∧
    r.statistics.validAudioSamples + r.statistics.invalidAudioSamples =
      s.statistics.validAudioSamples + s.statistics.invalidAudioSamples +
        (if m.encoderRunning = true then 6 * (l.length : Int) else 0) := by
  induction l generalizing s with
  | nil => intro r hr; subst hr; simp
  | cons j l ih =>
    intro r hr
    obtain ⟨h1, h2, h3, h4, h5, h6⟩ := ih (frameStep m s (b + j)) r hr
    obtain ⟨e1, e2, e3, e4, e5, e6, e7⟩ := frameStep_counters m s (b + j)
    refine ⟨h1.trans e1, h2.trans e2, h3.trans e3, h4.trans e4, h5.trans e5, ?_⟩
    rw [h6, e6, e7]
    simp only [List.length_cons, Nat.cast_add, Nat.cast_one]
    generalize (s.f2FramesIn.getD (b + j) default).getDataValid = v
    generalize m.encoderRunning = run
    cases v <;> cases run <;> simp <;> omega

end F2FramesToAudio

namespace F2FramesToAudio

/-- One pass of the section loop on the counters: 588 samples when the section is
running, one more section, one more running or stopped, one more Q mode count. -/
theorem sectionStep_counters (s : F2FramesToAudio) (b k : Nat) :
    (sectionStep (s, b) k).1.statistics.validAudioSamples +
        (sectionStep (s, b) k).1.statistics.invalidAudioSamples =
      s.statistics.validAudioSamples + s.statistics.invalidAudioSamples +
        (if encoderRunningOf (s.sectionsIn.getD k default) = true then 588 else 0) ∧
    (sectionStep (s, b) k).1.statistics.encoderRunning =
      s.statistics.encoderRunning +
        (if encoderRunningOf (s.sectionsIn.getD k default) = true then 1 else 0) ∧
    (sectionStep (s, b) k).1.statistics.encoderStopped =
      s.statistics.encoderStopped +
        (if encoderRunningOf (s.sectionsIn.getD k default) = true then 0 else 1) ∧
    (sectionStep (s, b) k).1.statistics.qMode1Count +
        (sectionStep (s, b) k).1.statistics.qMode4Count +
        (sectionStep (s, b) k).1.statistics.qModeICount =
      s.statistics.qMode1Count + s.statistics.qMode4Count + s.statistics.qModeICount + 1 := by
  obtain ⟨a1, a2, a3⟩ := sectionToMeta_counters s (s.sectionsIn.getD k default)
  obtain ⟨v1, v2⟩ := sectionToMeta_samples s (s.sectionsIn.getD k default)
  have hm := (sectionToMeta_fields s (s.sectionsIn.getD k default)).2.2.2.2.2.2
  obtain ⟨h1, h2, h3, h4, h5, h6⟩ :=
    frameLoop_counters (sectionToMeta s (s.sectionsIn.getD k default)).1 b (List.range 98)
      (sectionToMeta s (s.sectionsIn.getD k default)).2
      (frameLoop (sectionToMeta s (s.sectionsIn.getD k default)).1
        (sectionToMeta s (s.sectionsIn.getD k default)).2 b) (by rw [frameLoop])
  rw [sectionStep_eq]
  dsimp only
  rw [h1, h2, h3, h4, h5, h6, a1, a2, a3, v1, v2, hm]
  refine ⟨?_, rfl, rfl, rfl⟩
  split <;> simp

theorem tally_sectionStep (s : F2FramesToAudio) (b k : Nat) (h : Tally s) :
    Tally (sectionStep (s, b) k).1 := by
  obtain ⟨t1, t2, t3, t4, t5⟩ := h
  obtain ⟨c1, c2, c3, c4⟩ := sectionStep_counters s b k
  obtain ⟨-, -, -, f4, f5, f6, -⟩ := sectionStep_fields s b k
  refine ⟨?_, ?_, ?_, ?_, ?_⟩
  · rw [c1, c2, t1]; split <;> ring
  · rw [f6, c2, c3, t2]; split <;> ring
  · rw [c2, c3, c4, ← t3]; split <;> ring
  · rw [f6, f5, t4]; simp
  · rw [f4, f5]; simp [t5]

theorem tally_sectionLoop (s : F2FramesToAudio) (k : Nat) (h : Tally s) :
    Tally (sectionLoop s k).1 := by
  induction k with
  | zero => exact h
  | succ k ih =>
    have hpair : sectionLoop s k = ((sectionLoop s k).1, (sectionLoop s k).2) := rfl
    rw [sectionLoop_succ, hpair]
    exact tally_sectionStep _ _ _ ih

theorem tally_processAudio (s : F2FramesToAudio) (h : Tally s) : Tally (processAudio s) := by
  have := tally_sectionLoop s (sectionsToProcess s) h
  rw [processAudio_eq]
  exact this

theorem tally_convert (s : F2FramesToAudio) (f2Frames : List F2Frame) (sections : List Section)
    (h : Tally s) : Tally (convert s f2Frames sections) := by
  rw [convert_eq]
  split
  · exact tally_processAudio _ h
  · exact h

theorem tally_convertAll (calls : List (List F2Frame × List Section)) (s : F2FramesToAudio)
    (h : Tally s) : Tally (convertAll s calls) := by
  induction calls generalizing s with
  | nil => exact h
  | cons c rest ih => exact ih _ (tally_convert s c.1 c.2 h)

theorem tally_new : Tally new := by
  simp [Tally, new, reset, resetStatistics]

/-- C30: after any sequence of `convert` calls on a freshly constructed converter,
validAudioSamples + invalidAudioSamples = 588 * encoderRunning, and sectionsProcessed
= encoderRunning + encoderStopped = qMode1Count + qMode4Count + qModeICount = the
number of accumulated metadata records; and each F2 frame of a running section adds 6
to validAudioSamples and nothing to invalidAudioSamples when its data is valid, and
6 to invalidAudioSamples and nothing to validAudioSamples otherwise. -/
theorem c30_statistics_invariant (calls : List (List F2Frame × List Section)) :
    ((convertAll new calls).statistics.validAudioSamples +
        (convertAll new calls).statistics.invalidAudioSamples =
      588 * (convertAll new calls).statistics.encoderRunning ∧
    (convertAll new calls).statistics.sectionsProcessed =
      (convertAll new calls).statistics.encoderRunning +
        (convertAll new calls).statistics.encoderStopped ∧
    (convertAll new calls).statistics.encoderRunning +
        (convertAll new calls).statistics.encoderStopped =
      (convertAll new calls).statistics.qMode1Count +
        (convertAll new calls).statistics.qMode4Count +
        (convertAll new calls).statistics.qModeICount ∧
    (convertAll new calls).statistics.sectionsProcessed =
      ((convertAll new calls).qMetaDataVector.length : Int) ∧
    (convertAll new calls).qMetaModeVector.length =
      (convertAll new calls).qMetaDataVector.length) ∧
    ∀ (m : Metadata) (s : F2FramesToAudio) (i : Nat), m.encoderRunning = true →
      (frameStep m s i).statistics.validAudioSamples =
        s.statistics.validAudioSamples +
          (if (s.f2FramesIn.getD i default).getDataValid = true then 6 else 0) ∧
      (frameStep m s i).statistics.invalidAudioSamples =
        s.statistics.invalidAudioSamples +
          (if (s.f2FramesIn.getD i default).getDataValid = true then 0 else 6) := by
  refine ⟨tally_convertAll calls new tally_new, ?_⟩
  intro m s i hm
  obtain ⟨-, -, -, -, -, e6, e7⟩ := frameStep_counters m s i
  rw [e6, e7]
  generalize (s.f2FramesIn.getD i default).getDataValid = v
  cases v <;> simp [hm]

end F2FramesToAudio

namespace Comb

/-! ## The crude sort orders the triples -/

theorem sortStep_perm (w : CDV) (s2 : Nat) : (sortStep w s2).triples.Perm w.triples := by
  simp only [sortStep]
  split_ifs
  · exact List.Perm.swap _ _ _
  · exact List.Perm.refl _
  · exact List.Perm.cons _ (List.Perm.swap _ _ _)
  · exact List.Perm.refl _

/-- One pass (index 0, then index 1) brings a triple of largest `|c|` to index 2. -/
theorem sortPass_max (w : CDV) :
    |(sortStep (sortStep w 0) 1).c0| ≤ |(sortStep (sortStep w 0) 1).c2| ∧
    |(sortStep (sortStep w 0) 1).c1| ≤ |(sortStep (sortStep w 0) 1).c2| := by
  simp only [sortStep]
  split_ifs <;> simp_all <;> (try constructor) <;> linarith

/-- With a largest `|c|` at index 2, the step at index 0 finishes the order. -/
theorem sortStep_zero_sorted (w : CDV) (h0 : |w.c0| ≤ |w.c2|) (h1 : |w.c1| ≤ |w.c2|) :
    |(sortStep w 0).c0| ≤ |(sortStep w 0).c1| ∧ |(sortStep w 0).c1| ≤ |(sortStep w 0).c2| := by
  simp only [sortStep]
  split_ifs <;> simp_all
  linarith

/-- A step on triples already in order changes nothing. -/
theorem sortStep_of_sorted (w : CDV) (s2 : Nat) (h0 : |w.c0| ≤ |w.c1|) (h1 : |w.c1| ≤ |w.c2|) :
    sortStep w s2 = w := by
  simp only [sortStep]
  split_ifs with a b c
  · exact absurd b (not_lt.mpr h0)
  · rfl
  · exact absurd c (not_lt.mpr h1)
  · rfl

/-- C26: the crude sort of `Comb::Split` leaves the three (c, d, v) triples a
permutation of the triples before the sort, in the order |c[0]| <= |c[1]| <= |c[2]|,
for every input. -/
theorem c26_crude_sort (w : CDV) :
    (crudeSort w).triples.Perm w.triples ∧
    |(crudeSort w).c0| ≤ |(crudeSort w).c1| ∧ |(crudeSort w).c1| ≤ |(crudeSort w).c2| := by
  obtain ⟨m0, m1⟩ := sortPass_max w
  obtain ⟨o0, o1⟩ := sortStep_zero_sorted _ m0 m1
  have e1 : sortStep (sortStep (sortStep (sortStep w 0) 1) 0) 1 =
      sortStep (sortStep (sortStep w 0) 1) 0 := sortStep_of_sorted _ 1 o0 o1
  have e2 : sortStep (sortStep (sortStep (sortStep w 0) 1) 0) 0 =
      sortStep (sortStep (sortStep w 0) 1) 0 := sortStep_of_sorted _ 0 o0 o1
  have hc : crudeSort w = sortStep (sortStep (sortStep w 0) 1) 0 := by
    rw [crudeSort_eq, e1, e2, e1]
  rw [hc]
  exact ⟨((sortStep_perm _ 0).trans (sortStep_perm _ 1)).trans (sortStep_perm _ 0), o0, o1⟩

/-! ## The confidences before the gating -/

/-- C27: for every pixel and every input the confidences v[0], v[1], v[2] computed
before the gating rules each lie in [0, 1]; the value stored in `K3D` for the pixel
is v[2], so it lies in [0, 1], and it is 0 whenever `dim < 3`. -/
theorem c27_confidences (s : Comb) (dim : Int) (f l h : Nat) (st : DemodState) :
    (0 ≤ (candidates s dim f l h).v0 ∧ (candidates s dim f l h).v0 ≤ 1) ∧
    (0 ≤ (candidates s dim f l h).v1 ∧ (candidates s dim f l h).v1 ≤ 1) ∧
    (0 ≤ (candidates s dim f l h).v2 ∧ (candidates s dim f l h).v2 ≤ 1) ∧
    (demodStep s dim f l st h).K3D ((l * 844) + h) = (candidates s dim f l h).v2 ∧
    (0 ≤ (demodStep s dim f l st h).K3D ((l * 844) + h) ∧
      (demodStep s dim f l st h).K3D ((l * 844) + h) ≤ 1) ∧
    (dim < 3 → (demodStep s dim f l st h).K3D ((l * 844) + h) = 0) := by
  have hk : (demodStep s dim f l st h).K3D ((l * 844) + h) = (candidates s dim f l h).v2 := by
    simp [demodStep, upd]
  have h2 : 0 ≤ (candidates s dim f l h).v2 ∧ (candidates s dim f l h).v2 ≤ 1 := by
    simp only [candidates]
    split_ifs
    · exact clamp_mem _ 0 1 (by norm_num)
    · norm_num
  have h1 : 0 ≤ (candidates s dim f l h).v1 ∧ (candidates s dim f l h).v1 ≤ 1 := by
    simp only [candidates]
    split_ifs
    · exact clamp_mem _ 0 1 (by norm_num)
    · norm_num
  have h0 : 0 ≤ (candidates s dim f l h).v0 ∧ (candidates s dim f l h).v0 ≤ 1 := by
    simp only [candidates]
    split_ifs
    · have := clamp_mem
        (|(|(((s.rawbuffer f (l * 844 + (h - 2)) : ℚ) - (s.rawbuffer f (l * 844 + h) : ℚ)) -
            ((s.rawbuffer f (l * 844 + (h + 2)) : ℚ) - (s.rawbuffer f (l * 844 + h) : ℚ)))|)| /
          |((((s.rawbuffer f (l * 844 + (h + 2)) + s.rawbuffer f (l * 844 + (h - 2))) / 2 : Nat)
            : ℚ) - (s.rawbuffer f (l * 844 + h) : ℚ))| * 1) 0 1 (by norm_num)
      constructor <;> linarith [this.1, this.2]
    · norm_num
  refine ⟨h0, h1, h2, hk, by rw [hk]; exact h2, ?_⟩
  intro hd
  rw [hk]
  simp only [candidates]
  rw [if_neg (by omega)]

/-! ## The demodulation loop of a line -/

theorem demodLoop_succ (s : Comb) (dim : Int) (f l : Nat) (st : SplitState) (n : Nat) :
    demodLoop s dim f l st (n + 1) = demodStep s dim f l (demodLoop s dim f l st n) (4 + n) := by
  simp [demodLoop, List.range'_concat, List.foldl_append]

theorem demodStep_cbuf_other (s : Comb) (dim : Int) (f l : Nat) (a : DemodState) (h j : Nat)
    (hj : j ≠ l * 910 + h) : (demodStep s dim f l a h).cbuf j = a.cbuf j := by
  simp [demodStep, upd, hj]

theorem demodStep_cbuf_self (s : Comb) (dim : Int) (f l : Nat) (a : DemodState) (h : Nat) :
    (demodStep s dim f l a h).cbuf (l * 910 + h) =
      { y := (s.rawbuffer f ((l * 844) + h) : ℚ)
        i := (demodStep s dim f l a h).si
        q := (demodStep s dim f l a h).sq } := by
  simp [demodStep, upd]

/-- What the loop has stored for a column it has passed stays as it is. -/
theorem demodLoop_cbuf_stable (s : Comb) (dim : Int) (f l : Nat) (st : SplitState) (n m h : Nat)
    (hnm : n ≤ m) (hh : h < 4 + n) :
    (demodLoop s dim f l st m).cbuf (l * 910 + h) =
      (demodLoop s dim f l st n).cbuf (l * 910 + h) := by
  induction m, hnm using Nat.le_induction with
  | base => rfl
  | succ m hm ih =>
    rw [demodLoop_succ, demodStep_cbuf_other _ _ _ _ _ _ _ (by omega), ih]

/-- The pair stored at column `4 + n` before the chroma low-pass is the `(si, sq)` of
the loop right after that column. -/
theorem demodLoop_stored (s : Comb) (dim : Int) (f l : Nat) (st : SplitState) (n m : Nat)
    (hnm : n < m) :
    (demodLoop s dim f l st m).cbuf (l * 910 + (4 + n)) =
      { y := (s.rawbuffer f ((l * 844) + (4 + n)) : ℚ)
        i := (demodLoop s dim f l st (n + 1)).si
        q := (demodLoop s dim f l st (n + 1)).sq } := by
  rw [demodLoop_cbuf_stable s dim f l st (n + 1) m (4 + n) (by omega) (by omega), demodLoop_succ,
    demodStep_cbuf_self]

theorem demodStep_si_sq (s : Comb) (dim : Int) (f l : Nat) (a : DemodState) (h : Nat) :
    (demodStep s dim f l a h).si =
      (if h % 4 = 0 then cavgAt s dim f l h else if h % 4 = 2 then -cavgAt s dim f l h
        else a.si) ∧
    (demodStep s dim f l a h).sq =
      (if h % 4 = 1 then -cavgAt s dim f l h else if h % 4 = 3 then cavgAt s dim f l h
        else a.sq) := ⟨rfl, rfl⟩

/-- C28: within a line `si` and `sq` start at 0; at a column h with h mod 4 = 0 or 2
only `si` is rewritten (to cavg, respectively -cavg) and `sq` keeps the value it had
after column h - 1; at h mod 4 = 1 or 3 only `sq` is rewritten (to -cavg, respectively
cavg) and `si` keeps its value; and the pair stored at column h before the chroma
low-pass is the `(si, sq)` right after column h. -/
theorem c28_sample_and_hold (cfg : Settings) (s : Comb) (dim : Int) (f l : Nat)
    (st : SplitState) :
    ((demodLoop s dim f l st 0).si = 0 ∧ (demodLoop s dim f l st 0).sq = 0) ∧
    (∀ n,
      ((4 + n) % 4 = 0 →
        (demodLoop s dim f l st (n + 1)).si = cavgAt s dim f l (4 + n) ∧
        (demodLoop s dim f l st (n + 1)).sq = (demodLoop s dim f l st n).sq) ∧
      ((4 + n) % 4 = 2 →
        (demodLoop s dim f l st (n + 1)).si = -cavgAt s dim f l (4 + n) ∧
        (demodLoop s dim f l st (n + 1)).sq = (demodLoop s dim f l st n).sq) ∧
      ((4 + n) % 4 = 1 →
        (demodLoop s dim f l st (n + 1)).sq = -cavgAt s dim f l (4 + n) ∧
        (demodLoop s dim f l st (n + 1)).si = (demodLoop s dim f l st n).si) ∧
      ((4 + n) % 4 = 3 →
        (demodLoop s dim f l st (n + 1)).sq = cavgAt s dim f l (4 + n) ∧
        (demodLoop s dim f l st (n + 1)).si = (demodLoop s dim f l st n).si)) ∧
    (∀ n, n < 836 →
      (demodLoop s dim f l st 836).cbuf (l * 910 + (4 + n)) =
        { y := (s.rawbuffer f ((l * 844) + (4 + n)) : ℚ)
          i := (demodLoop s dim f l st (n + 1)).si
          q := (demodLoop s dim f l st (n + 1)).sq }) ∧
    splitLine cfg s dim f st l =
      (List.range' 4 836).foldl (chromaStep cfg l)
        { st with cbuf := (demodLoop s dim f l st 836).cbuf
                  K3D := (demodLoop s dim f l st 836).K3D } := by
  refine ⟨⟨rfl, rfl⟩, ?_, fun n hn => demodLoop_stored s dim f l st n 836 hn, ?_⟩
  · intro n
    obtain ⟨hsi, hsq⟩ := demodStep_si_sq s dim f l (demodLoop s dim f l st n) (4 + n)
    rw [demodLoop_succ, hsi, hsq]
    refine ⟨fun h => ?_, fun h => ?_, fun h => ?_, fun h => ?_⟩ <;>
      (split_ifs <;> first | exact ⟨rfl, rfl⟩ | omega)
  · simp only [splitLine, demodLoop]

/-! ## The phase sentinel -/

/-- The candidates at a column 3..843 do not read column 0 of the line. -/
theorem candidates_congr (s t : Comb) (dim : Int) (f l h : Nat) (hlp : t.LPraw = s.LPraw)
    (hraw : ∀ k i, ¬ (k = f ∧ i = l * 844) → t.rawbuffer k i = s.rawbuffer k i)
    (h3 : 3 ≤ h) (h844 : h < 844) : candidates t dim f l h = candidates s dim f l h := by
  have a : ∀ k x, 1 ≤ x → t.rawbuffer k ((l * 844) + x) = s.rawbuffer k ((l * 844) + x) :=
    fun k x hx => hraw _ _ (by rintro ⟨-, e⟩; omega)
  have b : t.rawbuffer f (((l - 2) * 844) + h) = s.rawbuffer f (((l - 2) * 844) + h) :=
    hraw _ _ (by rintro ⟨-, e⟩; omega)
  have c : t.rawbuffer f (((l + 2) * 844) + h) = s.rawbuffer f (((l + 2) * 844) + h) :=
    hraw _ _ (by rintro ⟨-, e⟩; omega)
  simp only [candidates, hlp, a _ h (by omega), a _ (h + 2) (by omega), a _ (h - 2) (by omega),
    b, c]

theorem cavgAt_eq (t : Comb) (dim : Int) (f l h : Nat) :
    cavgAt t dim f l h =
      if t.rawbuffer f (l * 844) = 16384 then
        ((weights t dim f l h).c0 * (weights t dim f l h).v0 +
          (weights t dim f l h).c1 * (weights t dim f l h).v1 +
          (weights t dim f l h).c2 * (weights t dim f l h).v2) / 2
      else
        -(((weights t dim f l h).c0 * (weights t dim f l h).v0 +
          (weights t dim f l h).c1 * (weights t dim f l h).v1 +
          (weights t dim f l h).c2 * (weights t dim f l h).v2) / 2) := by
  simp only [cavgAt, cavgOf]
  by_cases e : t.rawbuffer f (l * 844) = 16384
  · simp [e]
  · simp [e]

theorem cavgAt_neg (s t : Comb) (dim : Int) (f l h : Nat)
    (hmark : s.rawbuffer f (l * 844) = 16384) (hother : t.rawbuffer f (l * 844) ≠ 16384)
    (hraw : ∀ k i, ¬ (k = f ∧ i = l * 844) → t.rawbuffer k i = s.rawbuffer k i)
    (hlp : t.LPraw = s.LPraw) (h3 : 3 ≤ h) (h844 : h < 844) :
    cavgAt t dim f l h = -cavgAt s dim f l h := by
  have w : weights t dim f l h = weights s dim f l h := by
    simp only [weights, candidates_congr s t dim f l h hlp hraw h3 h844]
  rw [cavgAt_eq, cavgAt_eq, if_pos hmark, if_neg hother, w]

theorem demodLoop_neg (s t : Comb) (dim : Int) (f l : Nat) (st st2 : SplitState)
    (hmark : s.rawbuffer f (l * 844) = 16384) (hother : t.rawbuffer f (l * 844) ≠ 16384)
    (hraw : ∀ k i, ¬ (k = f ∧ i = l * 844) → t.rawbuffer k i = s.rawbuffer k i)
    (hlp : t.LPraw = s.LPraw) (n : Nat) (hn : n ≤ 836) :
    (demodLoop t dim f l st2 n).si = -(demodLoop s dim f l st n).si ∧
    (demodLoop t dim f l st2 n).sq = -(demodLoop s dim f l st n).sq := by
  induction n with
  | zero => exact ⟨by simp [demodLoop], by simp [demodLoop]⟩
  | succ n ih =>
    obtain ⟨i1, i2⟩ := ih (by omega)
    obtain ⟨a1, a2⟩ := demodStep_si_sq s dim f l (demodLoop s dim f l st n) (4 + n)
    obtain ⟨b1, b2⟩ := demodStep_si_sq t dim f l (demodLoop t dim f l st2 n) (4 + n)
    have c := cavgAt_neg s t dim f l (4 + n) hmark hother hraw hlp (by omega) (by omega)
    rw [demodLoop_succ, demodLoop_succ, a1, a2, b1, b2, c, i1, i2]
    constructor <;> split_ifs <;> simp

/-- C24: `cavg` is negated exactly when column 0 of the line is not 16384; so for two
inputs that agree everywhere except that column 0 of line `l` of the current frame is
16384 in one and another value in the other, the `(si, sq)` stored at every column
4..839 of the line before the chroma low-pass are negatives of each other. -/
theorem c24_phase_sentinel (s t : Comb) (dim : Int) (f l : Nat) (st st2 : SplitState)
    (hmark : s.rawbuffer f (l * 844) = 16384) (hother : t.rawbuffer f (l * 844) ≠ 16384)
    (hraw : ∀ k i, ¬ (k = f ∧ i = l * 844) → t.rawbuffer k i = s.rawbuffer k i)
    (hlp : t.LPraw = s.LPraw) :
    (∀ (u : Comb) (h : Nat),
      cavgAt u dim f l h =
        if u.rawbuffer f (l * 844) = 16384 then
          ((weights u dim f l h).c0 * (weights u dim f l h).v0 +
            (weights u dim f l h).c1 * (weights u dim f l h).v1 +
            (weights u dim f l h).c2 * (weights u dim f l h).v2) / 2
        else
          -(((weights u dim f l h).c0 * (weights u dim f l h).v0 +
            (weights u dim f l h).c1 * (weights u dim f l h).v1 +
            (weights u dim f l h).c2 * (weights u dim f l h).v2) / 2)) ∧
    (∀ h, 4 ≤ h → h ≤ 839 →
      cavgAt t dim f l h = -cavgAt s dim f l h ∧
      ((demodLoop t dim f l st2 836).cbuf (l * 910 + h)).i =
        -((demodLoop s dim f l st 836).cbuf (l * 910 + h)).i ∧
      ((demodLoop t dim f l st2 836).cbuf (l * 910 + h)).q =
        -((demodLoop s dim f l st 836).cbuf (l * 910 + h)).q) := by
  refine ⟨fun u h => cavgAt_eq u dim f l h, ?_⟩
  intro h h4 h839
  obtain ⟨n, rfl⟩ : ∃ n, h = 4 + n := ⟨h - 4, by omega⟩
  obtain ⟨e1, e2⟩ := demodLoop_neg s t dim f l st st2 hmark hother hraw hlp (n + 1) (by omega)
  refine ⟨cavgAt_neg s t dim f l (4 + n) hmark hother hraw hlp (by omega) (by omega), ?_, ?_⟩
  · rw [demodLoop_stored s dim f l st n 836 (by omega),
      demodLoop_stored t dim f l st2 n 836 (by omega)]
    exact e1
  · rw [demodLoop_stored s dim f l st n 836 (by omega),
      demodLoop_stored t dim f l st2 n 836 (by omega)]
    exact e2

theorem c24_phase_sentinel_witness :
    markedComb.rawbuffer 0 (100 * 844) = 16384 ∧ spotComb.rawbuffer 0 (100 * 844) ≠ 16384 ∧
    cavgAt spotComb 1 0 100 100 = -cavgAt markedComb 1 0 100 100 ∧
    ((demodLoop spotComb 1 0 100 (splitStart spotComb) 836).cbuf (100 * 910 + 103)).i =
      -((demodLoop markedComb 1 0 100 (splitStart markedComb) 836).cbuf (100 * 910 + 103)).i ∧
    ((demodLoop spotComb 1 0 100 (splitStart spotComb) 836).cbuf (100 * 910 + 103)).q =
      -((demodLoop markedComb 1 0 100 (splitStart markedComb) 836).cbuf (100 * 910 + 103)).q ∧
    cavgAt markedComb 1 0 100 100 = 1 / 2 :=
  ⟨by decide, by decide,
    ((c24_phase_sentinel markedComb spotComb 1 0 100 (splitStart markedComb)
      (splitStart spotComb) (by decide) (by decide)
      (fun k i hne => by
        show spotFrame i = (if k = 0 ∧ i = 100 * 844 then 16384 else spotFrame i)
        rw [if_neg hne])
      rfl).2 100 (by decide) (by decide)).1,
    ((c24_phase_sentinel markedComb spotComb 1 0 100 (splitStart markedComb)
      (splitStart spotComb) (by decide) (by decide)
      (fun k i hne => by
        show spotFrame i = (if k = 0 ∧ i = 100 * 844 then 16384 else spotFrame i)
        rw [if_neg hne])
      rfl).2 103 (by decide) (by decide)).2.1,
    ((c24_phase_sentinel markedComb spotComb 1 0 100 (splitStart markedComb)
      (splitStart spotComb) (by decide) (by decide)
      (fun k i hne => by
        show spotFrame i = (if k = 0 ∧ i = 100 * 844 then 16384 else spotFrame i)
        rw [if_neg hne])
      rfl).2 103 (by decide) (by decide)).2.2,
    by decide!⟩

/-! ## Constant raw frames carry no chroma -/

theorem candidates_const (s : Comb) (g : Nat) (hconst : ∀ k i, s.rawbuffer k i = g)
    (dim : Int) (f l h : Nat) :
    (candidates s dim f l h).c0 = 0 ∧ (candidates s dim f l h).c1 = 0 ∧
    (candidates s dim f l h).c2 = 0 := by
  have e : (g + g) / 2 = g := by omega
  simp only [candidates, hconst, e]
  refine ⟨by simp, ?_, ?_⟩
  · split_ifs <;> simp
  · split_ifs <;> simp

theorem gate_c (w : CDV) :
    (gate w).c0 = w.c0 ∧ (gate w).c1 = w.c1 ∧ (gate w).c2 = w.c2 := by
  simp only [gate]
  split_ifs <;> exact ⟨rfl, rfl, rfl⟩

theorem normalize_c (w : CDV) (vtot : ℚ) :
    (normalize w vtot).c0 = w.c0 ∧ (normalize w vtot).c1 = w.c1 ∧
    (normalize w vtot).c2 = w.c2 := by
  simp only [normalize]
  split_ifs <;> exact ⟨rfl, rfl, rfl⟩

theorem crudeSort_of_sorted (w : CDV) (h0 : |w.c0| ≤ |w.c1|) (h1 : |w.c1| ≤ |w.c2|) :
    crudeSort w = w := by
  rw [crudeSort_eq]
  simp only [sortStep_of_sorted w _ h0 h1]

theorem weights_const (s : Comb) (g : Nat) (hconst : ∀ k i, s.rawbuffer k i = g)
    (dim : Int) (f l h : Nat) :
    (weights s dim f l h).c0 = 0 ∧ (weights s dim f l h).c1 = 0 ∧
    (weights s dim f l h).c2 = 0 := by
  obtain ⟨a0, a1, a2⟩ := candidates_const s g hconst dim f l h
  obtain ⟨b0, b1, b2⟩ := gate_c (candidates s dim f l h)
  rw [a0] at b0
  rw [a1] at b1
  rw [a2] at b2
  have hs : crudeSort (gate (candidates s dim f l h)) = gate (candidates s dim f l h) :=
    crudeSort_of_sorted _ (by rw [b0, b1]) (by rw [b1, b2])
  obtain ⟨c0, c1, c2⟩ := normalize_c (gate (candidates s dim f l h))
    (vtotOf (gate (candidates s dim f l h)))
  simp only [weights, hs]
  exact ⟨c0.trans b0, c1.trans b1, c2.trans b2⟩

theorem cavgAt_const (s : Comb) (g : Nat) (hconst : ∀ k i, s.rawbuffer k i = g)
    (dim : Int) (f l h : Nat) : cavgAt s dim f l h = 0 := by
  obtain ⟨a0, a1, a2⟩ := weights_const s g hconst dim f l h
  rw [cavgAt_eq, a0, a1, a2]
  simp

theorem demodLoop_const (s : Comb) (g : Nat) (hconst : ∀ k i, s.rawbuffer k i = g)
    (dim : Int) (f l : Nat) (st : SplitState) (n : Nat) :
    (demodLoop s dim f l st n).si = 0 ∧ (demodLoop s dim f l st n).sq = 0 := by
  induction n with
  | zero => exact ⟨rfl, rfl⟩
  | succ n ih =>
    obtain ⟨a1, a2⟩ := demodStep_si_sq s dim f l (demodLoop s dim f l st n) (4 + n)
    rw [demodLoop_succ, a1, a2, cavgAt_const s g hconst, ih.1, ih.2]
    simp

/-- C25: when every sample of the three raw frames has the same value, then for every
`dim`, every line and every column the candidates c[0], c[1], c[2] are 0 and `cavg`
is 0, and the `(si, sq)` stored at the columns 4..839 before the chroma low-pass are
both 0, whatever the low-passed frames contain. -/
theorem c25_constant_gray (s : Comb) (g : Nat) (hconst : ∀ k i, s.rawbuffer k i = g)
    (dim : Int) (f l : Nat) (st : SplitState) :
    (∀ h, (candidates s dim f l h).c0 = 0 ∧ (candidates s dim f l h).c1 = 0 ∧
      (candidates s dim f l h).c2 = 0 ∧ cavgAt s dim f l h = 0) ∧
    (∀ h, 4 ≤ h → h ≤ 839 →
      ((demodLoop s dim f l st 836).cbuf (l * 910 + h)).i = 0 ∧
      ((demodLoop s dim f l st 836).cbuf (l * 910 + h)).q = 0) := by
  constructor
  · intro h
    obtain ⟨a0, a1, a2⟩ := candidates_const s g hconst dim f l h
    exact ⟨a0, a1, a2, cavgAt_const s g hconst dim f l h⟩
  · intro h h4 h839
    obtain ⟨n, rfl⟩ : ∃ n, h = 4 + n := ⟨h - 4, by omega⟩
    rw [demodLoop_stored s dim f l st n 836 (by omega)]
    exact demodLoop_const s g hconst dim f l st (n + 1)

theorem c25_constant_gray_witness :
    (∀ k i, grayComb.rawbuffer k i = 32768) ∧
    (candidates grayComb 3 1 100 100).c2 = 0 ∧ cavgAt grayComb 3 1 100 100 = 0 ∧
    ((demodLoop grayComb 3 1 100 (splitStart grayComb) 836).cbuf (100 * 910 + 100)).i = 0 ∧
    ((demodLoop grayComb 3 1 100 (splitStart grayComb) 836).cbuf (100 * 910 + 100)).q = 0 :=
  ⟨fun _ _ => rfl,
    ((c25_constant_gray grayComb 32768 (fun _ _ => rfl) 3 1 100 (splitStart grayComb)).1
      100).2.2.1,
    ((c25_constant_gray grayComb 32768 (fun _ _ => rfl) 3 1 100 (splitStart grayComb)).1
      100).2.2.2,
    (c25_constant_gray grayComb 32768 (fun _ _ => rfl) 3 1 100 (splitStart grayComb)).2
      100 (by decide) (by decide)⟩

/-! ## Masks and nibbles -/

theorem and_shiftLeft_eq (a b n : Nat) : a &&& (b <<< n) = ((a >>> n) &&& b) <<< n := by
  apply Nat.eq_of_testBit_eq
  intro i
  simp only [Nat.testBit_and, Nat.testBit_shiftLeft, Nat.testBit_shiftRight]
  by_cases h : n ≤ i
  · have e : n + (i - n) = i := by omega
    simp [h, e]
  · simp [h]

theorem and_nibble (x n : Nat) : x &&& (15 <<< n) = (x / 2 ^ n % 16) * 2 ^ n := by
  rw [and_shiftLeft_eq, Nat.shiftLeft_eq, Nat.shiftRight_eq_div_pow]
  congr 1
  exact Nat.and_pow_two_sub_one_eq_mod _ 4

theorem nibble_shift (x n : Nat) : (x &&& (15 <<< n)) >>> n = x / 2 ^ n % 16 := by
  rw [and_nibble, Nat.shiftRight_eq_div_pow, Nat.mul_div_cancel _ (by positivity)]

/-- The acceptance test `(code & 0xf00000) == 0xf00000` reads the nibble of the bits
20..23. -/
theorem top_nibble (x : Nat) : (x &&& 0xf00000) = 0xf00000 ↔ x / 0x100000 % 16 = 15 := by
  rw [show (0xf00000 : Nat) = 15 <<< 20 from by decide, and_nibble]
  norm_num
  omega

/-! ## The Philips code loop of `PostProcess` -/

theorem philipsStep_eq (s : Comb) (fnum : Nat) (st : Int × Int) (line code : Nat)
    (hcode : ReadPhillipsCode (fun x => s.rawbuffer fnum (line * 844 + x)) = code) :
    philipsStep s fnum st line =
      if code / 0x100000 % 16 = 15 ∧ code < 0xff0000 then
        ((if code % 16 + code / 16 % 16 * 10 + code / 256 % 16 * 100 + code / 4096 % 16 * 1000 +
              code / 65536 % 16 * 10000 > 80000 then
            ((code % 16 + code / 16 % 16 * 10 + code / 256 % 16 * 100 + code / 4096 % 16 * 1000 +
              code / 65536 % 16 * 10000 : Nat) : Int) - 80000
          else
            ((code % 16 + code / 16 % 16 * 10 + code / 256 % 16 * 100 + code / 4096 % 16 * 1000 +
              code / 65536 % 16 * 10000 : Nat) : Int)),
          ((line % 2 : Nat) : Int))
      else st := by
  have n0 : code &&& 0x0f = code % 16 := Nat.and_pow_two_sub_one_eq_mod code 4
  have n1 : (code &&& 0x000f0) >>> 4 = code / 16 % 16 := nibble_shift code 4
  have n2 : (code &&& 0x00f00) >>> 8 = code / 256 % 16 := nibble_shift code 8
  have n3 : (code &&& 0x0f000) >>> 12 = code / 4096 % 16 := nibble_shift code 12
  have n4 : (code &&& 0xf0000) >>> 16 = code / 65536 % 16 := nibble_shift code 16
  simp only [philipsStep, hcode, n0, n1, n2, n3, n4, top_nibble]

theorem PostProcess_split (cfg : Settings) (s : Comb) (fnum : Nat) :
    PostProcess cfg s fnum =
      if (flushOdd cfg s).1.exited then (flushOdd cfg s).1
      else scanWrite cfg (flushOdd cfg s).1 (flushOdd cfg s).2 fnum := rfl

theorem WriteFrame_framecode (cfg : Settings) (s : Comb) (obuf : Nat → Nat) (fnum : Int) :
    (WriteFrame cfg s obuf fnum).framecode = s.framecode := by
  simp only [WriteFrame]
  split <;> rfl

theorem WriteFrame_exited (cfg : Settings) (s : Comb) (obuf : Nat → Nat) (fnum : Int)
    (h : cfg.f_oneframe = false) : (WriteFrame cfg s obuf fnum).exited = s.exited := by
  simp [WriteFrame, h]

theorem philipsStep_congr (s t : Comb) (fnum : Nat) (hr : t.rawbuffer = s.rawbuffer) :
    philipsStep t fnum = philipsStep s fnum := by
  funext st line
  simp only [philipsStep, hr]

theorem whiteFlag_congr (s t : Comb) (fnum : Nat) (fstart : Int)
    (hr : t.rawbuffer = s.rawbuffer) : whiteFlag t fnum fstart = whiteFlag s fnum fstart := by
  simp only [whiteFlag, hr]

/-- Unless the pending odd frame is written with `f_oneframe` set, the opening of
`PostProcess` leaves the program running, the raw frames and the frame code alone. -/
theorem flushOdd_control (cfg : Settings) (s : Comb) (hex : s.exited = false)
    (hcfg : cfg.pulldown_mode = false ∨ cfg.f_oneframe = false) :
    (flushOdd cfg s).1.exited = false ∧ (flushOdd cfg s).1.rawbuffer = s.rawbuffer ∧
    (flushOdd cfg s).1.framecode = s.framecode ∧
    (flushOdd cfg s).2 = (if cfg.pulldown_mode then -1 else 0) := by
  by_cases hp : cfg.pulldown_mode = true
  · have hone : cfg.f_oneframe = false := by
      rcases hcfg with h | h
      · rw [hp] at h; cases h
      · exact h
    by_cases ho : s.f_oddframe = true
    · simp [flushOdd, hp, ho, WriteFrame, hone, hex]
    · simp [flushOdd, hp, ho, hex]
  · simp [flushOdd, hp, hex]

theorem scanWrite_framecode (cfg : Settings) (s : Comb) (fstart : Int) (fnum : Nat) :
    (scanWrite cfg s fstart fnum).framecode =
      ((List.range' 16 4).foldl (philipsStep s fnum) (s.framecode, whiteFlag s fnum fstart)).1 := by
  simp only [scanWrite]
  split_ifs
  · exact WriteFrame_framecode _ _ _ _
  · rfl
  · rfl

/-- The frame code `PostProcess` leaves is that of the loop over the VBI lines
16..19. -/
theorem PostProcess_framecode (cfg : Settings) (s : Comb) (fnum : Nat)
    (hex : s.exited = false) (hcfg : cfg.pulldown_mode = false ∨ cfg.f_oneframe = false) :
    (PostProcess cfg s fnum).framecode =
      ((List.range' 16 4).foldl (philipsStep s fnum)
        (s.framecode, whiteFlag s fnum (if cfg.pulldown_mode then -1 else 0))).1 := by
  obtain ⟨h1, h2, h3, h4⟩ := flushOdd_control cfg s hex hcfg
  rw [PostProcess_split, h1, if_neg (by decide), scanWrite_framecode, h3, h4,
    philipsStep_congr s _ fnum h2, whiteFlag_congr s _ fnum _ h2]

theorem philipsStep_rejected (s : Comb) (fnum : Nat) (st : Int × Int) (line : Nat)
    (h : ¬ (ReadPhillipsCode (fun x => s.rawbuffer fnum (line * 844 + x)) / 0x100000 % 16 = 15 ∧
      ReadPhillipsCode (fun x => s.rawbuffer fnum (line * 844 + x)) < 0xff0000)) :
    philipsStep s fnum st line = st := by
  rw [philipsStep_eq s fnum st line _ rfl, if_neg h]

/-- Without a sample above 90 IRE in the columns 70..139 no first bit is found and
`ReadPhillipsCode` returns 0. -/
theorem ReadPhillipsCode_no_first_bit (line : Nat → Nat)
    (h : ∀ i, 70 ≤ i → i < 140 → u16_to_ire (line i) ≤ 90) : ReadPhillipsCode line = 0 := by
  have hf : ∀ (l : List Nat), (∀ i ∈ l, u16_to_ire (line i) ≤ 90) →
      l.foldl (fun (fb : Int) (i : Nat) =>
        if fb = -1 ∧ u16_to_ire (line i) > 90 then truncInt ((i : ℚ) - (1 * dots_usec)) else fb)
        (-1) = -1 := by
    intro l
    induction l with
    | nil => intro _; rfl
    | cons a l ih =>
      intro hl
      rw [List.foldl_cons, if_neg (fun c => absurd c.2 (not_lt.mpr (hl a (List.mem_cons_self a l))))]
      exact ih (fun i hi => hl i (List.mem_cons_of_mem a hi))
  have hr := hf (List.range' 70 70) (fun i hi => by
    rw [List.mem_range'_1] at hi
    exact h i hi.1 (by omega))
  simp only [ReadPhillipsCode, hr]
  rfl

/-- C22, as the code has it: for an accepted code (top nibble 0xf, code < 0xff0000) on
a VBI line the loop body sets `framecode` to the decimal number N made of the five low
nibbles, d4*10000 + d3*1000 + d2*100 + d1*10 + d0, less 80000 when N > 80000, and
`fstart` to the parity of the line; and the frame code `PostProcess` leaves is that of
the loop over the lines 16..19, so that of the last line with an accepted code. -/
theorem c22_philips_bcd_amended (cfg : Settings) (s : Comb) (fnum : Nat)
    (hex : s.exited = false) (hcfg : cfg.pulldown_mode = false ∨ cfg.f_oneframe = false) :
    (PostProcess cfg s fnum).framecode =
      ((List.range' 16 4).foldl (philipsStep s fnum)
        (s.framecode, whiteFlag s fnum (if cfg.pulldown_mode then -1 else 0))).1 ∧
    (∀ (st : Int × Int) (line code : Nat),
      ReadPhillipsCode (fun x => s.rawbuffer fnum (line * 844 + x)) = code →
      code / 0x100000 % 16 = 15 → code < 0xff0000 →
      philipsStep s fnum st line =
        ((if code % 16 + code / 16 % 16 * 10 + code / 256 % 16 * 100 + code / 4096 % 16 * 1000 +
              code / 65536 % 16 * 10000 > 80000 then
            ((code % 16 + code / 16 % 16 * 10 + code / 256 % 16 * 100 + code / 4096 % 16 * 1000 +
              code / 65536 % 16 * 10000 : Nat) : Int) - 80000
          else
            ((code % 16 + code / 16 % 16 * 10 + code / 256 % 16 * 100 + code / 4096 % 16 * 1000 +
              code / 65536 % 16 * 10000 : Nat) : Int)),
          ((line % 2 : Nat) : Int))) ∧
    (∀ (line code : Nat), 16 ≤ line → line ≤ 19 →
      ReadPhillipsCode (fun x => s.rawbuffer fnum (line * 844 + x)) = code →
      code / 0x100000 % 16 = 15 → code < 0xff0000 →
      (∀ l2, line < l2 → l2 ≤ 19 →
        ¬ (ReadPhillipsCode (fun x => s.rawbuffer fnum (l2 * 844 + x)) / 0x100000 % 16 = 15 ∧
          ReadPhillipsCode (fun x => s.rawbuffer fnum (l2 * 844 + x)) < 0xff0000)) →
      (PostProcess cfg s fnum).framecode =
        (if code % 16 + code / 16 % 16 * 10 + code / 256 % 16 * 100 + code / 4096 % 16 * 1000 +
              code / 65536 % 16 * 10000 > 80000 then
            ((code % 16 + code / 16 % 16 * 10 + code / 256 % 16 * 100 + code / 4096 % 16 * 1000 +
              code / 65536 % 16 * 10000 : Nat) : Int) - 80000
          else
            ((code % 16 + code / 16 % 16 * 10 + code / 256 % 16 * 100 + code / 4096 % 16 * 1000 +
              code / 65536 % 16 * 10000 : Nat) : Int))) := by
  have acc : ∀ (st : Int × Int) (line code : Nat),
      ReadPhillipsCode (fun x => s.rawbuffer fnum (line * 844 + x)) = code →
      code / 0x100000 % 16 = 15 → code < 0xff0000 →
      philipsStep s fnum st line =
        ((if code % 16 + code / 16 % 16 * 10 + code / 256 % 16 * 100 + code / 4096 % 16 * 1000 +
              code / 65536 % 16 * 10000 > 80000 then
            ((code % 16 + code / 16 % 16 * 10 + code / 256 % 16 * 100 + code / 4096 % 16 * 1000 +
              code / 65536 % 16 * 10000 : Nat) : Int) - 80000
          else
            ((code % 16 + code / 16 % 16 * 10 + code / 256 % 16 * 100 + code / 4096 % 16 * 1000 +
              code / 65536 % 16 * 10000 : Nat) : Int)),
          ((line % 2 : Nat) : Int)) := by
    intro st line code hcode htop hlt
    rw [philipsStep_eq s fnum st line code hcode, if_pos ⟨htop, hlt⟩]
  refine ⟨PostProcess_framecode cfg s fnum hex hcfg, acc, ?_⟩
  intro line code h16 h19 hcode htop hlt hlater
  rw [PostProcess_framecode cfg s fnum hex hcfg]
  have e : List.range' 16 4 = [16, 17, 18, 19] := rfl
  rw [e]
  simp only [List.foldl_cons, List.foldl_nil]
  interval_cases line
  · rw [philipsStep_rejected s fnum _ 19 (hlater 19 (by decide) (by decide)),
      philipsStep_rejected s fnum _ 18 (hlater 18 (by decide) (by decide)),
      philipsStep_rejected s fnum _ 17 (hlater 17 (by decide) (by decide)),
      acc _ 16 code hcode htop hlt]
  · rw [philipsStep_rejected s fnum _ 19 (hlater 19 (by decide) (by decide)),
      philipsStep_rejected s fnum _ 18 (hlater 18 (by decide) (by decide)),
      acc _ 17 code hcode htop hlt]
  · rw [philipsStep_rejected s fnum _ 19 (hlater 19 (by decide) (by decide)),
      acc _ 18 code hcode htop hlt]
  · rw [acc _ 19 code hcode htop hlt]

theorem c22_philips_bcd_amended_witness :
    (philipsComb 0xf12345).exited = false ∧
    ReadPhillipsCode (fun x => (philipsComb 0xf12345).rawbuffer 0 (16 * 844 + x)) = 0xf12345 ∧
    (PostProcess defaultSettings (philipsComb 0xf12345) 0).framecode = 12345 :=
  ⟨rfl, by decide!,
    ((c22_philips_bcd_amended defaultSettings (philipsComb 0xf12345) 0 rfl (Or.inl rfl)).2.2
      16 0xf12345 (by decide) (by decide) (by decide!) (by decide) (by decide)
      (fun l2 h1 h2 => by
        have z : ReadPhillipsCode (fun x => (philipsComb 0xf12345).rawbuffer 0 (l2 * 844 + x))
            = 0 := by
          interval_cases l2 <;> decide!
        rw [z]
        decide)).trans (by decide)⟩

/-- C22, as stated, fails: the accepted code 0xf80001, whose five low nibbles read
80001, leaves the frame code 1. -/
theorem c22_philips_bcd_counterexample :
    ReadPhillipsCode (fun x => (philipsComb 0xf80001).rawbuffer 0 (16 * 844 + x)) = 0xf80001 ∧
    0xf80001 / 0x100000 % 16 = 15 ∧ 0xf80001 < 0xff0000 ∧
    0xf80001 % 16 + 0xf80001 / 16 % 16 * 10 + 0xf80001 / 256 % 16 * 100 +
      0xf80001 / 4096 % 16 * 1000 + 0xf80001 / 65536 % 16 * 10000 = 80001 ∧
    (PostProcess defaultSettings (philipsComb 0xf80001) 0).framecode = 1 ∧
    (philipsStep (philipsComb 0xf80001) 0 (0, -1) 16).1 = 1 := by
  decide!

/-- C23: a VBI line whose code is invalid (`ReadPhillipsCode` returned 0, as it does
when it finds no first bit, or the top nibble is not 0xf, or the code is at least
0xff0000) leaves `framecode` and `fstart` as they were, and the loop over the lines
16..19, hence `PostProcess`, yields what the loop over the other lines yields. -/
theorem c23_invalid_code_ignored (s : Comb) (fnum line : Nat)
    (hinv : ReadPhillipsCode (fun x => s.rawbuffer fnum (line * 844 + x)) = 0 ∨
      ReadPhillipsCode (fun x => s.rawbuffer fnum (line * 844 + x)) / 0x100000 % 16 ≠ 15 ∨
      0xff0000 ≤ ReadPhillipsCode (fun x => s.rawbuffer fnum (line * 844 + x))) :
    (∀ st, philipsStep s fnum st line = st) ∧
    (∀ st, (List.range' 16 4).foldl (philipsStep s fnum) st =
      ((List.range' 16 4).erase line).foldl (philipsStep s fnum) st) ∧
    (∀ cfg, s.exited = false → (cfg.pulldown_mode = false ∨ cfg.f_oneframe = false) →
      (PostProcess cfg s fnum).framecode =
        (((List.range' 16 4).erase line).foldl (philipsStep s fnum)
          (s.framecode, whiteFlag s fnum (if cfg.pulldown_mode then -1 else 0))).1) ∧
    (∀ (ln : Nat → Nat), (∀ i, 70 ≤ i → i < 140 → u16_to_ire (ln i) ≤ 90) →
      ReadPhillipsCode ln = 0) := by
  have hrej : ∀ st, philipsStep s fnum st line = st := by
    intro st
    apply philipsStep_rejected
    rintro ⟨a, b⟩
    rcases hinv with h | h | h
    · rw [h] at a
      exact absurd a (by decide)
    · exact h a
    · exact absurd b (not_lt.mpr h)
  have hloop : ∀ st, (List.range' 16 4).foldl (philipsStep s fnum) st =
      ((List.range' 16 4).erase line).foldl (philipsStep s fnum) st := by
    intro st
    by_cases hm : line ∈ List.range' 16 4
    · obtain ⟨pre, post, -, hsplit, herase⟩ := List.exists_erase_eq hm
      rw [herase, hsplit, List.foldl_append, List.foldl_cons, hrej, List.foldl_append]
    · rw [List.erase_of_not_mem hm]
  refine ⟨hrej, hloop, ?_, ReadPhillipsCode_no_first_bit⟩
  intro cfg hex hcfg
  rw [PostProcess_framecode cfg s fnum hex hcfg, hloop]

theorem c23_invalid_code_ignored_witness :
    ReadPhillipsCode (fun x => (philipsComb 0xf12345).rawbuffer 0 (17 * 844 + x)) = 0 ∧
    philipsStep (philipsComb 0xf12345) 0 (12345, 0) 17 = (12345, 0) ∧
    (List.range' 16 4).foldl (philipsStep (philipsComb 0xf12345) 0) (0, -1) =
      [16, 18, 19].foldl (philipsStep (philipsComb 0xf12345) 0) (0, -1) :=
  ⟨by decide!,
    (c23_invalid_code_ignored (philipsComb 0xf12345) 0 17 (Or.inl (by decide!))).1 (12345, 0),
    (c23_invalid_code_ignored (philipsComb 0xf12345) 0 17 (Or.inl (by decide!))).2.1 (0, -1)⟩

/-! ## Every 2D call writes a frame -/

theorem scanWrite_exited (cfg : Settings) (s : Comb) (fstart : Int) (fnum : Nat)
    (hone : cfg.f_oneframe = false) : (scanWrite cfg s fstart fnum).exited = s.exited := by
  simp only [scanWrite]
  split_ifs
  · exact WriteFrame_exited _ _ _ _ hone
  · rfl
  · rfl

theorem PostProcess_exited (cfg : Settings) (s : Comb) (fnum : Nat)
    (hone : cfg.f_oneframe = false) (hex : s.exited = false) :
    (PostProcess cfg s fnum).exited = false := by
  obtain ⟨h1, -, -, -⟩ := flushOdd_control cfg s hex (Or.inr hone)
  rw [PostProcess_split, h1, if_neg (by decide), scanWrite_exited _ _ _ _ hone, h1]

theorem emit_exited (cfg : Settings) (s : Comb) (dim : Int)
    (hone : cfg.f_oneframe = false) (hex : s.exited = false) :
    (emit cfg s dim).exited = false := by
  simp only [emit]
  generalize (if dim = 3 then 1 else 0) = f
  generalize (if cfg.linesout = 505 then 1 else 26) = firstline
  have hst := pixelStages_control cfg s dim f firstline _ rfl
  have hx := PostProcess_exited cfg _ f hone (hst.2.2.2.2.2.trans hex)
  split
  · exact hx
  · exact hx

theorem Process_exited (cfg : Settings) (s : Comb) (buffer : Nat → Nat) (dim : Int)
    (hone : cfg.f_oneframe = false) (hex : s.exited = false) :
    (Process cfg s buffer dim).exited = false := by
  rw [Process_eq]
  split
  · exact hex
  · exact emit_exited cfg _ dim hone hex

theorem fstartOf_congr (cfg : Settings) (s t : Comb) (fnum : Nat)
    (hr : t.rawbuffer = s.rawbuffer) (hf : t.framecode = s.framecode) :
    fstartOf cfg t fnum = fstartOf cfg s fnum := by
  simp only [fstartOf, philipsStep_congr s t fnum hr, whiteFlag_congr s t fnum _ hr, hf]

/-- What the opening of `PostProcess` writes and leaves in `f_oddframe`. -/
theorem flushOdd_written (cfg : Settings) (s : Comb) (hex : s.exited = false)
    (hcfg : cfg.pulldown_mode = false ∨ cfg.f_oneframe = false) :
    (flushOdd cfg s).1.written.length =
      s.written.length + (if cfg.pulldown_mode = true ∧ s.f_oddframe = true then 1 else 0) ∧
    (flushOdd cfg s).1.f_oddframe = (if cfg.pulldown_mode = true then false else s.f_oddframe) := by
  by_cases hp : cfg.pulldown_mode = true
  · have hone : cfg.f_oneframe = false := by
      rcases hcfg with h | h
      · rw [hp] at h; cases h
      · exact h
    by_cases ho : s.f_oddframe = true
    · simp [flushOdd, hp, ho, WriteFrame, hone, hex]
    · simp [flushOdd, hp, ho, hex]
  · simp [flushOdd, hp, hex]

/-- What the rest of `PostProcess` writes and leaves in `f_oddframe`. -/
theorem scanWrite_written (cfg : Settings) (s : Comb) (fstart : Int) (fnum : Nat) :
    ∀ F : Int, F = ((List.range' 16 4).foldl (philipsStep s fnum)
        (s.framecode, whiteFlag s fnum fstart)).2 →
    (scanWrite cfg s fstart fnum).written.length =
      s.written.length + (if cfg.pulldown_mode = false ∨ F = 0 then 1 else 0) ∧
    (scanWrite cfg s fstart fnum).f_oddframe =
      (if cfg.pulldown_mode = false ∨ F = 0 then s.f_oddframe
        else if F = 1 then true else s.f_oddframe) := by
  intro F hF
  simp only [scanWrite]
  rw [← hF]
  by_cases hc : cfg.pulldown_mode = false ∨ F = 0
  · have hc2 : (!cfg.pulldown_mode) = true ∨ F = 0 := by
      rcases hc with h | h
      · exact Or.inl (by rw [h]; rfl)
      · exact Or.inr h
    rw [if_pos hc2, if_pos hc, if_pos hc]
    constructor
    · rw [(WriteFrame_control _ _ _ _).2.2]
      simp
    · simp only [WriteFrame]
      split <;> rfl
  · have hc2 : ¬ ((!cfg.pulldown_mode) = true ∨ F = 0) := by
      intro c
      apply hc
      rcases c with h | h
      · exact Or.inl (by simpa using h)
      · exact Or.inr h
    rw [if_neg hc2, if_neg hc, if_neg hc]
    by_cases h1 : F = 1
    · rw [if_pos h1, if_pos h1]
      exact ⟨rfl, rfl⟩
    · rw [if_neg h1, if_neg h1]
      exact ⟨rfl, rfl⟩

/-- The frames a `PostProcess` call writes: one for a pending odd frame in pulldown
mode, and one when pulldown mode is off or `fstart` is 0. -/
theorem PostProcess_written_count (cfg : Settings) (s : Comb) (fnum : Nat)
    (hex : s.exited = false) (hcfg : cfg.pulldown_mode = false ∨ cfg.f_oneframe = false) :
    (PostProcess cfg s fnum).written.length =
      s.written.length + (if cfg.pulldown_mode = true ∧ s.f_oddframe = true then 1 else 0) +
        (if cfg.pulldown_mode = false ∨ fstartOf cfg s fnum = 0 then 1 else 0) ∧
    (PostProcess cfg s fnum).f_oddframe =
      (if cfg.pulldown_mode = true then
        (if fstartOf cfg s fnum = 0 then false else if fstartOf cfg s fnum = 1 then true
          else false)
       else s.f_oddframe) := by
  obtain ⟨h1, h2, h3, h4⟩ := flushOdd_control cfg s hex hcfg
  obtain ⟨w1, o1⟩ := flushOdd_written cfg s hex hcfg
  have hF : ((List.range' 16 4).foldl (philipsStep (flushOdd cfg s).1 fnum)
      ((flushOdd cfg s).1.framecode, whiteFlag (flushOdd cfg s).1 fnum (flushOdd cfg s).2)).2 =
      fstartOf cfg s fnum := by
    simp only [fstartOf, philipsStep_congr s _ fnum h2, whiteFlag_congr s _ fnum _ h2, h3, h4]
  obtain ⟨w2, o2⟩ := scanWrite_written cfg (flushOdd cfg s).1 (flushOdd cfg s).2 fnum _ hF.symm
  rw [PostProcess_split, h1, if_neg (by decide), w2, o2, w1, o1]
  refine ⟨rfl, ?_⟩
  by_cases hp : cfg.pulldown_mode = true
  · by_cases e0 : fstartOf cfg s fnum = 0
    · simp [hp, e0]
    · by_cases e1 : fstartOf cfg s fnum = 1
      · simp [hp, e0, e1]
      · simp [hp, e0, e1]
  · have hp2 : cfg.pulldown_mode = false := by simpa using hp
    simp [hp2]

theorem emit_written_count (cfg : Settings) (s : Comb) (dim : Int)
    (hex : s.exited = false) (hcfg : cfg.pulldown_mode = false ∨ cfg.f_oneframe = false) :
    (emit cfg s dim).written.length =
      s.written.length + (if cfg.pulldown_mode = true ∧ s.f_oddframe = true then 1 else 0) +
        (if cfg.pulldown_mode = false ∨ fstartOf cfg s (if dim = 3 then 1 else 0) = 0
          then 1 else 0) ∧
    (emit cfg s dim).f_oddframe =
      (if cfg.pulldown_mode = true then
        (if fstartOf cfg s (if dim = 3 then 1 else 0) = 0 then false
          else if fstartOf cfg s (if dim = 3 then 1 else 0) = 1 then true else false)
       else s.f_oddframe) := by
  simp only [emit]
  generalize (if dim = 3 then 1 else 0) = f
  generalize (if cfg.linesout = 505 then 1 else 26) = firstline
  have hst := pixelStages_control cfg s dim f firstline _ rfl
  obtain ⟨w, o⟩ := PostProcess_written_count cfg
    (convertRGB cfg (DoYNR cfg (removeColor (DoCNR cfg (Split cfg s dim)) f firstline))
      firstline) f (hst.2.2.2.2.2.trans hex) hcfg
  rw [fstartOf_congr cfg s _ f hst.1 hst.2.2.1, hst.2.2.2.1, hst.2.2.2.2.1] at w
  rw [fstartOf_congr cfg s _ f hst.1 hst.2.2.1, hst.2.2.2.1] at o
  generalize PostProcess cfg
    (convertRGB cfg (DoYNR cfg (removeColor (DoCNR cfg (Split cfg s dim)) f firstline))
      firstline) f = pp at w o ⊢
  split
  · exact ⟨w, o⟩
  · exact ⟨w, o⟩

/-- C21, as the code has it: a `Process` call with `dim = 2` made while the program
runs writes, with pulldown mode off, exactly one output frame, starting with the first
call (and without `f_oneframe` a run of n such calls writes n frames); in pulldown
mode (without `f_oneframe`) it writes one frame if an odd frame is pending
(`f_oddframe`) and one more if the `fstart` found for the new frame is 0, so none when
neither holds; and an odd frame is pending after the call exactly when that `fstart`
is 1. -/
theorem c21_2d_every_call_amended (cfg : Settings) :
    (cfg.pulldown_mode = false →
      (∀ (s : Comb) (buffer : Nat → Nat), s.exited = false →
        (Process cfg s buffer 2).written.length = s.written.length + 1) ∧
      (cfg.f_oneframe = false → ∀ (buffers : List (Nat → Nat)) (s : Comb), s.exited = false →
        (processAll cfg s (buffers.map (fun b => (b, 2)))).written.length =
          s.written.length + buffers.length)) ∧
    (cfg.pulldown_mode = true → cfg.f_oneframe = false →
      ∀ (s : Comb) (buffer : Nat → Nat), s.exited = false →
        (Process cfg s buffer 2).written.length =
          s.written.length + (if s.f_oddframe = true then 1 else 0) +
            (if fstartOf cfg (rotate s buffer) 0 = 0 then 1 else 0) ∧
        ((Process cfg s buffer 2).f_oddframe = true ↔ fstartOf cfg (rotate s buffer) 0 = 1) ∧
        (Process cfg s buffer 2).exited = false) := by
  constructor
  · intro hp
    have one : ∀ (s : Comb) (buffer : Nat → Nat), s.exited = false →
        (Process cfg s buffer 2).written.length = s.written.length + 1 :=
      fun s buffer hex => Process_written_no_pulldown cfg s buffer 2 hp hex
        (fun c => absurd c.1 (by decide))
    refine ⟨one, ?_⟩
    intro hone buffers
    induction buffers with
    | nil => intro s _; rfl
    | cons b bs ih =>
      intro s hex
      have h1 := ih (Process cfg s b 2) (Process_exited cfg s b 2 hone hex)
      rw [one s b hex] at h1
      simp only [processAll, List.map_cons, List.foldl_cons, List.length_cons] at h1 ⊢
      rw [h1]
      omega
  · intro hp hone s buffer hex
    have h2 : ¬ ((2 : Int) = 3 ∧ (LPFrame (rotate s buffer) 0).framecount < 2) :=
      fun c => absurd c.1 (by decide)
    obtain ⟨w, o⟩ := emit_written_count cfg (LPFrame (rotate s buffer) 0) 2 hex (Or.inr hone)
    have hf : fstartOf cfg (LPFrame (rotate s buffer) 0) (if (2 : Int) = 3 then 1 else 0) =
        fstartOf cfg (rotate s buffer) 0 := by
      rw [if_neg (by decide)]
      exact fstartOf_congr cfg (rotate s buffer) _ 0 (LPFrame_control _ 0).1
        (LPFrame_control _ 0).2.2.1
    have hp2 : ¬ cfg.pulldown_mode = false := by rw [hp]; decide
    rw [hf] at w o
    refine ⟨?_, ?_, Process_exited cfg s buffer 2 hone hex⟩
    · have e1 : (LPFrame (rotate s buffer) 0).written = s.written :=
        (LPFrame_control _ 0).2.2.2.2.1.trans (rotate_control s buffer).2.2.2.2.2.2.1
      have e2 : (LPFrame (rotate s buffer) 0).f_oddframe = s.f_oddframe :=
        (LPFrame_control _ 0).2.2.2.1.trans (rotate_control s buffer).2.2.2.2.2.1
      rw [Process_eq, if_neg h2, w, e1, e2]
      simp [hp]
    · rw [Process_eq, if_neg h2, o, if_pos hp]
      by_cases e0 : fstartOf cfg (rotate s buffer) 0 = 0
      · rw [if_pos e0, e0]
        decide
      · rw [if_neg e0]
        by_cases e1 : fstartOf cfg (rotate s buffer) 0 = 1
        · rw [if_pos e1]
          exact ⟨fun _ => e1, fun _ => rfl⟩
        · rw [if_neg e1]
          exact ⟨fun c => absurd c (by decide), fun c => absurd c e1⟩

theorem c21_2d_every_call_amended_witness :
    (Process defaultSettings freshComb blankFrame 2).written.length = 1 ∧
    (processAll defaultSettings freshComb [(blankFrame, 2), (spotFrame, 2)]).written.length = 2 ∧
    fstartOf pulldownSettings (rotate freshComb (flagFrame 4)) 0 = 0 ∧
    (Process pulldownSettings freshComb (flagFrame 4) 2).written.length = 1 ∧
    fstartOf pulldownSettings (rotate freshComb (flagFrame 5)) 0 = 1 ∧
    (Process pulldownSettings freshComb (flagFrame 5) 2).written.length = 0 ∧
    (Process pulldownSettings freshComb (flagFrame 5) 2).f_oddframe = true ∧
    fstartOf pulldownSettings (rotate freshComb blankFrame) 0 = -1 ∧
    (Process pulldownSettings freshComb blankFrame 2).written.length = 0 :=
  ⟨((c21_2d_every_call_amended defaultSettings).1 rfl).1 freshComb blankFrame rfl,
    ((c21_2d_every_call_amended defaultSettings).1 rfl).2 rfl [blankFrame, spotFrame]
      freshComb rfl,
    by decide!,
    (((c21_2d_every_call_amended pulldownSettings).2 rfl rfl freshComb (flagFrame 4) rfl).1).trans
      (by decide!),
    by decide!,
    (((c21_2d_every_call_amended pulldownSettings).2 rfl rfl freshComb (flagFrame 5) rfl).1).trans
      (by decide!),
    (((c21_2d_every_call_amended pulldownSettings).2 rfl rfl freshComb (flagFrame 5) rfl).2.1).mpr
      (by decide!),
    by decide!,
    (((c21_2d_every_call_amended pulldownSettings).2 rfl rfl freshComb blankFrame rfl).1).trans
      (by decide!)⟩

/-- C21, as stated, fails in pulldown mode: `Process` calls with `dim = 2` on a
freshly constructed `Comb`, each with a blank frame (no white flag, no Philips code),
write no frame. -/
theorem c21_2d_every_call_counterexample :
    (processAll pulldownSettings freshComb [(blankFrame, 2)]).written.length = 0 ∧
    (processAll pulldownSettings freshComb [(blankFrame, 2), (blankFrame, 2)]).written.length =
      0 := by
  decide!

end Comb

namespace Comb

/-! ## The rows of the RGB conversion -/

theorem convertRGB_output (cfg : Settings) (s : Comb) (firstline : Nat) :
    (convertRGB cfg s firstline).output = convertRows cfg s firstline (505 - firstline) := rfl

theorem convertRows_succ (cfg : Settings) (s : Comb) (firstline n : Nat) :
    convertRows cfg s firstline (n + 1) =
      convertRow cfg s firstline (convertRows cfg s firstline n) (firstline + n) := by
  simp [convertRows, List.range'_concat, List.foldl_append]

/-- The first `n` pixels of a row of the conversion: the samples written, and the
samples left alone. -/
theorem convertRow_pixels (cfg : Settings) (s : Comb) (l base : Nat) (out : Nat → Nat) (n : Nat) :
    ∀ r, r = (List.range n).foldl
      (fun (out : Nat → Nat) h =>
        upd (upd (upd out (base + (3 * h)) (toU16 (RGB.conv cfg (s.cbuf (l * 910 + (h + 74)))).r))
          (base + (3 * h + 1)) (toU16 (RGB.conv cfg (s.cbuf (l * 910 + (h + 74)))).g))
          (base + (3 * h + 2)) (toU16 (RGB.conv cfg (s.cbuf (l * 910 + (h + 74)))).b))
      out →
    (∀ h c, h < n → c < 3 → r (base + 3 * h + c) = rgbAt cfg s l h c) ∧
    (∀ p, (p < base ∨ base + 3 * n ≤ p) → r p = out p) := by
  induction n with
  | zero =>
    intro r hr
    subst hr
    exact ⟨fun h c hh => absurd hh (Nat.not_lt_zero h), fun p _ => rfl⟩
  | succ n ih =>
    intro r hr
    rw [List.range_succ, List.foldl_append] at hr
    obtain ⟨ih1, ih2⟩ := ih _ rfl
    subst hr
    simp only [List.foldl_cons, List.foldl_nil]
    constructor
    · intro h c hh hc
      by_cases e : h = n
      · subst e
        interval_cases c
        · have b1 : base + 3 * h + 0 ≠ base + (3 * h + 2) := by omega
          have b2 : base + 3 * h + 0 ≠ base + (3 * h + 1) := by omega
          have b3 : base + 3 * h + 0 = base + (3 * h) := by omega
          simp only [upd, if_neg b1, if_neg b2, if_pos b3]
          simp [rgbAt]
        · have b1 : base + 3 * h + 1 ≠ base + (3 * h + 2) := by omega
          have b2 : base + 3 * h + 1 = base + (3 * h + 1) := by omega
          simp only [upd, if_neg b1, if_pos b2]
          simp [rgbAt]
        · have b1 : base + 3 * h + 2 = base + (3 * h + 2) := by omega
          simp only [upd, if_pos b1]
          simp [rgbAt]
      · have a1 : base + 3 * h + c ≠ base + (3 * n + 2) := by omega
        have a2 : base + 3 * h + c ≠ base + (3 * n + 1) := by omega
        have a3 : base + 3 * h + c ≠ base + (3 * n) := by omega
        simp only [upd, if_neg a1, if_neg a2, if_neg a3]
        exact ih1 h c (by omega) hc
    · intro p hp
      have a1 : p ≠ base + (3 * n + 2) := by omega
      have a2 : p ≠ base + (3 * n + 1) := by omega
      have a3 : p ≠ base + (3 * n) := by omega
      simp only [upd, if_neg a1, if_neg a2, if_neg a3]
      exact ih2 p (by omega)

/-- A row of the conversion writes the 2256 samples from `744 * 3 * (l - firstline)`
on and nothing else. -/
theorem convertRow_spec (cfg : Settings) (s : Comb) (firstline : Nat) (out : Nat → Nat)
    (l : Nat) :
    (∀ h c, h < 752 → c < 3 →
      convertRow cfg s firstline out l (744 * 3 * (l - firstline) + 3 * h + c) =
        rgbAt cfg s l h c) ∧
    (∀ p, (p < 744 * 3 * (l - firstline) ∨ 744 * 3 * (l - firstline) + 2256 ≤ p) →
      convertRow cfg s firstline out l p = out p) := by
  obtain ⟨h1, h2⟩ := convertRow_pixels cfg s l (744 * 3 * (l - firstline)) out 752 _ rfl
  exact ⟨h1, fun p hp => h2 p (by omega)⟩

/-- The array `output` after the conversion of `n` lines: the rows 0..n-1 hold the
first 744 pixels of their lines, the first 8 pixels of row n hold the pixels
744..751 of the last line converted, and the samples beyond are untouched. -/
theorem convertRows_spec (cfg : Settings) (s : Comb) (firstline n : Nat) :
    (∀ r h c, r < n → h < 744 → c < 3 →
      convertRows cfg s firstline n (744 * 3 * r + 3 * h + c) = rgbAt cfg s (firstline + r) h c) ∧
    (∀ h c, 1 ≤ n → h < 8 → c < 3 →
      convertRows cfg s firstline n (744 * 3 * n + 3 * h + c) =
        rgbAt cfg s (firstline + n - 1) (744 + h) c) ∧
    (∀ p, 744 * 3 * n + 24 ≤ p → convertRows cfg s firstline n p = s.output p) := by
  induction n with
  | zero =>
    exact ⟨fun r h c hr => absurd hr (Nat.not_lt_zero r), fun h c h1 => absurd h1 (by decide),
      fun p _ => rfl⟩
  | succ n ih =>
    obtain ⟨ih1, -, ih3⟩ := ih
    obtain ⟨w, u⟩ := convertRow_spec cfg s firstline (convertRows cfg s firstline n)
      (firstline + n)
    have eb : firstline + n - firstline = n := by omega
    rw [eb] at w u
    rw [convertRows_succ]
    refine ⟨?_, ?_, ?_⟩
    · intro r h c hr hh hc
      by_cases e : r = n
      · subst e
        exact w h c (by omega) hc
      · rw [u _ (Or.inl (by omega))]
        exact ih1 r h c (by omega) hh hc
    · intro h c _ hh hc
      have e : 744 * 3 * (n + 1) + 3 * h + c = 744 * 3 * n + 3 * (744 + h) + c := by omega
      rw [e, w (744 + h) c (by omega) hc]
      rfl
    · intro p hp
      rw [u p (Or.inr (by omega))]
      exact ih3 p (by omega)

/-! ## The frame a `Process` call writes -/

theorem Split_output (cfg : Settings) (s : Comb) (dim : Int) :
    (Split cfg s dim).output = s.output := by
  simp only [Split]

theorem DoCNR_output (cfg : Settings) (s : Comb) : (DoCNR cfg s).output = s.output := by
  simp only [DoCNR]
  split <;> rfl

theorem removeColor_output (s : Comb) (f firstline : Nat) :
    (removeColor s f firstline).output = s.output := by
  simp only [removeColor]

theorem DoYNR_output (cfg : Settings) (s : Comb) : (DoYNR cfg s).output = s.output := by
  simp only [DoYNR]
  split <;> rfl

theorem beforeRGB_output (cfg : Settings) (s : Comb) (dim : Int) :
    (beforeRGB cfg s dim).output = s.output := by
  simp only [beforeRGB]
  rw [DoYNR_output, removeColor_output, DoCNR_output, Split_output]

theorem emit_split (cfg : Settings) (s : Comb) (dim : Int) :
    emit cfg s dim =
      if (PostProcess cfg (convertRGB cfg (beforeRGB cfg s dim) (firstlineOf cfg))
          (if dim = 3 then 1 else 0)).exited then
        PostProcess cfg (convertRGB cfg (beforeRGB cfg s dim) (firstlineOf cfg))
          (if dim = 3 then 1 else 0)
      else
        { PostProcess cfg (convertRGB cfg (beforeRGB cfg s dim) (firstlineOf cfg))
            (if dim = 3 then 1 else 0) with
          framecount := (PostProcess cfg (convertRGB cfg (beforeRGB cfg s dim) (firstlineOf cfg))
            (if dim = 3 then 1 else 0)).framecount + 1 } := rfl

/-- With pulldown mode off `PostProcess` writes the array `output`, all of its
`744 * linesout * 3` samples. -/
theorem PostProcess_written_output (cfg : Settings) (s : Comb) (fnum : Nat)
    (hp : cfg.pulldown_mode = false) (hex : s.exited = false) :
    ∃ fr : WrittenFrame, (PostProcess cfg s fnum).written = s.written ++ [fr] ∧
      fr.samples = 744 * cfg.linesout * 3 ∧ fr.data = s.output := by
  obtain ⟨h1, -, -, -⟩ := flushOdd_control cfg s hex (Or.inl hp)
  have hf : (flushOdd cfg s).1 = s := by simp [flushOdd, hp]
  rw [PostProcess_split, h1, if_neg (by decide), hf]
  simp only [scanWrite, hp, Bool.not_false, true_or, if_true]
  exact ⟨_, (WriteFrame_control _ _ _ _).2.2, rfl, rfl⟩

theorem emit_written_output (cfg : Settings) (s : Comb) (dim : Int)
    (hp : cfg.pulldown_mode = false) (hex : s.exited = false) :
    ∃ fr : WrittenFrame, (emit cfg s dim).written = s.written ++ [fr] ∧
      fr.samples = 744 * cfg.linesout * 3 ∧
      fr.data = (convertRGB cfg (beforeRGB cfg s dim) (firstlineOf cfg)).output := by
  have hst := pixelStages_control cfg s dim (if dim = 3 then 1 else 0)
    (if cfg.linesout = 505 then 1 else 26)
    (convertRGB cfg (beforeRGB cfg s dim) (firstlineOf cfg)) rfl
  obtain ⟨fr, w, n, d⟩ := PostProcess_written_output cfg
    (convertRGB cfg (beforeRGB cfg s dim) (firstlineOf cfg)) (if dim = 3 then 1 else 0) hp
    (hst.2.2.2.2.2.trans hex)
  rw [hst.2.2.2.2.1] at w
  refine ⟨fr, ?_, n, d⟩
  rw [emit_split]
  generalize PostProcess cfg (convertRGB cfg (beforeRGB cfg s dim) (firstlineOf cfg))
    (if dim = 3 then 1 else 0) = pp at w ⊢
  split
  · exact w
  · exact w

theorem rotate_output (s : Comb) (buffer : Nat → Nat) : (rotate s buffer).output = s.output := rfl

theorem LPFrame_output (s : Comb) (fnum : Nat) : (LPFrame s fnum).output = s.output := by
  simp only [LPFrame]

/-- C32: for `linesout` 480 and 505 the RGB conversion of a `Process` call converts the
`linesout - 1` source lines firstline..504 and no other; output row r, for r in
0..linesout-2, holds the pixels 0..743 of line firstline + r; no line is converted
into row linesout - 1, whose samples from the 25th on are those `output` held before
(its first 8 pixels take the pixels 744..751 of line 504, which each line writes past
the end of its row); and with pulldown mode off the frame written is this `output`,
744 x linesout pixels, its last row as the array was before the call. -/
theorem c32_conversion_rows (cfg : Settings) (s : Comb)
    (hl : cfg.linesout = 480 ∨ cfg.linesout = 505) :
    (convertRGB cfg s (firstlineOf cfg)).output =
      convertRows cfg s (firstlineOf cfg) (cfg.linesout - 1) ∧
    (∀ l, firstlineOf cfg ≤ l → l ≤ 504 → l - firstlineOf cfg ≤ cfg.linesout - 2) ∧
    (∀ r h c, r ≤ cfg.linesout - 2 → h < 744 → c < 3 →
      firstlineOf cfg + r ≤ 504 ∧
      (convertRGB cfg s (firstlineOf cfg)).output (744 * 3 * r + 3 * h + c) =
        rgbAt cfg s (firstlineOf cfg + r) h c) ∧
    (∀ h c, h < 8 → c < 3 →
      (convertRGB cfg s (firstlineOf cfg)).output (744 * 3 * (cfg.linesout - 1) + 3 * h + c) =
        rgbAt cfg s 504 (744 + h) c) ∧
    (∀ j, 24 ≤ j →
      (convertRGB cfg s (firstlineOf cfg)).output (744 * 3 * (cfg.linesout - 1) + j) =
        s.output (744 * 3 * (cfg.linesout - 1) + j)) ∧
    (∀ (s0 : Comb) (buffer : Nat → Nat) (dim : Int),
      cfg.pulldown_mode = false → s0.exited = false → ¬ (dim = 3 ∧ s0.framecount < 2) →
      ∃ fr : WrittenFrame, (Process cfg s0 buffer dim).written = s0.written ++ [fr] ∧
        fr.samples = 744 * cfg.linesout * 3 ∧
        fr.data = (convertRGB cfg (beforeRGB cfg (LPFrame (rotate s0 buffer) 0) dim)
          (firstlineOf cfg)).output ∧
        ∀ j, 24 ≤ j → j < 744 * 3 →
          fr.data (744 * 3 * (cfg.linesout - 1) + j) =
            s0.output (744 * 3 * (cfg.linesout - 1) + j)) := by
  have hn : 505 - firstlineOf cfg = cfg.linesout - 1 ∧ 1 ≤ cfg.linesout - 1 ∧
      firstlineOf cfg + (cfg.linesout - 1) - 1 = 504 := by
    rcases hl with h | h <;> simp [firstlineOf, h]
  obtain ⟨hn1, hn2, hn3⟩ := hn
  have hrows : ∀ t : Comb, (convertRGB cfg t (firstlineOf cfg)).output =
      convertRows cfg t (firstlineOf cfg) (cfg.linesout - 1) := by
    intro t
    rw [convertRGB_output, hn1]
  have hlast : ∀ (t : Comb) (j : Nat), 24 ≤ j →
      (convertRGB cfg t (firstlineOf cfg)).output (744 * 3 * (cfg.linesout - 1) + j) =
        t.output (744 * 3 * (cfg.linesout - 1) + j) := by
    intro t j hj
    rw [hrows]
    exact (convertRows_spec cfg t (firstlineOf cfg) (cfg.linesout - 1)).2.2 _ (by omega)
  obtain ⟨a, b, -⟩ := convertRows_spec cfg s (firstlineOf cfg) (cfg.linesout - 1)
  refine ⟨hrows s, ?_, ?_, ?_, hlast s, ?_⟩
  · intro l h1 h2
    omega
  · intro r h c hr hh hc
    refine ⟨by omega, ?_⟩
    rw [hrows]
    exact a r h c (by omega) hh hc
  · intro h c hh hc
    rw [hrows, Nat.add_assoc, ← Nat.add_assoc (744 * 3 * (cfg.linesout - 1)), b h c hn2 hh hc, hn3]
  · intro s0 buffer dim hp hex hw
    have h2 : ¬ (dim = 3 ∧ (LPFrame (rotate s0 buffer) 0).framecount < 2) := hw
    obtain ⟨fr, w, n, d⟩ := emit_written_output cfg (LPFrame (rotate s0 buffer) 0) dim hp hex
    refine ⟨fr, ?_, n, d, ?_⟩
    · rw [Process_eq, if_neg h2]
      exact w
    · intro j hj _
      rw [d, hlast _ j hj, beforeRGB_output, LPFrame_output, rotate_output]

theorem c32_conversion_rows_witness :
    (defaultSettings.linesout = 480 ∨ defaultSettings.linesout = 505) ∧
    (convertRGB defaultSettings edgeComb 26).output (744 * 3 * 478 + 3 * 5 + 1) =
      rgbAt defaultSettings edgeComb 504 5 1 ∧
    (convertRGB defaultSettings edgeComb 26).output (744 * 3 * 479 + 3 * 5 + 1) =
      rgbAt defaultSettings edgeComb 504 749 1 ∧
    (convertRGB defaultSettings edgeComb 26).output (744 * 3 * 479 + 30) = 0 :=
  ⟨Or.inl rfl,
    ((c32_conversion_rows defaultSettings edgeComb (Or.inl rfl)).2.2.1 478 5 1
      (by decide) (by decide) (by decide)).2,
    (c32_conversion_rows defaultSettings edgeComb (Or.inl rfl)).2.2.2.1 5 1 (by decide) (by decide),
    (c32_conversion_rows defaultSettings edgeComb (Or.inl rfl)).2.2.2.2.1 30 (by decide)⟩

/-! ## The write positions of the chroma low-pass -/

/-- The step of the chroma low-pass at column `h` changes no pixel but the one at
`h - 5` (wide) or `h - 8` (narrow), counted from the start of line `l`. -/
theorem chromaStep_cbuf_other (cfg : Settings) (l : Nat) (st : SplitState) (h j : Nat)
    (hl : 1 ≤ l) (hj : (j : Int) ≠ (l : Int) * 910 + chromaCol cfg h) :
    (chromaStep cfg l st h).cbuf j = st.cbuf j := by
  by_cases hw : cfg.cwide_mode = true
  · have e : j ≠ l * 910 + h - 5 := by
      intro c
      apply hj
      simp only [chromaCol, hw, if_true]
      omega
    simp [chromaStep, hw, upd, e]
  · have hw2 : cfg.cwide_mode = false := by simpa using hw
    have e : j ≠ l * 910 + h - 8 := by
      intro c
      apply hj
      simp only [chromaCol, hw2, Bool.false_eq_true, if_false]
      omega
    simp [chromaStep, hw, upd, e]

/-- The pixel the step at column `h` writes: `i` and `q` are the filter outputs (0 in
`bw_mode`), `y` stays. -/
theorem chromaStep_cbuf_self (cfg : Settings) (l : Nat) (st : SplitState) (h j : Nat)
    (hl : 1 ≤ l) (hj : (j : Int) = (l : Int) * 910 + chromaCol cfg h) :
    (chromaStep cfg l st h).cbuf j =
      { y := (st.cbuf j).y
        i := if cfg.bw_mode then 0
          else ((if cfg.cwide_mode then st.f_wi else st.f_i).feed (st.cbuf (l * 910 + h)).i).2
        q := if cfg.bw_mode then 0
          else ((if cfg.cwide_mode then st.f_wq else st.f_q).feed (st.cbuf (l * 910 + h)).q).2 } := by
  by_cases hw : cfg.cwide_mode = true
  · have e : j = l * 910 + h - 5 := by
      simp only [chromaCol, hw, if_true] at hj
      omega
    have e2 : l * 910 + h ≠ l * 910 + h - 5 := by omega
    subst e
    by_cases hb : cfg.bw_mode = true <;> simp [chromaStep, hw, hb, upd, e2]
  · have hw2 : cfg.cwide_mode = false := by simpa using hw
    have e : j = l * 910 + h - 8 := by
      simp only [chromaCol, hw2, Bool.false_eq_true, if_false] at hj
      omega
    have e2 : l * 910 + h ≠ l * 910 + h - 8 := by omega
    subst e
    by_cases hb : cfg.bw_mode = true <;> simp [chromaStep, hw, hb, upd, e2]

theorem chromaFold_cbuf_other (cfg : Settings) (l : Nat) (hl : 1 ≤ l) (j : Nat) (cols : List Nat) :
    ∀ st : SplitState, (∀ h ∈ cols, (j : Int) ≠ (l : Int) * 910 + chromaCol cfg h) →
      (cols.foldl (chromaStep cfg l) st).cbuf j = st.cbuf j := by
  induction cols with
  | nil => intro st _; rfl
  | cons a cols ih =>
    intro st hc
    rw [List.foldl_cons, ih _ (fun h hh => hc h (List.mem_cons_of_mem a hh)),
      chromaStep_cbuf_other cfg l st a j hl (hc a (List.mem_cons_self a cols))]

theorem splitLine_eq (cfg : Settings) (s : Comb) (dim : Int) (f : Nat) (st : SplitState)
    (l : Nat) :
    splitLine cfg s dim f st l =
      (List.range' 4 836).foldl (chromaStep cfg l)
        { st with cbuf := (demodLoop s dim f l st 836).cbuf
                  K3D := (demodLoop s dim f l st 836).K3D } := by
  simp only [splitLine, demodLoop]

/-- The demodulation loop of line `l` leaves the pixels before column 4 of the line
alone. -/
theorem demodLoop_cbuf_before (s : Comb) (dim : Int) (f l : Nat) (st : SplitState) (j : Nat)
    (hj : j < l * 910 + 4) (n : Nat) : (demodLoop s dim f l st n).cbuf j = st.cbuf j := by
  induction n with
  | zero => rfl
  | succ n ih => rw [demodLoop_succ, demodStep_cbuf_other _ _ _ _ _ _ _ (by omega), ih]

/-- The pixel that the chroma low-pass of line `l` writes at its first column, 4: it
lies 4 (narrow) or 1 (wide) pixels before the start of the line and receives the
filtered chroma of column 4 of line `l`. -/
theorem splitLine_cbuf_below (cfg : Settings) (s : Comb) (dim : Int) (f l : Nat)
    (st : SplitState) (j : Nat) (hl : 1 ≤ l)
    (hj : (j : Int) = (l : Int) * 910 + chromaCol cfg 4) :
    (splitLine cfg s dim f st l).cbuf j =
      { y := (st.cbuf j).y
        i := if cfg.bw_mode then 0
          else ((if cfg.cwide_mode then st.f_wi else st.f_i).feed (cavgAt s dim f l 4)).2
        q := if cfg.bw_mode then 0
          else ((if cfg.cwide_mode then st.f_wq else st.f_q).feed 0).2 } := by
  have hlt : j < l * 910 + 4 := by
    have c : chromaCol cfg 4 < 0 := by
      simp only [chromaCol]
      split <;> decide
    omega
  have hrange : List.range' 4 836 = 4 :: List.range' 5 835 := rfl
  have hother : ∀ h ∈ List.range' 5 835, (j : Int) ≠ (l : Int) * 910 + chromaCol cfg h := by
    intro h hh
    rw [List.mem_range'_1] at hh
    rw [hj]
    simp only [chromaCol]
    split <;> omega
  obtain ⟨a1, a2⟩ := demodStep_si_sq s dim f l (demodLoop s dim f l st 0) (4 + 0)
  have hsi1 : (demodLoop s dim f l st (0 + 1)).si = cavgAt s dim f l 4 := by
    rw [demodLoop_succ s dim f l st 0, a1]
    rfl
  have hsq1 : (demodLoop s dim f l st (0 + 1)).sq = 0 := by
    rw [demodLoop_succ s dim f l st 0, a2]
    rfl
  have hst := demodLoop_stored s dim f l st 0 836 (by decide)
  simp only [Nat.add_zero] at hst
  rw [splitLine_eq, hrange, List.foldl_cons, chromaFold_cbuf_other cfg l hl j _ _ hother,
    chromaStep_cbuf_self cfg l _ 4 j hl hj]
  dsimp only
  rw [hst, demodLoop_cbuf_before s dim f l st j hlt 836, hsi1, hsq1]

/-- C31 fails on the code: the write position `h - 8` (narrow filter) lies within
0..909 only for h >= 8, `h - 5` (wide filter) only for h >= 5; at column 4 it is -4,
respectively -1, so the step writes the pixel that many places before the start of
line `l`, which after the line holds the filtered chroma of column 4 of line `l`. -/
theorem c31_chroma_write_below_zero (cfg : Settings) (s : Comb) (dim : Int) (f l : Nat)
    (st : SplitState) :
    (∀ h, 4 ≤ h → h ≤ 839 →
      ((0 ≤ chromaCol cfg h ∧ chromaCol cfg h ≤ 909) ↔ (if cfg.cwide_mode then 5 else 8) ≤ h)) ∧
    chromaCol defaultSettings 4 = -4 ∧ chromaCol wideSettings 4 = -1 ∧
    (∀ (h j : Nat), 1 ≤ l → (j : Int) ≠ (l : Int) * 910 + chromaCol cfg h →
      (chromaStep cfg l st h).cbuf j = st.cbuf j) ∧
    (∀ (h j : Nat), 1 ≤ l → (j : Int) = (l : Int) * 910 + chromaCol cfg h →
      (chromaStep cfg l st h).cbuf j =
        { y := (st.cbuf j).y
          i := if cfg.bw_mode then 0
            else ((if cfg.cwide_mode then st.f_wi else st.f_i).feed (st.cbuf (l * 910 + h)).i).2
          q := if cfg.bw_mode then 0
            else ((if cfg.cwide_mode then st.f_wq else st.f_q).feed
              (st.cbuf (l * 910 + h)).q).2 }) ∧
    (∀ (j : Nat), 1 ≤ l → (j : Int) = (l : Int) * 910 + chromaCol cfg 4 →
      (splitLine cfg s dim f st l).cbuf j =
        { y := (st.cbuf j).y
          i := if cfg.bw_mode then 0
            else ((if cfg.cwide_mode then st.f_wi else st.f_i).feed (cavgAt s dim f l 4)).2
          q := if cfg.bw_mode then 0
            else ((if cfg.cwide_mode then st.f_wq else st.f_q).feed 0).2 }) ∧
    (splitStart edgeComb).cbuf (23 * 910 + 906) = { y := 0, i := 0, q := 0 } ∧
    (chromaStep defaultSettings 24 (splitStart edgeComb) 4).cbuf (23 * 910 + 906) =
      { y := 0, i := 7, q := 9 } ∧
    (chromaStep wideSettings 24 (splitStart edgeComb) 4).cbuf (23 * 910 + 909) =
      { y := 0, i := 7, q := 9 } := by
  refine ⟨?_, by decide, by decide,
    fun h j hl hj => chromaStep_cbuf_other cfg l st h j hl hj,
    fun h j hl hj => chromaStep_cbuf_self cfg l st h j hl hj,
    fun j hl hj => splitLine_cbuf_below cfg s dim f l st j hl hj, by decide!, by decide!,
    by decide!⟩
  intro h h4 h839
  simp only [chromaCol]
  split <;> constructor <;> intro c <;> omega

end Comb

namespace Comb

/-! ## The crude sort and the order of the additions -/

theorem crudeSort_perm (w : CDV) : (crudeSort w).triples.Perm w.triples := by
  rw [crudeSort_eq]
  exact (sortStep_perm _ 1).trans ((sortStep_perm _ 0).trans ((sortStep_perm _ 1).trans
    ((sortStep_perm _ 0).trans ((sortStep_perm _ 1).trans (sortStep_perm _ 0)))))

theorem crudeSort_sorted (w : CDV) :
    |(crudeSort w).c0| ≤ |(crudeSort w).c1| ∧ |(crudeSort w).c1| ≤ |(crudeSort w).c2| := by
  obtain ⟨m0, m1⟩ := sortPass_max w
  obtain ⟨o0, o1⟩ := sortStep_zero_sorted _ m0 m1
  have e1 : sortStep (sortStep (sortStep (sortStep w 0) 1) 0) 1 =
      sortStep (sortStep (sortStep w 0) 1) 0 := sortStep_of_sorted _ 1 o0 o1
  have e2 : sortStep (sortStep (sortStep (sortStep w 0) 1) 0) 0 =
      sortStep (sortStep (sortStep w 0) 1) 0 := sortStep_of_sorted _ 0 o0 o1
  rw [crudeSort_eq, e1, e2, e1]
  exact ⟨o0, o1⟩

/-- Without the fallback the three products are those of the triples, entry by
entry. -/
theorem products_normalize (w : CDV) (vtot : ℚ) (hv : roundDouble (1 / 100) < vtot) :
    Dbl.products (Dbl.normalize w vtot) =
      w.triples.map (fun t => roundDouble (t.1 * roundDouble (t.2.2 / vtot))) := by
  have h : ¬ vtot ≤ roundDouble (1 / 100) := not_le.mpr hv
  simp only [Dbl.products, Dbl.normalize, CDV.triples, if_neg h, List.map_cons, List.map_nil]

/-- The rounded sum of three terms, halved, lies within 2^-51 of the exact value,
relative to the sum of the magnitudes. -/
theorem half_sum_err (a b c : ℚ) :
    |roundDouble (roundDouble (roundDouble (a + b) + c) / 2) - (a + b + c) / 2| ≤
      (|a| + |b| + |c|) / 2 ^ 51 := by
  have ha := abs_nonneg a
  have hb := abs_nonneg b
  have hc := abs_nonneg c
  obtain ⟨a1, a2⟩ := abs_le.mp (le_refl |a|)
  obtain ⟨b1, b2⟩ := abs_le.mp (le_refl |b|)
  obtain ⟨c1, c2⟩ := abs_le.mp (le_refl |c|)
  generalize |a| = A at ha a1 a2 ⊢
  generalize |b| = B at hb b1 b2 ⊢
  generalize |c| = C at hc c1 c2 ⊢
  obtain ⟨x1, x2⟩ := roundDouble_abs (a + b) (A + B) (abs_le.mpr ⟨by linarith, by linarith⟩)
  generalize roundDouble (a + b) = x at x1 x2 ⊢
  obtain ⟨y1, y2⟩ := roundDouble_abs (x + c) (2 * (A + B + C))
    (abs_le.mpr ⟨by norm_num at x1 x2 ⊢; linarith, by norm_num at x1 x2 ⊢; linarith⟩)
  generalize roundDouble (x + c) = y at y1 y2 ⊢
  obtain ⟨z1, z2⟩ := roundDouble_abs (y / 2) (2 * (A + B + C))
    (abs_le.mpr ⟨by norm_num at x1 x2 y1 y2 ⊢; linarith,
      by norm_num at x1 x2 y1 y2 ⊢; linarith⟩)
  generalize roundDouble (y / 2) = z at z1 z2 ⊢
  rw [abs_le]
  constructor
  · norm_num at x1 x2 y1 y2 z1 z2 ⊢; linarith
  · norm_num at x1 x2 y1 y2 z1 z2 ⊢; linarith

theorem cavgOf_eq (w : CDV) (invertphase : Bool) :
    Dbl.cavgOf w invertphase =
      if !invertphase then
        -roundDouble (roundDouble (roundDouble (roundDouble (w.c0 * w.v0) +
          roundDouble (w.c1 * w.v1)) + roundDouble (w.c2 * w.v2)) / 2)
      else
        roundDouble (roundDouble (roundDouble (roundDouble (w.c0 * w.v0) +
          roundDouble (w.c1 * w.v1)) + roundDouble (w.c2 * w.v2)) / 2) := rfl

/-- Two `cavg` formed from the same products in another order differ by at most
2^-50 of the sum of the magnitudes of the products. -/
theorem cavgOf_perm (w u : CDV) (invertphase : Bool)
    (hp : (Dbl.products w).Perm (Dbl.products u)) :
    |Dbl.cavgOf w invertphase - Dbl.cavgOf u invertphase| ≤
      ((Dbl.products u).map (fun p => |p|)).sum / 2 ^ 50 := by
  have hs := hp.sum_eq
  have ha := (hp.map (fun p => |p|)).sum_eq
  simp only [Dbl.products, List.sum_cons, List.sum_nil, List.map_cons, List.map_nil,
    add_zero] at hs ha ⊢
  have e1 := half_sum_err (roundDouble (w.c0 * w.v0)) (roundDouble (w.c1 * w.v1))
    (roundDouble (w.c2 * w.v2))
  have e2 := half_sum_err (roundDouble (u.c0 * u.v0)) (roundDouble (u.c1 * u.v1))
    (roundDouble (u.c2 * u.v2))
  rw [cavgOf_eq, cavgOf_eq]
  generalize roundDouble (roundDouble (roundDouble (roundDouble (w.c0 * w.v0) +
    roundDouble (w.c1 * w.v1)) + roundDouble (w.c2 * w.v2)) / 2) = zw at e1 ⊢
  generalize roundDouble (roundDouble (roundDouble (roundDouble (u.c0 * u.v0) +
    roundDouble (u.c1 * u.v1)) + roundDouble (u.c2 * u.v2)) / 2) = zu at e2 ⊢
  generalize roundDouble (w.c0 * w.v0) = p0 at hs ha e1
  generalize roundDouble (w.c1 * w.v1) = p1 at hs ha e1
  generalize roundDouble (w.c2 * w.v2) = p2 at hs ha e1
  generalize roundDouble (u.c0 * u.v0) = q0 at hs ha e2 ⊢
  generalize roundDouble (u.c1 * u.v1) = q1 at hs ha e2 ⊢
  generalize roundDouble (u.c2 * u.v2) = q2 at hs ha e2 ⊢
  obtain ⟨f1, f2⟩ := abs_le.mp e1
  obtain ⟨g1, g2⟩ := abs_le.mp e2
  have hh : |zw - zu| ≤ (|q0| + (|q1| + |q2|)) / 2 ^ 50 := by
    rw [abs_le]
    constructor
    · norm_num at f1 f2 g1 g2 ⊢; linarith
    · norm_num at f1 f2 g1 g2 ⊢; linarith
  cases invertphase
  · simp only [Bool.not_false, if_true]
    rw [show -zw - -zu = -(zw - zu) by ring, abs_neg]
    exact hh
  · simp only [Bool.not_true, Bool.false_eq_true, if_false]
    exact hh

theorem roundDouble_half : roundDouble (1 / 2) = 1 / 2 := by decide!

/-- C18, as the code has it, in `double` arithmetic, for every (c, d, v) and `vtot`
that reach the sort. When `vtot > .01` the sort only changes the order of the
additions: the three products `c[k] * v[k]` added with the sort are a permutation of
those added without it, so the exact sums are equal and the two `cavg` differ by at
most 2^-50 of the sum of the magnitudes of the products. When `vtot <= .01` the
fallback gives the weight 1/2 to the entries 1 and 2, which with the sort are the two
candidates of largest `|c|` and without it are `c[1]` and `c[2]`. -/
theorem c18_sort_without_effect_amended (w : CDV) (vtot : ℚ) (invertphase : Bool) :
    (roundDouble (1 / 100) < vtot →
      (Dbl.products (Dbl.normalize (crudeSort w) vtot)).Perm
        (Dbl.products (Dbl.normalize w vtot)) ∧
      (Dbl.products (Dbl.normalize (crudeSort w) vtot)).sum =
        (Dbl.products (Dbl.normalize w vtot)).sum ∧
      |Dbl.cavgOf (Dbl.normalize (crudeSort w) vtot) invertphase -
          Dbl.cavgOf (Dbl.normalize w vtot) invertphase| ≤
        ((Dbl.products (Dbl.normalize w vtot)).map (fun p => |p|)).sum / 2 ^ 50) ∧
    (vtot ≤ roundDouble (1 / 100) →
      Dbl.normalize (crudeSort w) vtot =
        { crudeSort w with
          v0 := roundDouble ((crudeSort w).v0 / 2), v1 := 1 / 2, v2 := 1 / 2 } ∧
      Dbl.normalize w vtot = { w with v0 := roundDouble (w.v0 / 2), v1 := 1 / 2, v2 := 1 / 2 } ∧
      |(crudeSort w).c0| ≤ |(crudeSort w).c1| ∧ |(crudeSort w).c1| ≤ |(crudeSort w).c2| ∧
      (crudeSort w).triples.Perm w.triples) := by
  constructor
  · intro hv
    have hp : (Dbl.products (Dbl.normalize (crudeSort w) vtot)).Perm
        (Dbl.products (Dbl.normalize w vtot)) := by
      rw [products_normalize _ _ hv, products_normalize _ _ hv]
      exact (crudeSort_perm w).map _
    exact ⟨hp, hp.sum_eq, cavgOf_perm _ _ invertphase hp⟩
  · intro hv
    refine ⟨?_, ?_, (crudeSort_sorted w).1, (crudeSort_sorted w).2, crudeSort_perm w⟩
    · simp only [Dbl.normalize, hv, if_true, roundDouble_half]
    · simp only [Dbl.normalize, hv, if_true, roundDouble_half]

theorem c18_sort_without_effect_amended_witness :
    roundDouble (1 / 100) < Dbl.vtotOf lastBitCDV ∧
    crudeSort lastBitCDV ≠ lastBitCDV ∧
    (Dbl.products (Dbl.normalize (crudeSort lastBitCDV) (Dbl.vtotOf lastBitCDV))).Perm
      (Dbl.products (Dbl.normalize lastBitCDV (Dbl.vtotOf lastBitCDV))) ∧
    |Dbl.cavgOf (Dbl.normalize (crudeSort lastBitCDV) (Dbl.vtotOf lastBitCDV)) true -
        Dbl.cavgOf (Dbl.normalize lastBitCDV (Dbl.vtotOf lastBitCDV)) true| ≤
      ((Dbl.products (Dbl.normalize lastBitCDV (Dbl.vtotOf lastBitCDV))).map
        (fun p => |p|)).sum / 2 ^ 50 :=
  ⟨by decide!, by decide!,
    ((c18_sort_without_effect_amended lastBitCDV (Dbl.vtotOf lastBitCDV) true).1
      (by decide!)).1,
    ((c18_sort_without_effect_amended lastBitCDV (Dbl.vtotOf lastBitCDV) true).1
      (by decide!)).2.2⟩

/-- C18, as stated, fails. With `dim = 1` at line 100, column 100 of `spotComb`
(`vtot = 0`, fallback taken) the code yields `cavg = -1/2`, the same code without the
sort loop yields 0. And in `double` arithmetic the equality fails also when `vtot >
.01`: for the candidates -4, 1, 1 with the confidences 0.6, 0.1, 0.3 (`vtot = 1`) the
code yields -1 and the code without the sort loop the next `double` toward 0. -/
theorem c18_sort_without_effect_counterexample :
    Dbl.vtotOf (gate (candidates spotComb 1 0 100 100)) = 0 ∧
    Dbl.cavgOf (Dbl.normalize (crudeSort (gate (candidates spotComb 1 0 100 100))) 0) false =
      -1 / 2 ∧
    Dbl.cavgOf (Dbl.normalize (gate (candidates spotComb 1 0 100 100)) 0) false = 0 ∧
    cavgAt spotComb 1 0 100 100 = -1 / 2 ∧
    Dbl.vtotOf lastBitCDV = 1 ∧
    Dbl.cavgOf (Dbl.normalize (crudeSort lastBitCDV) 1) true = -1 ∧
    Dbl.cavgOf (Dbl.normalize lastBitCDV 1) true = -(9007199254740991 / 9007199254740992) := by
  decide!

end Comb
